import Mathlib

/-!
# The build engine of atc: plan compilation and build supervision

A shallow embedding of `engine/exec_engine.go` and `engine/engine.go`, of the
handlers `api/workerserver/register.go` and `api/pipes/read.go` and of
`api/present/resource.go`, together with models of the store and of the
workers, whose code is not among the sources, written from the specification
and their test suites.
The first part holds the definitions (the data model of plans, origin
locations and compiled step factories, the operations of `execEngine` and
`execBuild`, then the store, the workers and the handlers), the second part
the theorems about them.
-/

namespace Atc

/-! ## Data model: plans -/

/-- Modelled from the spec: the declaration of `atc.Source` (a resource's
source parameters) is not among the sources; it is an ordered string map here. -/
abbrev Source := List (String × String)

/-- Modelled from the spec: the declaration of `atc.Params` is not among the
sources; it is an ordered string map here. -/
abbrev Params := List (String × String)

/-- Modelled from the spec: the declaration of `atc.Version` (the version-map
of the data model) is not among the sources. -/
abbrev Version := List (String × String)

/-- Modelled from the spec: the declaration of `atc.Tags` is not among the
sources; tags are a list of strings (`[]string` in the factory tests). -/
abbrev Tags := List String

/-- Modelled from the spec: `atc.Condition` (`success` or `failure`) is not
among the sources; a condition is kept as its string. -/
abbrev Condition := String

/-- Modelled from the spec: `atc.Conditions`, the condition list of a
`Conditional` plan. -/
abbrev Conditions := List Condition

/-- Modelled from the spec: the `duration` of a `Timeout` plan, in nanoseconds. -/
abbrev Duration := Int

/-- Modelled from the spec: the declaration of `atc.TaskConfig` is not among
the sources; the fields are the ones the factory tests populate. -/
structure TaskConfig where
  Image : String
  Params : List (String × String)
  RunPath : String
  RunArgs : List String
  deriving DecidableEq, Repr

/-- Modelled from the spec: `atc.TaskPlan` (kind `Task`: name,
config/configPath, privileged?, tags); `Config` is a pointer in the source. -/
structure TaskPlan where
  Name : String
  Privileged : Bool
  Tags : Atc.Tags
  ConfigPath : String
  Config : Option TaskConfig
  deriving DecidableEq, Repr

/-- Modelled from the spec: `atc.GetPlan` (kind `Get`: resource, params,
version?, tags), with the fields `buildStepFactory` reads. -/
structure GetPlan where
  Type_ : String
  Name : String
  Resource : String
  Pipeline : String
  Source : Atc.Source
  Params : Atc.Params
  Version : Atc.Version
  Tags : Atc.Tags
  deriving DecidableEq, Repr

/-- Modelled from the spec: `atc.PutPlan` (kind `Put`: resource, params,
tags), with the fields `buildStepFactory` reads. -/
structure PutPlan where
  Type_ : String
  Name : String
  Resource : String
  Pipeline : String
  Source : Atc.Source
  Params : Atc.Params
  GetParams : Atc.Params
  Tags : Atc.Tags
  deriving DecidableEq, Repr

/-- Modelled from the spec: `PutPlan.GetPlan()` is not among the sources; the
dependent Get of a Put fetches the resource that was put, with the put's
`GetParams` as its params and no pinned version. -/
def PutPlan.GetPlan (plan : PutPlan) : GetPlan :=
  { Type_ := plan.Type_
    Name := plan.Name
    Resource := plan.Resource
    Pipeline := plan.Pipeline
    Source := plan.Source
    Params := plan.GetParams
    Version := []
    Tags := plan.Tags }

mutual
/-- Modelled from the spec: `atc.Plan`, the recursive tagged plan tree.  In
the source a plan is a struct with one pointer field per kind, so any number
of kinds (also none) may be set on one node; `none` is the nil pointer.  The
fields are listed in the order in which `buildStepFactory` tests them, `Put`
(which it only reads through a `PutGet` head) before `PutGet`. -/
inductive Plan where
  | mk (Aggregate : Option (List Plan))
       (Try : Option TryPlan)
       (Timeout : Option TimeoutPlan)
       (HookedCompose : Option HookedComposePlan)
       (Compose : Option ComposePlan)
       (Conditional : Option ConditionalPlan)
       (Task : Option TaskPlan)
       (Get : Option GetPlan)
       (Put : Option PutPlan)
       (PutGet : Option PutGetPlan)
/-- Modelled from the spec: `atc.TryPlan`. -/
inductive TryPlan where
  | mk (Step : Plan)
/-- Modelled from the spec: `atc.TimeoutPlan`. -/
inductive TimeoutPlan where
  | mk (Step : Plan) (Duration : Atc.Duration)
/-- Modelled from the spec: `atc.HookedComposePlan`. -/
inductive HookedComposePlan where
  | mk (Step OnFailure OnSuccess OnCompletion Next : Plan)
/-- Modelled from the spec: `atc.ComposePlan`. -/
inductive ComposePlan where
  | mk (A B : Plan)
/-- Modelled from the spec: `atc.ConditionalPlan`. -/
inductive ConditionalPlan where
  | mk (Conditions : Atc.Conditions) (Plan : Atc.Plan)
/-- Modelled from the spec: `atc.PutGetPlan` (head: Put; rest: plan). -/
inductive PutGetPlan where
  | mk (Head Rest : Plan)
end

/-- The plan with no kind set, `atc.Plan{}`. -/
def Plan.empty : Plan := .mk none none none none none none none none none none

/-- The field `plan.Aggregate`. -/
def Plan.Aggregate : Plan → Option (List Plan)
  | .mk a _ _ _ _ _ _ _ _ _ => a

/-- The field `plan.Put`. -/
def Plan.Put : Plan → Option PutPlan
  | .mk _ _ _ _ _ _ _ _ p _ => p

/-- The plan `atc.Plan{Aggregate: &ps}`. -/
def Plan.ofAggregate (ps : List Plan) : Plan :=
  .mk (some ps) none none none none none none none none none

/-- The plan `atc.Plan{Try: &atc.TryPlan{Step: s}}`. -/
def Plan.ofTry (s : Plan) : Plan :=
  .mk none (some ⟨s⟩) none none none none none none none none

/-- The plan `atc.Plan{Timeout: &atc.TimeoutPlan{Step: s, Duration: d}}`. -/
def Plan.ofTimeout (s : Plan) (d : Duration) : Plan :=
  .mk none none (some ⟨s, d⟩) none none none none none none none

/-- The plan `atc.Plan{HookedCompose: &atc.HookedComposePlan{...}}`. -/
def Plan.ofHookedCompose (step onFailure onSuccess onCompletion next : Plan) : Plan :=
  .mk none none none (some ⟨step, onFailure, onSuccess, onCompletion, next⟩)
    none none none none none none

/-- The plan `atc.Plan{Compose: &atc.ComposePlan{A: a, B: b}}`. -/
def Plan.ofCompose (a b : Plan) : Plan :=
  .mk none none none none (some ⟨a, b⟩) none none none none none

/-- The plan `atc.Plan{Conditional: &atc.ConditionalPlan{...}}`. -/
def Plan.ofConditional (cs : Conditions) (p : Plan) : Plan :=
  .mk none none none none none (some ⟨cs, p⟩) none none none none

/-- The plan `atc.Plan{Task: &t}`. -/
def Plan.ofTask (t : TaskPlan) : Plan :=
  .mk none none none none none none (some t) none none none

/-- The plan `atc.Plan{Get: &g}`. -/
def Plan.ofGet (g : GetPlan) : Plan :=
  .mk none none none none none none none (some g) none none

/-- The plan `atc.Plan{Put: &p}`, as it appears as the head of a `PutGet`. -/
def Plan.ofPut (p : PutPlan) : Plan :=
  .mk none none none none none none none none (some p) none

/-- The plan `atc.Plan{PutGet: &atc.PutGetPlan{Head: head, Rest: rest}}`. -/
def Plan.ofPutGet (head rest : Plan) : Plan :=
  .mk none none none none none none none none none (some ⟨head, rest⟩)

mutual
/-- Every `PutGet` node anywhere in the plan has a head that carries a `Put`
(`plan.PutGet.Head.Put != nil`). -/
def Plan.putGetHeadsHavePut : Plan → Bool
  | .mk aggregate try_ timeout hooked compose conditional _ _ _ putGet =>
    Plan.aggregateHeadsHavePut aggregate && Plan.tryHeadsHavePut try_ &&
      Plan.timeoutHeadsHavePut timeout && Plan.hookedHeadsHavePut hooked &&
      Plan.composeHeadsHavePut compose && Plan.conditionalHeadsHavePut conditional &&
      Plan.putGetHeadHasPut putGet
/-- The same for the plans under `plan.Aggregate`. -/
def Plan.aggregateHeadsHavePut : Option (List Plan) → Bool
  | none => true
  | some plans => Plan.allPutGetHeadsHavePut plans
/-- The same for every plan of a list (the members of an aggregate). -/
def Plan.allPutGetHeadsHavePut : List Plan → Bool
  | [] => true
  | plan :: plans => plan.putGetHeadsHavePut && Plan.allPutGetHeadsHavePut plans
/-- The same for the plan under `plan.Try`. -/
def Plan.tryHeadsHavePut : Option TryPlan → Bool
  | none => true
  | some (.mk step) => step.putGetHeadsHavePut
/-- The same for the plan under `plan.Timeout`. -/
def Plan.timeoutHeadsHavePut : Option TimeoutPlan → Bool
  | none => true
  | some (.mk step _) => step.putGetHeadsHavePut
/-- The same for the plans under `plan.HookedCompose`. -/
def Plan.hookedHeadsHavePut : Option HookedComposePlan → Bool
  | none => true
  | some (.mk step onFailure onSuccess onCompletion next) =>
    step.putGetHeadsHavePut && onFailure.putGetHeadsHavePut && onSuccess.putGetHeadsHavePut &&
      onCompletion.putGetHeadsHavePut && next.putGetHeadsHavePut
/-- The same for the plans under `plan.Compose`. -/
def Plan.composeHeadsHavePut : Option ComposePlan → Bool
  | none => true
  | some (.mk a b) => a.putGetHeadsHavePut && b.putGetHeadsHavePut
/-- The same for the plan under `plan.Conditional`. -/
def Plan.conditionalHeadsHavePut : Option ConditionalPlan → Bool
  | none => true
  | some (.mk _ plan) => plan.putGetHeadsHavePut
/-- The head of `plan.PutGet` carries a `Put`, and the same for the plans under
it. -/
def Plan.putGetHeadHasPut : Option PutGetPlan → Bool
  | none => true
  | some (.mk head rest) =>
    head.Put.isSome && head.putGetHeadsHavePut && rest.putGetHeadsHavePut
end

/-! ## Data model: origin locations and worker identifiers -/

/-- Modelled from the spec: `event.OriginLocation`, the coordinate
`(id, parent_id, parallel_group)` attached to every step; its declaration is
not among the sources.  The counters are natural numbers. -/
structure OriginLocation where
  ParentID : Nat
  ID : Nat
  ParallelGroup : Nat
  deriving DecidableEq, Repr

/-- Modelled from the spec: `event.OriginLocationIncrement`, the origin count
a compilation returns to its caller. -/
abbrev OriginLocationIncrement := Nat

/-- Modelled from the spec: `event.NoIncrement`, no origin ID consumed. -/
def NoIncrement : OriginLocationIncrement := 0

/-- Modelled from the spec: `event.SingleIncrement`, one origin ID consumed. -/
def SingleIncrement : OriginLocationIncrement := 1

/-- Modelled from the spec: `OriginLocation.Incr` advances the ID counter by
an increment and keeps the other coordinates. -/
def OriginLocation.Incr (ol : OriginLocation) (n : OriginLocationIncrement) : OriginLocation :=
  { ol with ID := ol.ID + n }

/-- Modelled from the spec: `OriginLocation.SetParentID` replaces the parent
ID and keeps the other coordinates. -/
def OriginLocation.SetParentID (ol : OriginLocation) (id : Nat) : OriginLocation :=
  { ol with ParentID := id }

/-- Modelled from the spec: `worker.Identifier`, with the fields the engine
sets (the others keep their zero value). -/
structure Identifier where
  BuildID : Int
  Type_ : String
  Name : String
  StepLocation : Nat
  deriving DecidableEq, Repr

/-! ## Data model: compiled steps -/

/-- Modelled from the spec: `atc.ResourceConfig`, with the fields the engine
sets. -/
structure ResourceConfig where
  Name : String
  Type_ : String
  Source : Atc.Source
  deriving DecidableEq, Repr

/-- Modelled from the spec: the `exec.TaskConfigSource` values the engine
builds (`MergedConfigSource`, `StaticConfigSource`, `FileConfigSource`). -/
inductive TaskConfigSource where
  | MergedConfigSource (A B : TaskConfigSource)
  | StaticConfigSource (config : TaskConfig)
  | FileConfigSource (path : String)
  deriving DecidableEq, Repr

/-- The arguments of `build.delegate.ExecutionDelegate(logger, plan, location,
hook)`: the delegate tags every event of the task with this location. -/
structure ExecutionDelegate where
  plan : TaskPlan
  location : OriginLocation
  hook : String
  deriving DecidableEq, Repr

/-- The arguments of `build.delegate.InputDelegate(logger, plan, location, hook)`. -/
structure InputDelegate where
  plan : GetPlan
  location : OriginLocation
  hook : String
  deriving DecidableEq, Repr

/-- The arguments of `build.delegate.OutputDelegate(logger, plan, location, hook)`. -/
structure OutputDelegate where
  plan : PutPlan
  location : OriginLocation
  hook : String
  deriving DecidableEq, Repr

/-- Modelled from the spec: `exec.StepFactory`, as the tree of constructor
calls `buildStepFactory` makes on the `exec` package and on `exec.Factory`
(`Task`, `Get`, `Put`, `DependentGet`), each with the arguments it receives. -/
inductive StepFactory where
  | Aggregate (steps : List StepFactory)
  | Try (step : StepFactory)
  | Timeout (step : StepFactory) (duration : Duration)
  | HookedCompose (step next failure success ensure : StepFactory)
  | Compose (a b : StepFactory)
  | Conditional (conditions : Conditions) (stepFactory : StepFactory)
  | Task (sourceName : String) (id : Identifier) (delegate : ExecutionDelegate)
      (privileged : Bool) (tags : Tags) (configSource : TaskConfigSource)
  | Get (sourceName : String) (id : Identifier) (delegate : InputDelegate)
      (config : ResourceConfig) (params : Params) (tags : Tags) (version : Version)
  | Put (id : Identifier) (delegate : OutputDelegate) (config : ResourceConfig)
      (tags : Tags) (params : Params)
  | DependentGet (sourceName : String) (id : Identifier) (delegate : InputDelegate)
      (config : ResourceConfig) (tags : Tags) (params : Params)
  | Identity
  deriving Repr

/-! ## Plan compilation (`exec_engine.go`, lines 137-358) -/

/-- The method `execBuild.taskIdentifier`. -/
def taskIdentifier (buildID : Int) (name : String) (location : OriginLocation) : Identifier :=
  { BuildID := buildID, Type_ := "task", Name := name, StepLocation := location.ID }

/-- The method `execBuild.getIdentifier`. -/
def getIdentifier (buildID : Int) (name : String) (location : OriginLocation) : Identifier :=
  { BuildID := buildID, Type_ := "get", Name := name, StepLocation := location.ID }

/-- The method `execBuild.putIdentifier`. -/
def putIdentifier (buildID : Int) (name : String) (location : OriginLocation) : Identifier :=
  { BuildID := buildID, Type_ := "put", Name := name, StepLocation := location.ID }

mutual
/-- The method `execBuild.buildStepFactory`.  `buildID` is the receiver's
`build.buildID`; the logger is left out (it only names log sessions).  The
result is `none` when the source panics on the nil `plan.PutGet.Head.Put`. -/
def buildStepFactory (buildID : Int) :
    Plan → OriginLocation → String → Option (StepFactory × OriginLocationIncrement)
  | .mk (some innerPlans) _ _ _ _ _ _ _ _ _, location, hook =>
    let location : OriginLocation :=
      if location.ParallelGroup ≠ 0 then
        { location with ParentID := location.ParallelGroup }
      else location
    let location : OriginLocation := { location with ParallelGroup := location.ID }
    (buildAggregateSteps buildID innerPlans location hook 1 []).bind fun r =>
      some (StepFactory.Aggregate r.1, r.2)
  | .mk none (some ⟨step⟩) _ _ _ _ _ _ _ _, location, _ =>
    (buildStepFactory buildID step location "").bind fun r =>
      some (StepFactory.Try r.1, r.2)
  | .mk none none (some ⟨step, duration⟩) _ _ _ _ _ _ _, location, _ =>
    (buildStepFactory buildID step location "").bind fun r =>
      some (StepFactory.Timeout r.1 duration, r.2)
  | .mk none none none (some ⟨step, onFailure, onSuccess, onCompletion, next⟩) _ _ _ _ _ _,
      location0, hook =>
    (buildStepFactory buildID step location0 hook).bind fun s =>
    let location : OriginLocation := { location0 with ParallelGroup := 0 }
    (buildStepFactory buildID onFailure
      ((location.SetParentID location.ID).Incr s.2) "failure").bind fun f =>
    (buildStepFactory buildID onSuccess
      ((location.SetParentID location.ID).Incr (s.2 + f.2)) "success").bind fun su =>
    (buildStepFactory buildID onCompletion
      ((location.SetParentID location.ID).Incr (s.2 + su.2 + f.2)) "ensure").bind fun e =>
    (buildStepFactory buildID next
      (location.Incr (s.2 + su.2 + f.2 + e.2)) hook).bind fun n =>
    some (StepFactory.HookedCompose s.1 n.1 f.1 su.1 e.1, s.2 + n.2 + e.2 + f.2 + su.2)
  | .mk none none none none (some ⟨a, b⟩) _ _ _ _ _, location, _ =>
    (buildStepFactory buildID a location "").bind fun x =>
    (buildStepFactory buildID b (location.Incr x.2) "").bind fun y =>
    some (StepFactory.Compose x.1 y.1, x.2 + y.2)
  | .mk none none none none none (some ⟨conditions, plan⟩) _ _ _ _, location, _ =>
    (buildStepFactory buildID plan location "").bind fun r =>
      some (StepFactory.Conditional conditions r.1, r.2)
  | .mk none none none none none none (some task) _ _ _, location, hook =>
    let configSource : Option TaskConfigSource :=
      match task.Config with
      | some config =>
        if task.ConfigPath ≠ "" then
          some (.MergedConfigSource (.FileConfigSource task.ConfigPath) (.StaticConfigSource config))
        else
          some (.StaticConfigSource config)
      | none =>
        if task.ConfigPath ≠ "" then
          some (.FileConfigSource task.ConfigPath)
        else
          none
    match configSource with
    | none => some (StepFactory.Identity, NoIncrement)
    | some configSource =>
      some (StepFactory.Task task.Name (taskIdentifier buildID task.Name location)
        ⟨task, location, hook⟩ task.Privileged task.Tags configSource, SingleIncrement)
  | .mk none none none none none none none (some get) _ _, location, hook =>
    some (StepFactory.Get get.Name (getIdentifier buildID get.Name location)
      ⟨get, location, hook⟩ ⟨get.Resource, get.Type_, get.Source⟩
      get.Params get.Tags get.Version, SingleIncrement)
  | .mk none none none none none none none none _ (some ⟨head, rest⟩), location, hook =>
    match head.Put with
    | none => none
    | some putPlan =>
      let getPlan := putPlan.GetPlan
      let getLocation : OriginLocation := (location.Incr 1).SetParentID location.ID
      let getLocation : OriginLocation := { getLocation with ParallelGroup := 0 }
      let restLocation := location.Incr 2
      (buildStepFactory buildID rest restLocation "").bind fun r =>
      some (StepFactory.HookedCompose
        (StepFactory.Put (putIdentifier buildID putPlan.Resource location)
          ⟨putPlan, location, hook⟩ ⟨putPlan.Resource, putPlan.Type_, putPlan.Source⟩
          putPlan.Tags putPlan.Params)
        r.1
        StepFactory.Identity
        (StepFactory.DependentGet getPlan.Name (getIdentifier buildID getPlan.Name getLocation)
          ⟨getPlan, getLocation, ""⟩ ⟨getPlan.Resource, getPlan.Type_, getPlan.Source⟩
          getPlan.Tags getPlan.Params)
        StepFactory.Identity, 2 + r.2)
  | .mk none none none none none none none none _ none, _, _ =>
    some (StepFactory.Identity, NoIncrement)
/-- The loop `for _, innerPlan := range *plan.Aggregate` of `buildStepFactory`:
`location` is the location after the aggregate's adjustments, `aID` the running
increment and `step` the `exec.Aggregate` built so far. -/
def buildAggregateSteps (buildID : Int) :
    List Plan → OriginLocation → String → OriginLocationIncrement → List StepFactory →
      Option (List StepFactory × OriginLocationIncrement)
  | [], _, _, aID, step => some (step, aID)
  | innerPlan :: innerPlans, location, hook, aID, step =>
    (buildStepFactory buildID innerPlan (location.Incr aID)
      (if innerPlan.Aggregate.isNone then hook else "")).bind fun r =>
    buildAggregateSteps buildID innerPlans location hook (aID + r.2) (step ++ [r.1])
end

/-! ## Observations on compiled steps -/

mutual
/-- The origin locations handed to the delegates of the event-emitting steps
of a compiled step (`Task`, `Get`, `Put`, `DependentGet`): every event such a
step emits is tagged with this location. -/
def StepFactory.locations : StepFactory → List OriginLocation
  | .Aggregate steps => StepFactory.locationsOfSteps steps
  | .Try step => step.locations
  | .Timeout step _ => step.locations
  | .HookedCompose step next failure success ensure =>
    step.locations ++ failure.locations ++ success.locations ++ ensure.locations ++
      next.locations
  | .Compose a b => a.locations ++ b.locations
  | .Conditional _ stepFactory => stepFactory.locations
  | .Task _ _ delegate _ _ _ => [delegate.location]
  | .Get _ _ delegate _ _ _ _ => [delegate.location]
  | .Put _ delegate _ _ _ => [delegate.location]
  | .DependentGet _ _ delegate _ _ _ => [delegate.location]
  | .Identity => []
/-- The locations of the steps of an `exec.Aggregate`. -/
def StepFactory.locationsOfSteps : List StepFactory → List OriginLocation
  | [] => []
  | step :: steps => step.locations ++ StepFactory.locationsOfSteps steps
end

mutual
/-- The worker identifiers of the steps of a compiled step, in the order of
`StepFactory.locations`. -/
def StepFactory.identifiers : StepFactory → List Identifier
  | .Aggregate steps => StepFactory.identifiersOfSteps steps
  | .Try step => step.identifiers
  | .Timeout step _ => step.identifiers
  | .HookedCompose step next failure success ensure =>
    step.identifiers ++ failure.identifiers ++ success.identifiers ++ ensure.identifiers ++
      next.identifiers
  | .Compose a b => a.identifiers ++ b.identifiers
  | .Conditional _ stepFactory => stepFactory.identifiers
  | .Task _ id _ _ _ _ => [id]
  | .Get _ id _ _ _ _ _ => [id]
  | .Put id _ _ _ _ => [id]
  | .DependentGet _ id _ _ _ _ => [id]
  | .Identity => []
/-- The identifiers of the steps of an `exec.Aggregate`. -/
def StepFactory.identifiersOfSteps : List StepFactory → List Identifier
  | [] => []
  | step :: steps => step.identifiers ++ StepFactory.identifiersOfSteps steps
end

/-- The origin IDs of the event-emitting steps of a compiled step. -/
def StepFactory.originIDs (stepFactory : StepFactory) : List Nat :=
  stepFactory.locations.map (·.ID)

/-- The location of the step a compiled member runs first, seen through the
wrappers that keep the location of what they wrap (`Try`, `Timeout`,
`Conditional`, and the `step` slot of a `HookedCompose`, which for a compiled
`PutGet` holds the `Put`). -/
def StepFactory.headLocation : StepFactory → Option OriginLocation
  | .Try step => step.headLocation
  | .Timeout step _ => step.headLocation
  | .HookedCompose step _ _ _ _ => step.headLocation
  | .Conditional _ stepFactory => stepFactory.headLocation
  | .Task _ _ delegate _ _ _ => some delegate.location
  | .Get _ _ delegate _ _ _ _ => some delegate.location
  | .Put _ delegate _ _ _ => some delegate.location
  | _ => none

/-- The increment a compilation returned (0 when it panicked). -/
def incrementOf (r : Option (StepFactory × OriginLocationIncrement)) : OriginLocationIncrement :=
  match r with
  | some r => r.2
  | none => 0

mutual
/-- The IDs of the aggregates of a plan: the `location.ID` of every invocation
of `buildStepFactory` that takes the `plan.Aggregate != nil` branch, listed
along the recursion of `buildStepFactory` (same sub-plans, same locations and
hooks, the sibling offsets being the increments `buildStepFactory` returns).
The compiled `exec.Aggregate` does not record this ID; its members receive it
as their `ParallelGroup`. -/
def aggregateIDs (buildID : Int) : Plan → OriginLocation → String → List Nat
  | .mk (some innerPlans) _ _ _ _ _ _ _ _ _, location, hook =>
    let location1 : OriginLocation :=
      if location.ParallelGroup ≠ 0 then
        { location with ParentID := location.ParallelGroup }
      else location
    let location2 : OriginLocation := { location1 with ParallelGroup := location1.ID }
    location.ID :: aggregateIDsOfSteps buildID innerPlans location2 hook 1
  | .mk none (some ⟨step⟩) _ _ _ _ _ _ _ _, location, _ =>
    aggregateIDs buildID step location ""
  | .mk none none (some ⟨step, _⟩) _ _ _ _ _ _ _, location, _ =>
    aggregateIDs buildID step location ""
  | .mk none none none (some ⟨step, onFailure, onSuccess, onCompletion, next⟩) _ _ _ _ _ _,
      location0, hook =>
    let location : OriginLocation := { location0 with ParallelGroup := 0 }
    let failureLocation := fun (s : OriginLocationIncrement) =>
      (location.SetParentID location.ID).Incr s
    let successLocation := fun (s f : OriginLocationIncrement) =>
      (location.SetParentID location.ID).Incr (s + f)
    let ensureLocation := fun (s f su : OriginLocationIncrement) =>
      (location.SetParentID location.ID).Incr (s + su + f)
    let s := incrementOf (buildStepFactory buildID step location0 hook)
    let f := incrementOf (buildStepFactory buildID onFailure (failureLocation s) "failure")
    let su := incrementOf (buildStepFactory buildID onSuccess (successLocation s f) "success")
    let e := incrementOf (buildStepFactory buildID onCompletion (ensureLocation s f su) "ensure")
    aggregateIDs buildID step location0 hook ++
      aggregateIDs buildID onFailure (failureLocation s) "failure" ++
      aggregateIDs buildID onSuccess (successLocation s f) "success" ++
      aggregateIDs buildID onCompletion (ensureLocation s f su) "ensure" ++
      aggregateIDs buildID next (location.Incr (s + su + f + e)) hook
  | .mk none none none none (some ⟨a, b⟩) _ _ _ _ _, location, _ =>
    let x := incrementOf (buildStepFactory buildID a location "")
    aggregateIDs buildID a location "" ++ aggregateIDs buildID b (location.Incr x) ""
  | .mk none none none none none (some ⟨_, plan⟩) _ _ _ _, location, _ =>
    aggregateIDs buildID plan location ""
  | .mk none none none none none none (some _) _ _ _, _, _ => []
  | .mk none none none none none none none (some _) _ _, _, _ => []
  | .mk none none none none none none none none _ (some ⟨_, rest⟩), location, _ =>
    aggregateIDs buildID rest (location.Incr 2) ""
  | .mk none none none none none none none none _ none, _, _ => []
/-- The aggregate IDs inside the members of an aggregate, along the loop
`buildAggregateSteps`. -/
def aggregateIDsOfSteps (buildID : Int) :
    List Plan → OriginLocation → String → OriginLocationIncrement → List Nat
  | [], _, _, _ => []
  | innerPlan :: innerPlans, location, hook, aID =>
    let memberHook := if innerPlan.Aggregate.isNone then hook else ""
    let r := incrementOf (buildStepFactory buildID innerPlan (location.Incr aID) memberHook)
    aggregateIDs buildID innerPlan (location.Incr aID) memberHook ++
      aggregateIDsOfSteps buildID innerPlans location hook (aID + r)
end

/-- The plans that compile to a step of their own kept at the location they are
compiled from: a `Get`, a `Task` with a config or a config path, a `PutGet`
whose head carries a `Put`, or one of these wrapped in `Try`, `Timeout` or
`Conditional`. -/
def Plan.isDirectStep : Plan → Bool
  | .mk (some _) _ _ _ _ _ _ _ _ _ => false
  | .mk none (some ⟨step⟩) _ _ _ _ _ _ _ _ => step.isDirectStep
  | .mk none none (some ⟨step, _⟩) _ _ _ _ _ _ _ => step.isDirectStep
  | .mk none none none (some _) _ _ _ _ _ _ => false
  | .mk none none none none (some _) _ _ _ _ _ => false
  | .mk none none none none none (some ⟨_, plan⟩) _ _ _ _ => plan.isDirectStep
  | .mk none none none none none none (some task) _ _ _ =>
    task.Config.isSome || task.ConfigPath ≠ ""
  | .mk none none none none none none none (some _) _ _ => true
  | .mk none none none none none none none none _ (some ⟨head, _⟩) => head.Put.isSome
  | .mk none none none none none none none none _ none => false

/-! ## Step execution order -/

/-- Modelled from the spec: `exec.HookedCompose` is not among the sources.
Per the spec, after `step` exactly one of `onSuccess`/`onFailure` runs (per the
terminal success of `step`), then `onCompletion`, then `next`.  The arguments
are in the order of the source's calls `exec.HookedCompose(step, next, failure,
success, ensure)`; the result lists the compiled parts in the order they run,
given whether `step` succeeded. -/
def hookedComposeRunOrder (step next failure success ensure : StepFactory)
    (stepSucceeded : Bool) : List StepFactory :=
  [step, if stepSucceeded then success else failure, ensure, next]

/-- The parts a compiled step runs when it is a `HookedCompose`, in order
(`none` for every other compiled step). -/
def StepFactory.hookedRunOrder (stepSucceeded : Bool) : StepFactory → Option (List StepFactory)
  | .HookedCompose step next failure success ensure =>
    some (hookedComposeRunOrder step next failure success ensure stepSucceeded)
  | _ => none

/-- A compiled step is the dependent Get of a Put. -/
def StepFactory.isDependentGet : StepFactory → Bool
  | .DependentGet _ _ _ _ _ _ => true
  | _ => false

/-- A compiled step is a Put. -/
def StepFactory.isPut : StepFactory → Bool
  | .Put _ _ _ _ _ => true
  | _ => false

/-! ## Builds (`exec_engine.go`, lines 19-135) -/

/-- A Go `error` value that is not nil, as its message `err.Error()`. -/
abbrev Error := String

/-- The values of `os.Signal`: `os.Kill`, `os.Interrupt`, and any other signal
by its number. -/
inductive Signal where
  | Kill
  | Interrupt
  | other (n : Nat)
  deriving DecidableEq, Repr

/-- The type `exec.Success`. -/
abbrev Success := Bool

/-- The struct `execMetadata`. -/
structure execMetadata where
  Plan : Atc.Plan

/-- Modelled from the spec: `db.Build`, with the fields the engine reads
(`id` and `engine_metadata` of the data model). -/
structure Build where
  ID : Int
  EngineMetadata : String
  deriving DecidableEq, Repr

/-- The capacity of the channel `make(chan os.Signal, 1)`. -/
def signalsCapacity : Nat := 1

/-- The struct `execBuild`.  `delegate` is the build ID the delegate was made
for (`engine.delegateFactory.Delegate(model.ID)`); `signals` is the content of
the buffered channel, oldest signal first.  The engine's `db` and `factory`
are shared by all builds and left out. -/
structure execBuild where
  buildID : Int
  delegate : Int
  signals : List Signal
  metadata : execMetadata

/-- The functions `json.Marshal` and `json.Unmarshal` of the Go library at the
type `execMetadata`. -/
structure JSON where
  Marshal : execMetadata → Except Error String
  Unmarshal : String → Except Error execMetadata

/-- The method `execEngine.CreateBuild`. -/
def CreateBuild (model : Build) (plan : Plan) : Except Error execBuild :=
  .ok { buildID := model.ID, delegate := model.ID, signals := [], metadata := ⟨plan⟩ }

/-- The method `execEngine.LookupBuild`. -/
def LookupBuild (json : JSON) (model : Build) : Except Error execBuild :=
  match json.Unmarshal model.EngineMetadata with
  | .error err => .error err
  | .ok metadata =>
    .ok { buildID := model.ID, delegate := model.ID, signals := [], metadata := metadata }

/-- The method `execBuild.Metadata`; `none` when it panics on a marshalling
error. -/
def execBuild.Metadata (json : JSON) (build : execBuild) : Option String :=
  match json.Marshal build.metadata with
  | .error _ => none
  | .ok payload => some payload

/-- The method `execBuild.Abort`: the send `build.signals <- os.Kill` followed
by `return nil`.  The result is the build with the signal in its channel and
the returned error; it is `none` while the channel is full, when the send
blocks and `Abort` has not returned. -/
def execBuild.Abort (build : execBuild) : Option (execBuild × Option Error) :=
  if build.signals.length < signalsCapacity then
    some ({ build with signals := build.signals ++ [Signal.Kill] }, none)
  else
    none

/-- The function `strings.Contains` of the Go library. -/
def stringsContains (s substr : String) : Bool :=
  decide (substr.toList <:+: s.toList)

/-- The call `build.delegate.Finish(logger, err, succeeded, aborted)`. -/
structure FinishCall where
  err : Option Error
  succeeded : Success
  aborted : Bool
  deriving DecidableEq, Repr

/-- What a run of `Resume` did from the start of its loop to its return: the
signals passed to `process.Signal`, in order; the number of calls of
`source.Result`; the messages logged with `logger.Error`; the one call of
`build.delegate.Finish`; the content left in `build.signals`; and whether the
deferred `source.Release()` ran. -/
structure ResumeRun where
  signalled : List Signal
  resultCalls : Nat
  logged : List String
  finish : FinishCall
  signals : List Signal
  released : Bool
  deriving DecidableEq, Repr

/-- One thing that happens while `Resume` is in its loop: the `select` takes
the case `<-exited` (the step process has exited with `err`), the `select`
takes the case `<-build.signals`, or another goroutine calls `build.Abort()`.
Taking a signal from an empty channel and sending into a full one cannot
happen: such an event leaves everything as it is. -/
inductive Event where
  | exited (err : Option Error)
  | signal
  | abort
  deriving DecidableEq, Repr

/-- An event is the exit of the step process being taken by the `select`. -/
def Event.isExited : Event → Bool
  | .exited _ => true
  | _ => false

/-- The test `err != nil && strings.Contains(err.Error(),
exec.ErrStepTimedOut.Error())` of `Resume`. -/
def timedOut (ErrStepTimedOut : Error) (err : Option Error) : Bool :=
  match err with
  | some e => stringsContains e ErrStepTimedOut
  | none => false

/-- The loop `for { select { ... } }` of `Resume`.  `ErrStepTimedOut` is the
message of `exec.ErrStepTimedOut` (not among the sources); `Result` is
`source.Result`, which receives the current content of `succeeded` through
the pointer and returns its boolean together with the content it leaves.
`signals` is the content of the channel, `aborted` and `signalled` the loop's
state.  The result is `none` when the events end before the exit is taken
(`Resume` is then still waiting in `select`). -/
def Resume.loop (ErrStepTimedOut : Error) (Result : Success → Bool × Success) :
    List Event → List Signal → Bool → List Signal → Option ResumeRun
  | [], _, _, _ => none
  | .exited err :: _, signals, aborted, signalled =>
    let succeeded : Success := false
    if aborted || timedOut ErrStepTimedOut err then
      some { signalled := signalled, resultCalls := 0, logged := [],
             finish := ⟨err, false, aborted⟩, signals := signals, released := true }
    else
      let r := Result succeeded
      if !r.1 then
        some { signalled := signalled, resultCalls := 1, logged := ["step-had-no-result"],
               finish := ⟨err, false, aborted⟩, signals := signals, released := true }
      else
        some { signalled := signalled, resultCalls := 1, logged := [],
               finish := ⟨err, r.2, aborted⟩, signals := signals, released := true }
  | .signal :: events, [], aborted, signalled =>
    Resume.loop ErrStepTimedOut Result events [] aborted signalled
  | .signal :: events, sig :: signals, aborted, signalled =>
    Resume.loop ErrStepTimedOut Result events signals
      (if sig = Signal.Kill then true else aborted) (signalled ++ [sig])
  | .abort :: events, signals, aborted, signalled =>
    if signals.length < signalsCapacity then
      Resume.loop ErrStepTimedOut Result events (signals ++ [Signal.Kill]) aborted signalled
    else
      Resume.loop ErrStepTimedOut Result events signals aborted signalled

/-- How a call of `Resume` ends: it panics while compiling the plan (the nil
`Put` of a `PutGet` head), it is still waiting in its `select` when the events
end, or it returns after the run it made. -/
inductive ResumeOutcome where
  | panicked
  | waiting
  | returned (run : ResumeRun)
  deriving DecidableEq, Repr

/-- The method `execBuild.Resume`, run against the events that happen while it
loops: the plan is compiled from `event.OriginLocation{ID: 1}` with hook `""`,
the compiled step is started as a background process, and the loop supervises
it. -/
def execBuild.Resume (ErrStepTimedOut : Error) (Result : Success → Bool × Success)
    (build : execBuild) (events : List Event) : ResumeOutcome :=
  match buildStepFactory build.buildID build.metadata.Plan ⟨0, 1, 0⟩ "" with
  | none => .panicked
  | some _ =>
    match Resume.loop ErrStepTimedOut Result events build.signals false [] with
    | none => .waiting
    | some run => .returned run

/-! ## Auxiliary notions for the statements -/

/-- The location the members of an aggregate are compiled from, before the
running increment is added (lines 139-148 of `exec_engine.go`): the aggregate's
ID becomes the parallel group, and a non-zero incoming parallel group becomes
the parent ID. -/
def aggregateLocation (location : OriginLocation) : OriginLocation :=
  { ParentID := if location.ParallelGroup ≠ 0 then location.ParallelGroup else location.ParentID
    ID := location.ID
    ParallelGroup := location.ID }

/-- The IDs of a list are pairwise distinct and lie in `[lo, hi)`. -/
def idsWithin (l : List Nat) (lo hi : Nat) : Prop :=
  ∀ a, l.count a ≤ 1 ∧ (l.count a = 0 ∨ (lo ≤ a ∧ a < hi))

/-- What the buffered channel `build.signals` goes through during a sequence of
events, whatever the receiver does with the signals it takes: a call of
`Abort` puts a `Kill` into the channel when there is room for it, and the
`select` case `<-build.signals` takes the oldest signal when there is one.  The
result is the list of the signals taken from the channel, in order, and the
content the channel is left with. -/
def channelTrace : List Event → List Signal → List Signal × List Signal
  | [], signals => ([], signals)
  | .exited _ :: events, signals => channelTrace events signals
  | .signal :: events, [] => channelTrace events []
  | .signal :: events, sig :: signals =>
    (sig :: (channelTrace events signals).1, (channelTrace events signals).2)
  | .abort :: events, signals =>
    if signals.length < signalsCapacity then channelTrace events (signals ++ [Signal.Kill])
    else channelTrace events signals

/-! ## The store (`db`), as far as builds and input versions go -/

namespace DB

/-- Modelled from the spec: `db.Status`, `status ∈ {pending, started, aborted,
errored, failed, succeeded}`; the store itself is not among the sources, only
its shared test suite `db/it_is_a_db_test.go` is. -/
inductive Status where
  | pending
  | started
  | aborted
  | errored
  | failed
  | succeeded
  deriving DecidableEq, Repr

/-- Modelled from the spec: the terminal statuses (aborted, errored, failed,
succeeded). -/
def Status.isTerminal : Status → Bool
  | .pending => false
  | .started => false
  | _ => true

/-- Modelled from the spec: `db.Build`, the build row `(id, job?, name, status,
engine?, engine_metadata?)` with the flag set by the transition
pending→scheduled; a one-off build has no job.  Start and end time are left
out. -/
structure Build where
  ID : Nat
  Name : String
  JobName : Option String
  Status : Status
  Scheduled : Bool
  Engine : String
  EngineMetadata : String
  deriving DecidableEq, Repr

/-- Modelled from the spec: `db.VersionedResource`, a version of a resource
`(resource, type, source, version-map)`. -/
structure VersionedResource where
  Resource : String
  Type_ : String
  Source : Atc.Source
  Version : Atc.Version
  deriving DecidableEq, Repr

/-- Modelled from the spec: `db.SavedVersionedResource`, a stored versioned
resource with its id and its `enabled` flag. -/
structure SavedVersionedResource where
  ID : Nat
  Enabled : Bool
  VersionedResource : DB.VersionedResource
  deriving DecidableEq, Repr

/-- Modelled from the spec: `atc.JobInputConfig`, an input of a job with its
resource, its `passed` list and its optional version pin. -/
structure JobInputConfig where
  Resource : String
  Passed : List String
  Pinned : Option Atc.Version
  deriving DecidableEq, Repr

/-- Modelled from the spec: the durable state of the store that builds and
input versions depend on: the build rows in creation order, the versioned
resources in the order of their first observation (`check_order`), and the
build outputs as pairs (build id, versioned resource id). -/
structure Store where
  builds : List Build
  versionedResources : List SavedVersionedResource
  buildOutputs : List (Nat × Nat)
  deriving DecidableEq, Repr

/-- Modelled from the spec: the store with no rows. -/
def Store.empty : Store := ⟨[], [], []⟩

/-- Modelled from the spec: `GetBuild(id)`, the build row with this id. -/
def Store.GetBuild (s : Store) (buildID : Nat) : Option Build :=
  s.builds.find? (fun b => b.ID = buildID)

/-- Modelled from the spec: the update of the build rows with this id (the
other rows are left as they are). -/
def Store.updateBuild (s : Store) (buildID : Nat) (f : Build → Build) : Store :=
  { s with builds := s.builds.map (fun b => if b.ID = buildID then f b else b) }

/-- Modelled from the spec: the builds of a job, in creation order. -/
def Store.jobBuilds (s : Store) (job : String) : List Build :=
  s.builds.filter (fun b => b.JobName = some job)

/-- Modelled from the spec: the one-off builds, in creation order. -/
def Store.oneOffBuilds (s : Store) : List Build :=
  s.builds.filter (fun b => b.JobName = none)

/-- Modelled from the spec: `CreateJobBuild(job) → Build` atomically assigns the
next per-job name: the build is created pending, with a fresh id and with the
next value of the job's decimal counter as its name.  No build is ever deleted,
so the counter of a job stands at the number of its builds. -/
def Store.CreateJobBuild (s : Store) (job : String) : Store × Build :=
  let build : Build :=
    { ID := s.builds.length + 1
      Name := toString ((s.jobBuilds job).length + 1)
      JobName := some job
      Status := .pending
      Scheduled := false
      Engine := ""
      EngineMetadata := "" }
  ({ s with builds := s.builds ++ [build] }, build)

/-- Modelled from the spec: `CreateOneOffBuild() → Build`, with the global name
counter of the one-off builds. -/
def Store.CreateOneOffBuild (s : Store) : Store × Build :=
  let build : Build :=
    { ID := s.builds.length + 1
      Name := toString (s.oneOffBuilds.length + 1)
      JobName := none
      Status := .pending
      Scheduled := false
      Engine := ""
      EngineMetadata := "" }
  ({ s with builds := s.builds ++ [build] }, build)

/-- Modelled from the spec: two builds belong to the same job. -/
def Build.sameJob (a b : Build) : Bool :=
  a.JobName.isSome && decide (a.JobName = b.JobName)

/-- Modelled from the spec: an earlier pending build of the same job exists. -/
def Store.earlierPending (s : Store) (b : Build) : Bool :=
  s.builds.any (fun p => p.sameJob b && decide (p.Status = .pending) && decide (p.ID < b.ID))

/-- Modelled from the spec: a non-terminal build of the same job is already
running: another build of the job is started, or is scheduled and about to be
started. -/
def Store.otherRunning (s : Store) (b : Build) : Bool :=
  s.builds.any (fun r => r.sameJob b && decide (r.ID ≠ b.ID) &&
    (decide (r.Status = .started) || (decide (r.Status = .pending) && r.Scheduled)))

/-- Modelled from the spec: `ScheduleBuild(id, serial?) → bool` transitions
pending→scheduled.  If `serial` and any earlier pending build of the same job
exists, or any non-terminal build of the same job is already running, it
returns false; it is idempotent for an already-scheduled build.  A build that
is not pending (or does not exist) is not scheduled. -/
def Store.ScheduleBuild (s : Store) (buildID : Nat) (serial : Bool) : Store × Bool :=
  match s.GetBuild buildID with
  | none => (s, false)
  | some b =>
    if b.Status ≠ .pending then (s, false)
    else if serial && (s.earlierPending b || s.otherRunning b) then (s, false)
    else (s.updateBuild buildID (fun x => { x with Scheduled := true }), true)

/-- Modelled from the spec: `StartBuild(id, engine, metadata) → bool`
transitions scheduled→started and fails if the build is already terminal; in
the test suite a pending build starts whether or not it was scheduled, so the
build starts exactly when its status is pending. -/
def Store.StartBuild (s : Store) (buildID : Nat) (engine metadata : String) : Store × Bool :=
  match s.GetBuild buildID with
  | none => (s, false)
  | some b =>
    if b.Status = .pending then
      (s.updateBuild buildID
        (fun x => { x with Status := .started, Engine := engine, EngineMetadata := metadata }),
        true)
    else (s, false)

/-- Modelled from the spec: `FinishBuild(id, status)` transitions to terminal.
By the lifecycle of the spec a build moves monotonically to terminal, and an
abort is sticky (the store records the aborted status): a build that is
already terminal keeps its status, and a status that is not terminal is no
transition to terminal and leaves the store as it is.  The tests finish a
build at most once. -/
def Store.FinishBuild (s : Store) (buildID : Nat) (status : Status) : Store :=
  if status.isTerminal then
    s.updateBuild buildID
      (fun x => if x.Status.isTerminal then x else { x with Status := status })
  else s

/-- Modelled from the spec: `AbortBuild(id)` sets status=aborted if the build is
not terminal. -/
def Store.AbortBuild (s : Store) (buildID : Nat) : Store :=
  s.updateBuild buildID
    (fun x => if x.Status.isTerminal then x else { x with Status := .aborted })

/-- Modelled from the spec: `SaveBuildOutput(build, vr) → savedVR` records the
versioned resource as an output of the build; the underlying versioned
resource, identified by `(resource, version-map)`, is created enabled, at the
end of the check order, when it is not there yet. -/
def Store.SaveBuildOutput (s : Store) (buildID : Nat) (vr : VersionedResource) :
    Store × SavedVersionedResource :=
  match s.versionedResources.find?
      (fun v => v.VersionedResource.Resource = vr.Resource ∧
        v.VersionedResource.Version = vr.Version) with
  | some saved =>
    ({ s with buildOutputs := s.buildOutputs ++ [(buildID, saved.ID)] }, saved)
  | none =>
    let saved : SavedVersionedResource :=
      { ID := s.versionedResources.length + 1, Enabled := true, VersionedResource := vr }
    ({ s with versionedResources := s.versionedResources ++ [saved]
              buildOutputs := s.buildOutputs ++ [(buildID, saved.ID)] }, saved)

/-- Modelled from the spec: the statuses of the builds whose outputs count for
the `passed` constraint.  The spec's formula asks for `b.status=succeeded`; the
test `determining the inputs for a job` saves outputs for builds that are
created and never scheduled, started or finished, and expects them to be
selected, so a build that is still pending counts as well.  No other status is
forced by the tests. -/
def Status.passes : Status → Bool
  | .succeeded => true
  | .pending => true
  | _ => false

/-- Modelled from the spec: `∃ build b of job p with b.status=succeeded ∧ v ∈
outputs(b)`, a pending build counting as well (`Status.passes`). -/
def Store.outputOfJob (s : Store) (job : String) (v : SavedVersionedResource) : Bool :=
  s.builds.any (fun b => decide (b.JobName = some job) && b.Status.passes &&
    decide ((b.ID, v.ID) ∈ s.buildOutputs))

/-- Modelled from the spec: the candidate versions `Cᵢ` of an input: the
enabled versions of its resource that were outputs of a succeeded (or pending)
build of every job of its `passed` list, restricted to the pin when one is
given; latest check order first. -/
def Store.candidates (s : Store) (input : JobInputConfig) : List SavedVersionedResource :=
  s.versionedResources.reverse.filter (fun v =>
    v.Enabled && decide (v.VersionedResource.Resource = input.Resource) &&
    input.Passed.all (fun job => s.outputOfJob job v) &&
    (match input.Pinned with
      | none => true
      | some version => decide (v.VersionedResource.Version = version)))

/-- Modelled from the spec: two versions originated in a common successful
build of a job, a pending build counting as well (`Status.passes`). -/
def Store.commonBuild (s : Store) (job : String) (v w : SavedVersionedResource) : Bool :=
  s.builds.any (fun b => decide (b.JobName = some job) && b.Status.passes &&
    decide ((b.ID, v.ID) ∈ s.buildOutputs) && decide ((b.ID, w.ID) ∈ s.buildOutputs))

/-- Modelled from the spec: the transitive passed constraint on a tuple of
chosen versions, one per input: for any two inputs sharing a `passed` job,
the chosen versions originated in a common build of that job. -/
def Store.consistent (s : Store) (inputs : List JobInputConfig)
    (versions : List SavedVersionedResource) : Bool :=
  (inputs.zip versions).all fun x =>
    (inputs.zip versions).all fun y =>
      x.1.Passed.all fun job => !(decide (job ∈ y.1.Passed)) || s.commonBuild job x.2 y.2

/-- Modelled from the spec: all tuples with one element of each list, in
lexicographic order of the positions in the lists. -/
def tuples {α : Type} : List (List α) → List (List α)
  | [] => [[]]
  | c :: cs => c.flatMap fun v => (tuples cs).map fun t => v :: t

/-- Modelled from the spec: `NoVersions`, the error `db.ErrNoVersions`. -/
def ErrNoVersions : Error := "no versions found"

/-- Modelled from the spec: `GetLatestInputVersions(input_configs[]) →
versions[] | NoVersions`: among the tuples of candidates that satisfy the
transitive passed constraint, the lexicographically latest by check order; it
fails with `NoVersions` if a candidate set is empty or no jointly consistent
tuple exists. -/
def Store.GetLatestInputVersions (s : Store) (inputs : List JobInputConfig) :
    Except Error (List SavedVersionedResource) :=
  match (tuples (inputs.map s.candidates)).find? (s.consistent inputs) with
  | some versions => .ok versions
  | none => .error ErrNoVersions

/-- Modelled from the spec: the operations on the store that create builds,
move them through their lifecycle and record their outputs. -/
inductive Op where
  | CreateJobBuild (job : String)
  | CreateOneOffBuild
  | ScheduleBuild (buildID : Nat) (serial : Bool)
  | StartBuild (buildID : Nat) (engine metadata : String)
  | FinishBuild (buildID : Nat) (status : Status)
  | AbortBuild (buildID : Nat)
  | SaveBuildOutput (buildID : Nat) (vr : VersionedResource)
  deriving DecidableEq, Repr

/-- Modelled from the spec: the store after one operation. -/
def Store.apply (s : Store) : Op → Store
  | .CreateJobBuild job => (s.CreateJobBuild job).1
  | .CreateOneOffBuild => s.CreateOneOffBuild.1
  | .ScheduleBuild buildID serial => (s.ScheduleBuild buildID serial).1
  | .StartBuild buildID engine metadata => (s.StartBuild buildID engine metadata).1
  | .FinishBuild buildID status => s.FinishBuild buildID status
  | .AbortBuild buildID => s.AbortBuild buildID
  | .SaveBuildOutput buildID vr => (s.SaveBuildOutput buildID vr).1

/-- Modelled from the spec: the store after a sequence of operations. -/
def Store.run (s : Store) (ops : List Op) : Store :=
  ops.foldl Store.apply s

end DB

/-! ## The calls of the engine on its store (`engine.go`, lines 24-33) -/

/-- A call on the interface `EngineDB`, with its arguments (events, inputs and
outputs by their build ID and payload). -/
inductive EngineDBCall where
  | SaveBuildEvent (buildID : Int) (event : String)
  | FinishBuild (buildID : Int) (status : DB.Status)
  | SaveBuildEngineMetadata (buildID : Int) (metadata : String)
  | SaveBuildInput (buildID : Int) (input : DB.VersionedResource)
  | SaveBuildOutput (buildID : Int) (vr : DB.VersionedResource)
  deriving DecidableEq, Repr

/-- The method `execEngine.CreateBuild` together with its effect on
`engine.db`, given as the list of calls the store has received: the method
builds the `execBuild` (which keeps a reference to `engine.db`) and returns it,
and calls no method of `engine.db`. -/
def execEngine.CreateBuild (db : List EngineDBCall) (model : Build) (plan : Plan) :
    Except Error execBuild × List EngineDBCall :=
  (Atc.CreateBuild model plan, db)

/-- A call is `SaveBuildEngineMetadata` for a build. -/
def EngineDBCall.savesMetadataOf (buildID : Int) : EngineDBCall → Bool
  | .SaveBuildEngineMetadata id _ => decide (id = buildID)
  | _ => false

/-! ## Workers (`worker`) -/

/-- Modelled from the spec: `atc.WorkerResourceType`, a resource type a worker
supports, with the image that provides it. -/
structure WorkerResourceType where
  Type_ : String
  Image : String
  deriving DecidableEq, Repr

/-- Modelled from the spec: the worker built by `NewGardenWorker` from its
active containers, resource types, platform and tags; `worker/worker.go` is
not among the sources, only `worker/worker_test.go` is. -/
structure gardenWorker where
  activeContainers : Int
  resourceTypes : List WorkerResourceType
  platform : String
  tags : Tags
  deriving DecidableEq, Repr

/-- Modelled from the spec: `worker.TaskContainerSpec`, the container spec of a
task with its platform and the tags it requests. -/
structure TaskContainerSpec where
  Platform : String
  Tags : Atc.Tags
  deriving DecidableEq, Repr

/-- Modelled from the spec: `worker.ResourceTypeContainerSpec`, the container
spec of a resource with its type and the tags it requests. -/
structure ResourceTypeContainerSpec where
  Type_ : String
  Tags : Atc.Tags
  deriving DecidableEq, Repr

/-- Modelled from the spec: `worker.ContainerSpec`, a task spec or a
resource-type spec. -/
inductive ContainerSpec where
  | Task (spec : TaskContainerSpec)
  | ResourceType (spec : ResourceTypeContainerSpec)
  deriving DecidableEq, Repr

/-- Modelled from the spec: the tag rule of `Satisfies`: if tags are requested,
all requested tags must be among the worker's, and a worker with an empty tag
set matches any request.  The test suite adds the case the spec leaves out
(`Satisfies`, `when no tags are specified`): a worker that has tags does not
match a request without tags. -/
def gardenWorker.tagsMatch (worker : gardenWorker) (tags : Tags) : Bool :=
  if worker.tags = [] then true
  else if tags = [] then false
  else tags.all fun tag => decide (tag ∈ worker.tags)

/-- Modelled from the spec: `Satisfies(spec)`: a task spec matches on platform
equality and the tag rule; a resource-type spec matches when the requested
type appears in the worker's resource types, with the same tag rule. -/
def gardenWorker.Satisfies (worker : gardenWorker) : ContainerSpec → Bool
  | .Task spec => decide (spec.Platform = worker.platform) && worker.tagsMatch spec.Tags
  | .ResourceType spec =>
    worker.resourceTypes.any (fun t => decide (t.Type_ = spec.Type_)) &&
      worker.tagsMatch spec.Tags

/-! ## Worker registration (`api/workerserver/register.go`) -/

/-- Modelled from the spec: `atc.Worker`, the registration a worker posts:
`{address, active_containers, resource_types, platform, tags}`. -/
structure Worker where
  Addr : String
  ActiveContainers : Int
  ResourceTypes : List WorkerResourceType
  Platform : String
  Tags : Atc.Tags
  deriving DecidableEq, Repr

/-- Modelled from the spec: `db.WorkerInfo`, the worker registration kept by
the store. -/
structure WorkerInfo where
  Addr : String
  ActiveContainers : Int
  ResourceTypes : List WorkerResourceType
  Platform : String
  Tags : Atc.Tags
  deriving DecidableEq, Repr

/-- The status `http.StatusBadRequest`. -/
def StatusBadRequest : Nat := 400

/-- The status `http.StatusInternalServerError`. -/
def StatusInternalServerError : Nat := 500

/-- The status `http.StatusOK`. -/
def StatusOK : Nat := 200

/-- What a call of `RegisterWorker` did: the status written with
`w.WriteHeader`, the text written to the response, the calls of
`workerContainers.Set` and the calls of `s.db.SaveWorker`, each with its
arguments. -/
structure RegisterResponse where
  status : Nat
  body : String
  metrics : List (String × Int)
  saved : List (WorkerInfo × Duration)
  deriving DecidableEq, Repr

/-- The method `Server.RegisterWorker`.  `decoded` is the outcome of decoding
the request body as JSON into `atc.Worker`, `ttlQuery` the first value of the
query parameter `ttl` if the request has one (`r.URL.Query().Get` gives the
empty string when it has none); `ParseDuration` is `time.ParseDuration` and
`SaveWorker` the answer of `s.db.SaveWorker` (nil or an error). -/
def Server.RegisterWorker (ParseDuration : String → Except Error Duration)
    (SaveWorker : WorkerInfo → Duration → Option Error)
    (decoded : Except Error Worker) (ttlQuery : Option String) : RegisterResponse :=
  match decoded with
  | .error _ => { status := StatusBadRequest, body := "", metrics := [], saved := [] }
  | .ok registration =>
    if registration.Addr.length = 0 then
      { status := StatusBadRequest, body := "missing address", metrics := [], saved := [] }
    else
      let ttlStr := ttlQuery.getD ""
      let parsed : Except Error Duration :=
        if ttlStr.length > 0 then ParseDuration ttlStr else .ok 0
      match parsed with
      | .error _ =>
        { status := StatusBadRequest, body := "malformed ttl", metrics := [], saved := [] }
      | .ok ttl =>
        let info : WorkerInfo :=
          { Addr := registration.Addr
            ActiveContainers := registration.ActiveContainers
            ResourceTypes := registration.ResourceTypes
            Platform := registration.Platform
            Tags := registration.Tags }
        match SaveWorker info ttl with
        | some _ =>
          { status := StatusInternalServerError, body := ""
            metrics := [(registration.Addr, registration.ActiveContainers)]
            saved := [(info, ttl)] }
        | none =>
          { status := StatusOK, body := ""
            metrics := [(registration.Addr, registration.ActiveContainers)]
            saved := [(info, ttl)] }

/-- The names of the builds of every job, and of the one-off builds, count up
from 1 in creation order. -/
def DB.namesCountUp (s : DB.Store) : Prop :=
  (∀ j, (s.jobBuilds j).map (·.Name) =
    (List.range (s.jobBuilds j).length).map (fun k => toString (k + 1))) ∧
  s.oneOffBuilds.map (·.Name) =
    (List.range s.oneOffBuilds.length).map (fun k => toString (k + 1))

/-- The store of the test `determining the inputs for a job` (lines 1093-1139)
when the inputs are asked for the second time: a build of `job-1`, of `job-2`
and of `shared-job` has been created, none of them scheduled, started or
finished, and `resource-1` and `resource-2` have been saved as outputs of the
build of `shared-job` and of the builds of `job-1` and `job-2`. -/
def DB.passedStore : DB.Store :=
  DB.Store.empty.run
    [.CreateJobBuild "job-1", .CreateJobBuild "job-2", .CreateJobBuild "shared-job",
      .SaveBuildOutput 3 ⟨"resource-1", "some-type", [], [("v", "r1-common-to-shared-and-j1")]⟩,
      .SaveBuildOutput 3 ⟨"resource-2", "some-type", [], [("v", "r2-common-to-shared-and-j2")]⟩,
      .SaveBuildOutput 1 ⟨"resource-1", "some-type", [], [("v", "r1-common-to-shared-and-j1")]⟩,
      .SaveBuildOutput 2 ⟨"resource-2", "some-type", [], [("v", "r2-common-to-shared-and-j2")]⟩]

/-- The input configurations of the test `determining the inputs for a job`
(lines 1102-1111). -/
def DB.passedInputs : List DB.JobInputConfig :=
  [⟨"resource-1", ["shared-job", "job-1"], none⟩, ⟨"resource-2", ["shared-job", "job-2"], none⟩]

/-! ## Engines (`engine.go`, lines 44-54) -/

/-- The method `execEngine.Name` (`exec_engine.go`, lines 37-39). -/
def execEngine.Name : String := "exec.v1"

/-- An implementation of the interface `Engine`: the exec engine, or another
engine (such as the `FakeEngine` of `engine/fakes`) with the string its
`Name()` returns. -/
inductive Engine where
  | exec
  | other (name : String)
  deriving DecidableEq, Repr

/-- The method `Name()` of an engine. -/
def Engine.Name : Engine → String
  | .exec => execEngine.Name
  | .other name => name

/-- The type `Engines`, a slice of engines. -/
abbrev Engines := List Engine

/-- The method `Engines.Lookup`: `some e` is the result `(e, true)` and `none`
the result `(nil, false)`. -/
def Engines.Lookup : Engines → String → Option Engine
  | [], _ => none
  | e :: engines, name => if e.Name = name then some e else Engines.Lookup engines name

/-! ## Presenting a resource (`api/present/resource.go`) -/

/-- Modelled from the spec: `atc.GroupConfig`, a group of the pipeline
configuration with the names of its jobs and resources. -/
structure GroupConfig where
  Name : String
  Jobs : List String
  Resources : List String
  deriving DecidableEq, Repr

/-- Modelled from the spec: `atc.GroupConfigs`. -/
abbrev GroupConfigs := List GroupConfig

/-- Modelled from the spec: `db.SavedResource`, with the fields
`present.Resource` reads: the recorded check error (nil when the last check
succeeded), the paused flag and the name of the pipeline. -/
structure DB.SavedResource where
  CheckError : Option Error
  Paused : Bool
  PipelineName : String
  deriving DecidableEq, Repr

/-- Modelled from the spec: `atc.Resource`, the resource as the API presents
it. -/
structure Resource where
  Name : String
  Type_ : String
  Groups : List String
  URL : String
  Paused : Bool
  FailingToCheck : Bool
  CheckError : String
  deriving DecidableEq, Repr

/-- The route name `routes.GetResource` (`web/routes/routes.go`). -/
def routes.GetResource : String := "GetResource"

/-- The function `present.Resource`.  `CreateRequest` is the request generator
of the library `rata` on the routes of `web/routes`: from a route name and the
route parameters it gives the URL of the request, or an error;
`FailingToCheck` is the method `db.SavedResource.FailingToCheck`, which is not
among the sources.  The result is `none` when the source panics on a failed
URL generation. -/
def present.Resource (CreateRequest : String → List (String × String) → Except Error String)
    (FailingToCheck : DB.SavedResource → Bool)
    (resource : ResourceConfig) (groups : GroupConfigs) (dbResource : DB.SavedResource)
    (showCheckError : Bool) : Option Resource :=
  match CreateRequest routes.GetResource
      [("resource", resource.Name), ("pipeline_name", dbResource.PipelineName)] with
  | .error _ => none
  | .ok url =>
    let groupNames : List String :=
      groups.flatMap fun group =>
        group.Resources.flatMap fun name =>
          if name = resource.Name then [group.Name] else []
    let checkErrString : String :=
      match dbResource.CheckError with
      | some err => if showCheckError then err else ""
      | none => ""
    some { Name := resource.Name
           Type_ := resource.Type_
           Groups := groupNames
           URL := url
           Paused := dbResource.Paused
           FailingToCheck := FailingToCheck dbResource
           CheckError := checkErrString }

/-! ## Reading a pipe (`api/pipes/read.go`) -/

/-- Modelled from the spec: `db.Pipe`, the record of a pipe in the store: its
ID and the URL of the node that hosts it. -/
structure DB.Pipe where
  ID : String
  URL : String
  deriving DecidableEq, Repr

/-- The in-process pipe of a node (the struct `pipe` with its `read` and
`write` ends, not among the sources), by a number that identifies it. -/
structure pipe where
  id : Nat
  deriving DecidableEq, Repr

/-- The table `s.pipes`, a Go map from pipe ID to pipe. -/
abbrev PipeTable := String → Option pipe

/-- The statement `delete(s.pipes, pipeID)`. -/
def PipeTable.delete (pipes : PipeTable) (pipeID : String) : PipeTable :=
  fun id => if id = pipeID then none else pipes id

/-- The fields of `pipes.Server` that `ReadPipe` uses: the URL of this node and
the table of the pipes it hosts (the mutex `pipesL` guards every access to the
table; the handler is followed on its own, so the table is passed through). -/
structure pipes.Server where
  url : String
  pipes : PipeTable

/-- The status `http.StatusNotFound`. -/
def StatusNotFound : Nat := 404

/-- The status `http.StatusGatewayTimeout`. -/
def StatusGatewayTimeout : Nat := 504

/-- One case taken by the `select` of the loops `dance` and `danceMore`: the
copy to the response has ended (`<-copied`), or the client's connection has
gone (`<-closed`). -/
inductive PipeEvent where
  | copied
  | closed
  deriving DecidableEq, Repr

/-- What a call of `ReadPipe` did until it returned: the statuses passed to
`w.WriteHeader`, in order; the number of calls of `Flush`; the number of calls
of `pipe.write.Close()`; whether the request was forwarded to another node;
and the table `s.pipes` it leaves. -/
structure ReadPipeRun where
  headers : List Nat
  flushes : Nat
  writeCloses : Nat
  forwarded : Bool
  pipes : PipeTable

/-- How a call of `ReadPipe` ends: it returns after the run it made, or it is
still waiting in a `select` when the events end. -/
inductive ReadPipeOutcome where
  | waiting
  | returned (run : ReadPipeRun)

/-- The loop `dance` of `ReadPipe`: the number of calls of `pipe.write.Close()`
made when the loop is left, `none` when the events end before `copied` is
taken. -/
def ReadPipe.dance : List PipeEvent → Nat → Option Nat
  | [], _ => none
  | .copied :: _, closes => some closes
  | .closed :: events, closes => ReadPipe.dance events (closes + 1)

/-- The loop `danceMore` of `ReadPipe`: the statuses written when the loop is
left, `none` when the events end before `copied` is taken. -/
def ReadPipe.danceMore : List PipeEvent → List Nat → Option (List Nat)
  | [], _ => none
  | .copied :: _, headers => some headers
  | .closed :: events, headers => ReadPipe.danceMore events (headers ++ [StatusGatewayTimeout])

/-- The method `Server.ReadPipe`, run against the cases its `select` takes.
`GetPipe` is `s.db.GetPipe`; `forwardRequest` is `s.forwardRequest` for the
route `atc.ReadPipe`, from the URL of the hosting node and the pipe's ID to
nil or an error (the response it gives is copied to the client). -/
def pipes.Server.ReadPipe (GetPipe : String → Except Error DB.Pipe)
    (forwardRequest : String → String → Option Error)
    (s : pipes.Server) (pipeID : String) (events : List PipeEvent) : ReadPipeOutcome :=
  match GetPipe pipeID with
  | .error _ =>
    .returned { headers := [StatusInternalServerError], flushes := 0, writeCloses := 0,
                forwarded := false, pipes := s.pipes }
  | .ok dbPipe =>
    if dbPipe.URL = s.url then
      match s.pipes pipeID with
      | none =>
        .returned { headers := [StatusNotFound], flushes := 0, writeCloses := 0,
                    forwarded := false, pipes := s.pipes }
      | some _ =>
        match ReadPipe.dance events 0 with
        | none => .waiting
        | some closes =>
          .returned { headers := [StatusOK], flushes := 1, writeCloses := closes,
                      forwarded := false, pipes := s.pipes.delete pipeID }
    else
      match forwardRequest dbPipe.URL dbPipe.ID with
      | some _ =>
        .returned { headers := [StatusInternalServerError], flushes := 0, writeCloses := 0,
                    forwarded := true, pipes := s.pipes }
      | none =>
        match ReadPipe.danceMore events [] with
        | none => .waiting
        | some headers =>
          .returned { headers := headers, flushes := 1, writeCloses := 0,
                      forwarded := true, pipes := s.pipes }

/-! ## Origin IDs along the traversal -/

mutual
/-- The number of origin IDs consumed in a plan, counted as the spec counts
them: one per `Get`, one per `Task` with a config or a config path, one per
`Aggregate`, two per `PutGet` (the `Put` and its dependent `Get`), none for a
`Task` without config and for an empty plan, summed over the plan tree.  A
node counts as the first kind set on it, in the order `Aggregate`, `Try`,
`Timeout`, `HookedCompose`, `Compose`, `Conditional`, `Task`, `Get`,
`PutGet`. -/
def Plan.originCount : Plan → Nat
  | .mk (some innerPlans) _ _ _ _ _ _ _ _ _ => 1 + Plan.originCountOfMembers innerPlans
  | .mk none (some ⟨step⟩) _ _ _ _ _ _ _ _ => step.originCount
  | .mk none none (some ⟨step, _⟩) _ _ _ _ _ _ _ => step.originCount
  | .mk none none none (some ⟨step, onFailure, onSuccess, onCompletion, next⟩) _ _ _ _ _ _ =>
    step.originCount + onFailure.originCount + onSuccess.originCount +
      onCompletion.originCount + next.originCount
  | .mk none none none none (some ⟨a, b⟩) _ _ _ _ _ => a.originCount + b.originCount
  | .mk none none none none none (some ⟨_, plan⟩) _ _ _ _ => plan.originCount
  | .mk none none none none none none (some task) _ _ _ =>
    if task.Config.isSome || task.ConfigPath ≠ "" then 1 else 0
  | .mk none none none none none none none (some _) _ _ => 1
  | .mk none none none none none none none none _ (some ⟨_, rest⟩) => 2 + rest.originCount
  | .mk none none none none none none none none _ none => 0
/-- The origin IDs consumed in the members of an aggregate. -/
def Plan.originCountOfMembers : List Plan → Nat
  | [] => 0
  | innerPlan :: innerPlans => innerPlan.originCount + Plan.originCountOfMembers innerPlans
end

/-- An origin ID taken during a compilation: by an aggregate (the `location.ID`
of the invocation that takes the branch `plan.Aggregate != nil`), or by an
event-emitting step (the ID of the location handed to its delegate). -/
structure Origin where
  ID : Nat
  ofAggregate : Bool
  deriving DecidableEq, Repr

mutual
/-- The origin IDs taken by the invocations of `buildStepFactory` on a plan, in
the order of the traversal: an aggregate before its members, the members in
list order; `step`, `onFailure`, `onSuccess`, `onCompletion`, `next` of a
`HookedCompose`; `A` then `B`; the `Put` of a `PutGet`, its dependent `Get`,
then `rest`.  The recursion is the one of `buildStepFactory` (same sub-plans,
same locations and hooks, the sibling offsets being the increments
`buildStepFactory` returns). -/
def origins (buildID : Int) : Plan → OriginLocation → String → List Origin
  | .mk (some innerPlans) _ _ _ _ _ _ _ _ _, location, hook =>
    let location1 : OriginLocation :=
      if location.ParallelGroup ≠ 0 then
        { location with ParentID := location.ParallelGroup }
      else location
    let location2 : OriginLocation := { location1 with ParallelGroup := location1.ID }
    ⟨location.ID, true⟩ :: originsOfSteps buildID innerPlans location2 hook 1
  | .mk none (some ⟨step⟩) _ _ _ _ _ _ _ _, location, _ =>
    origins buildID step location ""
  | .mk none none (some ⟨step, _⟩) _ _ _ _ _ _ _, location, _ =>
    origins buildID step location ""
  | .mk none none none (some ⟨step, onFailure, onSuccess, onCompletion, next⟩) _ _ _ _ _ _,
      location0, hook =>
    let location : OriginLocation := { location0 with ParallelGroup := 0 }
    let failureLocation := fun (s : OriginLocationIncrement) =>
      (location.SetParentID location.ID).Incr s
    let successLocation := fun (s f : OriginLocationIncrement) =>
      (location.SetParentID location.ID).Incr (s + f)
    let ensureLocation := fun (s f su : OriginLocationIncrement) =>
      (location.SetParentID location.ID).Incr (s + su + f)
    let s := incrementOf (buildStepFactory buildID step location0 hook)
    let f := incrementOf (buildStepFactory buildID onFailure (failureLocation s) "failure")
    let su := incrementOf (buildStepFactory buildID onSuccess (successLocation s f) "success")
    let e := incrementOf (buildStepFactory buildID onCompletion (ensureLocation s f su) "ensure")
    origins buildID step location0 hook ++
      origins buildID onFailure (failureLocation s) "failure" ++
      origins buildID onSuccess (successLocation s f) "success" ++
      origins buildID onCompletion (ensureLocation s f su) "ensure" ++
      origins buildID next (location.Incr (s + su + f + e)) hook
  | .mk none none none none (some ⟨a, b⟩) _ _ _ _ _, location, _ =>
    let x := incrementOf (buildStepFactory buildID a location "")
    origins buildID a location "" ++ origins buildID b (location.Incr x) ""
  | .mk none none none none none (some ⟨_, plan⟩) _ _ _ _, location, _ =>
    origins buildID plan location ""
  | .mk none none none none none none (some task) _ _ _, location, _ =>
    if task.Config.isSome || task.ConfigPath ≠ "" then [⟨location.ID, false⟩] else []
  | .mk none none none none none none none (some _) _ _, location, _ =>
    [⟨location.ID, false⟩]
  | .mk none none none none none none none none _ (some ⟨_, rest⟩), location, _ =>
    ⟨location.ID, false⟩ :: ⟨((location.Incr 1).SetParentID location.ID).ID, false⟩ ::
      origins buildID rest (location.Incr 2) ""
  | .mk none none none none none none none none _ none, _, _ => []
/-- The origin IDs taken in the members of an aggregate, along the loop
`buildAggregateSteps`. -/
def originsOfSteps (buildID : Int) :
    List Plan → OriginLocation → String → OriginLocationIncrement → List Origin
  | [], _, _, _ => []
  | innerPlan :: innerPlans, location, hook, aID =>
    let memberHook := if innerPlan.Aggregate.isNone then hook else ""
    let r := incrementOf (buildStepFactory buildID innerPlan (location.Incr aID) memberHook)
    origins buildID innerPlan (location.Incr aID) memberHook ++
      originsOfSteps buildID innerPlans location hook (aID + r)
end

/-- The IDs of a list of origins, in order. -/
def Origin.IDs (l : List Origin) : List Nat := l.map (·.ID)

/-- The IDs taken by event-emitting steps, in order. -/
def Origin.stepIDs (l : List Origin) : List Nat :=
  (l.filter fun o => !o.ofAggregate).map (·.ID)

/-- The IDs taken by aggregates, in order. -/
def Origin.aggregateIDs (l : List Origin) : List Nat :=
  (l.filter fun o => o.ofAggregate).map (·.ID)

/-! # Theorems -/

/-! ## The supervision loop of `Resume` -/

/-- When the `select` takes the exit of the step process, `Resume` calls
`Finish` and returns; the run is determined by the loop's state. -/
theorem Resume.loop_exited (msg : Error) (Result : Success → Bool × Success)
    (err : Option Error) (post : List Event) (signals : List Signal) (aborted : Bool)
    (signalled : List Signal) :
    Resume.loop msg Result (.exited err :: post) signals aborted signalled =
      some { signalled := signalled
             resultCalls := if aborted || timedOut msg err then 0 else 1
             logged := if aborted || timedOut msg err then []
               else if (Result false).1 then [] else ["step-had-no-result"]
             finish := ⟨err, !aborted && !timedOut msg err && (Result false).1 && (Result false).2,
               aborted⟩
             signals := signals
             released := true } := by
  cases aborted <;> cases h1 : timedOut msg err <;> cases h2 : (Result false).1 <;>
    cases h3 : (Result false).2 <;>
    simp_all [Resume.loop]

/-- Events before the exit only move signals: the signals taken from the
channel are appended to the signals passed to the process, in order, and the
channel holds what was there plus the `Kill`s sent by `Abort`, minus what was
taken. -/
theorem Resume.loop_before_exit (msg : Error) (Result : Success → Bool × Success)
    (pre : List Event) (hpre : ∀ ev ∈ pre, ev.isExited = false) :
    ∀ (signals : List Signal) (aborted : Bool) (signalled : List Signal),
    ∃ (signals1 taken : List Signal) (k : Nat),
      taken ++ signals1 = signals ++ List.replicate k Signal.Kill ∧
      ∀ rest, Resume.loop msg Result (pre ++ rest) signals aborted signalled =
        Resume.loop msg Result rest signals1 (aborted || decide (Signal.Kill ∈ taken))
          (signalled ++ taken) := by
  induction pre with
  | nil =>
    intro signals aborted signalled
    exact ⟨signals, [], 0, by simp, by simp⟩
  | cons ev pre ih =>
    have hpre1 : ∀ ev ∈ pre, ev.isExited = false := fun e he => hpre e (List.mem_cons_of_mem _ he)
    have hev : ev.isExited = false := hpre ev (List.mem_cons_self _ _)
    intro signals aborted signalled
    cases ev with
    | exited err => simp [Event.isExited] at hev
    | signal =>
      cases signals with
      | nil =>
        obtain ⟨s1, taken, k, hk, hrest⟩ := ih hpre1 [] aborted signalled
        exact ⟨s1, taken, k, hk, fun rest => by simpa [Resume.loop] using hrest rest⟩
      | cons sig signals =>
        obtain ⟨s1, taken, k, hk, hrest⟩ := ih hpre1 signals
          (if sig = Signal.Kill then true else aborted) (signalled ++ [sig])
        refine ⟨s1, sig :: taken, k, by simp [hk], fun rest => ?_⟩
        have h := hrest rest
        by_cases hs : sig = Signal.Kill
        · subst hs
          simpa [Resume.loop] using h
        · have hs1 : ¬ Signal.Kill = sig := fun h => hs h.symm
          simpa [Resume.loop, hs, hs1] using h
    | abort =>
      by_cases hlen : signals.length < signalsCapacity
      · obtain ⟨s1, taken, k, hk, hrest⟩ := ih hpre1 (signals ++ [Signal.Kill]) aborted signalled
        refine ⟨s1, taken, k + 1, ?_, fun rest => ?_⟩
        · rw [hk, List.replicate_succ, List.append_assoc]; rfl
        · simpa [Resume.loop, hlen] using hrest rest
      · obtain ⟨s1, taken, k, hk, hrest⟩ := ih hpre1 signals aborted signalled
        exact ⟨s1, taken, k, hk, fun rest => by simpa [Resume.loop, hlen] using hrest rest⟩

/-- A run of the loop returns only by taking an exit: the events split into
events before the first exit, that exit, and the events it never sees. -/
theorem Resume.loop_split (msg : Error) (Result : Success → Bool × Success)
    (events : List Event) :
    ∀ (signals : List Signal) (aborted : Bool) (signalled : List Signal) (run : ResumeRun),
    Resume.loop msg Result events signals aborted signalled = some run →
    ∃ pre err post, events = pre ++ Event.exited err :: post ∧
      ∀ ev ∈ pre, ev.isExited = false := by
  induction events with
  | nil => intro signals aborted signalled run h; simp [Resume.loop] at h
  | cons ev events ih =>
    intro signals aborted signalled run h
    cases ev with
    | exited err => exact ⟨[], err, events, rfl, by simp⟩
    | signal =>
      cases signals with
      | nil =>
        obtain ⟨pre, err, post, he, hp⟩ := ih _ _ _ _ (by simpa [Resume.loop] using h)
        exact ⟨.signal :: pre, err, post, by simp [he], by
          intro ev hev
          rcases List.mem_cons.1 hev with rfl | hev
          · rfl
          · exact hp ev hev⟩
      | cons sig signals =>
        obtain ⟨pre, err, post, he, hp⟩ := ih _ _ _ _ (by simpa [Resume.loop] using h)
        exact ⟨.signal :: pre, err, post, by simp [he], by
          intro ev hev
          rcases List.mem_cons.1 hev with rfl | hev
          · rfl
          · exact hp ev hev⟩
    | abort =>
      have h1 : ∃ s, Resume.loop msg Result events s aborted signalled = some run := by
        by_cases hlen : signals.length < signalsCapacity
        · exact ⟨_, by simpa [Resume.loop, hlen] using h⟩
        · exact ⟨_, by simpa [Resume.loop, hlen] using h⟩
      obtain ⟨s, hs⟩ := h1
      obtain ⟨pre, err, post, he, hp⟩ := ih _ _ _ _ hs
      exact ⟨.abort :: pre, err, post, by simp [he], by
        intro ev hev
        rcases List.mem_cons.1 hev with rfl | hev
        · rfl
        · exact hp ev hev⟩

/-- What a returned run of the loop looks like: the exit error is passed to
`Finish` unchanged, `aborted` is set exactly when a `Kill` was taken (or was
set before), the signals taken are the signals passed on, and the success
value is false unless the build is not aborted, the error is not a timeout and
`Result` returns true and stores true. -/
theorem Resume.loop_spec (msg : Error) (Result : Success → Bool × Success)
    (events : List Event) (signals : List Signal) (aborted : Bool) (signalled : List Signal)
    (run : ResumeRun)
    (h : Resume.loop msg Result events signals aborted signalled = some run) :
    ∃ pre err post taken k, events = pre ++ Event.exited err :: post ∧
      (∀ ev ∈ pre, ev.isExited = false) ∧
      taken ++ run.signals = signals ++ List.replicate k Signal.Kill ∧
      run.signalled = signalled ++ taken ∧
      run.finish.err = err ∧
      run.finish.aborted = (aborted || decide (Signal.Kill ∈ taken)) ∧
      run.finish.succeeded =
        (!run.finish.aborted && !timedOut msg err && (Result false).1 && (Result false).2) ∧
      run.resultCalls = (if run.finish.aborted || timedOut msg err then 0 else 1) ∧
      run.logged = (if run.finish.aborted || timedOut msg err then []
        else if (Result false).1 then [] else ["step-had-no-result"]) := by
  obtain ⟨pre, err, post, he, hp⟩ := Resume.loop_split msg Result events _ _ _ _ h
  obtain ⟨s1, taken, k, hk, hrest⟩ := Resume.loop_before_exit msg Result pre hp signals aborted signalled
  subst he
  rw [hrest, Resume.loop_exited] at h
  have h := Option.some.inj h
  subst h
  exact ⟨pre, err, post, taken, k, rfl, hp, hk, rfl, rfl, rfl, rfl, rfl, rfl⟩

/-- The outcome of `Resume` is a returned run exactly when the plan compiles and
the loop returns that run. -/
theorem Resume_returned_iff (msg : Error) (Result : Success → Bool × Success)
    (build : execBuild) (events : List Event) (run : ResumeRun) :
    build.Resume msg Result events = .returned run ↔
      (buildStepFactory build.buildID build.metadata.Plan ⟨0, 1, 0⟩ "").isSome = true ∧
      Resume.loop msg Result events build.signals false [] = some run := by
  unfold execBuild.Resume
  cases buildStepFactory build.buildID build.metadata.Plan ⟨0, 1, 0⟩ "" with
  | none => simp
  | some r =>
    cases Resume.loop msg Result events build.signals false [] with
    | none => simp
    | some run1 => simp

/-- The loop returns as soon as an exit is among the events. -/
theorem Resume.loop_returns (msg : Error) (Result : Success → Bool × Success)
    (pre post : List Event) (err : Option Error) (hpre : ∀ ev ∈ pre, ev.isExited = false)
    (signals : List Signal) (aborted : Bool) (signalled : List Signal) :
    ∃ run, Resume.loop msg Result (pre ++ Event.exited err :: post) signals aborted signalled =
      some run := by
  obtain ⟨s1, taken, k, _, hrest⟩ := Resume.loop_before_exit msg Result pre hpre signals aborted signalled
  rw [hrest, Resume.loop_exited]
  exact ⟨_, rfl⟩

/-- The first exit among the events is the one the loop takes. -/
theorem Resume.loop_first_exit (msg : Error) (Result : Success → Bool × Success)
    (pre post : List Event) (err : Option Error) (hpre : ∀ ev ∈ pre, ev.isExited = false)
    (signals : List Signal) (aborted : Bool) (signalled : List Signal) (run : ResumeRun)
    (h : Resume.loop msg Result (pre ++ Event.exited err :: post) signals aborted signalled =
      some run) :
    run.finish.err = err := by
  obtain ⟨s1, taken, k, _, hrest⟩ := Resume.loop_before_exit msg Result pre hpre signals aborted signalled
  rw [hrest, Resume.loop_exited] at h
  have h := Option.some.inj h
  subst h
  rfl

/-- When the channel holds a signal and only `Kill`s, the first signal the loop
takes before the exit is a `Kill`: from then on `aborted` is set. -/
theorem Resume.loop_kill_taken (msg : Error) (Result : Success → Bool × Success)
    (signals : List Signal) (hne : signals ≠ []) (hall : ∀ s ∈ signals, s = Signal.Kill)
    (pre : List Event) (hpre : ∀ ev ∈ pre, ev.isExited = false) (rest : List Event)
    (aborted : Bool) (signalled : List Signal) :
    ∃ signals2 taken, Signal.Kill ∈ taken ∧
      Resume.loop msg Result (pre ++ Event.signal :: rest) signals aborted signalled =
        Resume.loop msg Result rest signals2 true (signalled ++ taken) := by
  obtain ⟨s1, taken, k, hk, hrest⟩ := Resume.loop_before_exit msg Result pre hpre signals aborted signalled
  have hallk : ∀ s ∈ signals ++ List.replicate k Signal.Kill, s = Signal.Kill := by
    intro s hs
    rcases List.mem_append.1 hs with h | h
    · exact hall s h
    · exact (List.mem_replicate.1 h).2
  cases s1 with
  | nil =>
    have htaken : Signal.Kill ∈ taken := by
      obtain ⟨x, xs, hx⟩ := List.exists_cons_of_ne_nil hne
      have hmem : x ∈ taken := by
        have : x ∈ taken ++ [] := by rw [hk, hx]; simp
        simpa using this
      have hxk : x = Signal.Kill := hall x (by rw [hx]; simp)
      rwa [hxk] at hmem
    exact ⟨[], taken, htaken, by rw [hrest]; simp [Resume.loop, htaken]⟩
  | cons sig s1 =>
    have hsig : sig = Signal.Kill := hallk sig (by rw [← hk]; simp)
    subst hsig
    refine ⟨s1, taken ++ [Signal.Kill], by simp, ?_⟩
    rw [hrest]
    simp [Resume.loop]

/-- C2: in `Resume`, if a `Kill` signal was taken before the exit of the step
process was taken, or the exit error's message contains the message of
`exec.ErrStepTimedOut`, then the success value passed to `Finish` is false
whatever `Result` is, and `Result` is not called. -/
theorem Resume_aborted_or_timed_out_fails (msg : Error) (Result : Success → Bool × Success)
    (build : execBuild) (events : List Event) (run : ResumeRun)
    (h : build.Resume msg Result events = .returned run)
    (hk : Signal.Kill ∈ run.signalled ∨ timedOut msg run.finish.err = true) :
    run.finish.succeeded = false ∧ run.resultCalls = 0 := by
  obtain ⟨_, hloop⟩ := (Resume_returned_iff msg Result build events run).1 h
  obtain ⟨pre, err, post, taken, k, _, _, _, hsig, herr, hab, hsucc, hcalls, _⟩ :=
    Resume.loop_spec msg Result events build.signals false [] run hloop
  have hsig1 : run.signalled = taken := by simpa using hsig
  rw [herr] at hk
  rcases hk with hk | hk
  · have hab1 : run.finish.aborted = true := by
      rw [hab, ← hsig1]; simp [hk]
    rw [hsucc, hcalls, hab1]; simp
  · rw [hsucc, hcalls, hk]; simp

/-- A run for C2: the `Kill` waiting in the channel is taken before the exit,
and the success value is false although `Result` would have reported true. -/
theorem Resume_aborted_or_timed_out_fails_witness :
    (⟨[Signal.Kill], 0, [], ⟨none, false, true⟩, [], true⟩ : ResumeRun).finish.succeeded = false ∧
    (⟨[Signal.Kill], 0, [], ⟨none, false, true⟩, [], true⟩ : ResumeRun).resultCalls = 0 :=
  Resume_aborted_or_timed_out_fails "step timed out" (fun _ => (true, true))
    ⟨7, 7, [Signal.Kill], ⟨Plan.empty⟩⟩ [Event.signal, Event.exited none]
    ⟨[Signal.Kill], 0, [], ⟨none, false, true⟩, [], true⟩ (by decide) (by decide)

/-- C3, as the code has it: a step process that exits with an error that is not
a timeout, in a build that was not aborted, is not failed by `Resume`; the
success value passed to `Finish` is the one `Result` reports (here true). -/
theorem Resume_failed_exit_can_succeed :
    ∃ run, (⟨7, 7, [], ⟨Plan.empty⟩⟩ : execBuild).Resume "step timed out"
        (fun _ => (true, true)) [Event.exited (some "boom")] = .returned run ∧
      run.finish.err = some "boom" ∧ run.finish.succeeded = true :=
  ⟨⟨[], 1, [], ⟨some "boom", true, false⟩, [], true⟩, by decide, rfl, rfl⟩

/-- C3 (amended): for every run of `Resume` in which the step process exits
with a non-nil error, `Resume` returns after passing that error to `Finish`
unchanged, and the success value it passes is false when the build was
aborted, when the error's message contains the message of
`exec.ErrStepTimedOut`, or when `Result` returns false or stores false;
otherwise it is true. -/
theorem Resume_error_exit (msg : Error) (Result : Success → Bool × Success)
    (build : execBuild) (pre post : List Event) (e : Error)
    (hc : (buildStepFactory build.buildID build.metadata.Plan ⟨0, 1, 0⟩ "").isSome = true)
    (hpre : ∀ ev ∈ pre, ev.isExited = false) :
    ∃ run, build.Resume msg Result (pre ++ Event.exited (some e) :: post) = .returned run ∧
      run.finish.err = some e ∧
      run.finish.succeeded =
        (!run.finish.aborted && !stringsContains e msg && (Result false).1 && (Result false).2) := by
  obtain ⟨run, hrun⟩ := Resume.loop_returns msg Result pre post (some e) hpre build.signals false []
  refine ⟨run, (Resume_returned_iff msg Result build _ run).2 ⟨hc, hrun⟩, ?_, ?_⟩
  · exact Resume.loop_first_exit msg Result pre post (some e) hpre _ _ _ run hrun
  · obtain ⟨pre1, err, post1, taken, k, _, _, _, _, herr, _, hsucc, _⟩ :=
      Resume.loop_spec msg Result _ build.signals false [] run hrun
    have herr1 := Resume.loop_first_exit msg Result pre post (some e) hpre _ _ _ run hrun
    rw [herr1] at herr
    rw [hsucc, ← herr]
    rfl

/-- A run for the amended C3: a timeout error fails the step although `Result`
would have reported true. -/
theorem Resume_error_exit_witness :
    ∃ run, (⟨7, 7, [], ⟨Plan.empty⟩⟩ : execBuild).Resume "step timed out"
        (fun _ => (true, true))
        ([Event.abort] ++ Event.exited (some "step timed out after 1s") :: []) = .returned run ∧
      run.finish.err = some "step timed out after 1s" ∧
      run.finish.succeeded =
        (!run.finish.aborted && !stringsContains "step timed out after 1s" "step timed out" &&
          ((fun _ => (true, true)) false : Bool × Success).1 &&
          ((fun _ => (true, true)) false : Bool × Success).2) :=
  Resume_error_exit "step timed out" (fun _ => (true, true)) ⟨7, 7, [], ⟨Plan.empty⟩⟩
    [Event.abort] [] "step timed out after 1s" (by decide) (by decide)

/-- C4: in `Resume`, when the build was not aborted and the exit is not a
timeout, `Result` is called once; if it returns false the success value passed
to `Finish` is false (and the diagnostic is logged), and if it returns true
the success value passed to `Finish` is exactly the value `Result` stored. -/
theorem Resume_result_decides (msg : Error) (Result : Success → Bool × Success)
    (build : execBuild) (events : List Event) (run : ResumeRun)
    (h : build.Resume msg Result events = .returned run)
    (hna : run.finish.aborted = false) (hnt : timedOut msg run.finish.err = false) :
    run.resultCalls = 1 ∧
    ((Result false).1 = false →
      run.finish.succeeded = false ∧ run.logged = ["step-had-no-result"]) ∧
    ((Result false).1 = true → run.finish.succeeded = (Result false).2 ∧ run.logged = []) := by
  obtain ⟨_, hloop⟩ := (Resume_returned_iff msg Result build events run).1 h
  obtain ⟨pre, err, post, taken, k, _, _, _, _, herr, _, hsucc, hcalls, hlog⟩ :=
    Resume.loop_spec msg Result events build.signals false [] run hloop
  rw [herr] at hnt
  rw [hsucc, hcalls, hlog, hna, hnt]
  refine ⟨by simp, ?_, ?_⟩
  · intro hr; simp [hr]
  · intro hr; simp [hr]

/-- A run for C4: the step exits without error and `Result` stores true. -/
theorem Resume_result_decides_witness :
    (⟨[], 1, [], ⟨none, true, false⟩, [], true⟩ : ResumeRun).resultCalls = 1 ∧
    (((fun _ => (true, true)) false : Bool × Success).1 = false →
      (⟨[], 1, [], ⟨none, true, false⟩, [], true⟩ : ResumeRun).finish.succeeded = false ∧
      (⟨[], 1, [], ⟨none, true, false⟩, [], true⟩ : ResumeRun).logged =
        ["step-had-no-result"]) ∧
    (((fun _ => (true, true)) false : Bool × Success).1 = true →
      (⟨[], 1, [], ⟨none, true, false⟩, [], true⟩ : ResumeRun).finish.succeeded =
        ((fun _ => (true, true)) false : Bool × Success).2 ∧
      (⟨[], 1, [], ⟨none, true, false⟩, [], true⟩ : ResumeRun).logged = []) :=
  Resume_result_decides "step timed out" (fun _ => (true, true))
    ⟨7, 7, [], ⟨Plan.empty⟩⟩ [Event.exited none]
    ⟨[], 1, [], ⟨none, true, false⟩, [], true⟩ (by decide) (by decide) (by decide)

/-- What `Abort` does when it returns: the channel holds one more `Kill`, after
what it held, nothing else of the build changes, and the error is nil. -/
theorem Abort_returned (build build1 : execBuild) (err : Option Error)
    (h : build.Abort = some (build1, err)) :
    err = none ∧ build1.signals = build.signals ++ [Signal.Kill] ∧
      build.signals = [] ∧ build1.buildID = build.buildID ∧
      build1.metadata.Plan = build.metadata.Plan := by
  unfold execBuild.Abort at h
  by_cases hlen : build.signals.length < signalsCapacity
  · rw [if_pos hlen] at h
    have h1 := Option.some.inj h
    have h2 : build1 = { build with signals := build.signals ++ [Signal.Kill] } :=
      (congrArg Prod.fst h1).symm
    have h3 : err = none := (congrArg Prod.snd h1).symm
    have h4 : build.signals = [] := by
      cases hs : build.signals with
      | nil => rfl
      | cons x xs => rw [hs] at hlen; simp [signalsCapacity] at hlen
    subst h2
    exact ⟨h3, rfl, h4, rfl, rfl⟩
  · rw [if_neg hlen] at h
    exact absurd h (by simp)

/-- C5: `Abort` puts exactly one `Kill` on the build's signal channel and
returns no error (it returns whenever the channel has room, as it has on a
build just created, and waits while the channel is full); the signals `Resume`
takes from the channel before the exit are passed to the step process
unchanged and in order (what was passed on, followed by what is left in the
channel, is what the channel held followed by the `Kill`s of `Abort`); and on
a channel that only ever holds `Kill`s, whenever an `Abort` is followed by the
`select` taking a signal before it takes the exit, a `Kill` has been passed to
the step process and `aborted` is set. -/
theorem Abort_Kill_reaches_step :
    (∀ (build build1 : execBuild) (err : Option Error), build.Abort = some (build1, err) →
      err = none ∧ build1.signals = build.signals ++ [Signal.Kill]) ∧
    (∀ build : execBuild, build.signals.length < signalsCapacity →
      build.Abort = some ({ build with signals := build.signals ++ [Signal.Kill] }, none)) ∧
    (∀ (model : Build) (plan : Plan) (build : execBuild), CreateBuild model plan = .ok build →
      build.Abort = some ({ build with signals := [Signal.Kill] }, none)) ∧
    (∀ (msg : Error) (Result : Success → Bool × Success) (build : execBuild)
      (events : List Event) (run : ResumeRun),
      build.Resume msg Result events = .returned run →
      ∃ k, run.signalled ++ run.signals = build.signals ++ List.replicate k Signal.Kill) ∧
    (∀ (msg : Error) (Result : Success → Bool × Success) (build : execBuild)
      (pre mid rest : List Event) (run : ResumeRun),
      (∀ s ∈ build.signals, s = Signal.Kill) →
      (∀ ev ∈ pre, ev.isExited = false) → (∀ ev ∈ mid, ev.isExited = false) →
      build.Resume msg Result (pre ++ Event.abort :: (mid ++ Event.signal :: rest)) =
        .returned run →
      Signal.Kill ∈ run.signalled ∧ run.finish.aborted = true) := by
  refine ⟨?_, ?_, ?_, ?_, ?_⟩
  · intro build build1 err h
    obtain ⟨h1, h2, _⟩ := Abort_returned build build1 err h
    exact ⟨h1, h2⟩
  · intro build hlen
    simp [execBuild.Abort, hlen]
  · intro model plan build h
    simp only [CreateBuild, Except.ok.injEq] at h
    subst h
    simp [execBuild.Abort, signalsCapacity]
  · intro msg Result build events run h
    obtain ⟨_, hloop⟩ := (Resume_returned_iff msg Result build events run).1 h
    obtain ⟨pre, err, post, taken, k, _, _, hk, hsig, _⟩ :=
      Resume.loop_spec msg Result events build.signals false [] run hloop
    have hsig1 : run.signalled = taken := by simpa using hsig
    exact ⟨k, by rw [hsig1, hk]⟩
  · intro msg Result build pre mid rest run hall hpre hmid h
    obtain ⟨_, hloop⟩ := (Resume_returned_iff msg Result build _ run).1 h
    obtain ⟨s1, taken, k, hk, hrest⟩ :=
      Resume.loop_before_exit msg Result pre hpre build.signals false []
    rw [hrest] at hloop
    have hall1 : ∀ s ∈ s1, s = Signal.Kill := by
      intro s hs
      have : s ∈ build.signals ++ List.replicate k Signal.Kill := by
        rw [← hk]; exact List.mem_append_right _ hs
      rcases List.mem_append.1 this with h1 | h1
      · exact hall s h1
      · exact (List.mem_replicate.1 h1).2
    have hstep : ∃ s2, s2 ≠ [] ∧ (∀ s ∈ s2, s = Signal.Kill) ∧
        Resume.loop msg Result (mid ++ Event.signal :: rest) s2
          (false || decide (Signal.Kill ∈ taken)) ([] ++ taken) = some run := by
      by_cases hlen : s1.length < signalsCapacity
      · refine ⟨s1 ++ [Signal.Kill], by simp, ?_, by simpa [Resume.loop, hlen] using hloop⟩
        intro s hs
        rcases List.mem_append.1 hs with h1 | h1
        · exact hall1 s h1
        · simpa using h1
      · refine ⟨s1, ?_, hall1, by simpa [Resume.loop, hlen] using hloop⟩
        intro h0
        rw [h0] at hlen
        simp [signalsCapacity] at hlen
    obtain ⟨s2, hne, hall2, hloop2⟩ := hstep
    obtain ⟨s3, taken2, hkill, heq⟩ := Resume.loop_kill_taken msg Result s2 hne hall2 mid hmid rest
      (false || decide (Signal.Kill ∈ taken)) ([] ++ taken)
    rw [heq] at hloop2
    obtain ⟨_, _, _, taken3, _, _, _, _, hsig, _, hab, _⟩ :=
      Resume.loop_spec msg Result rest s3 true _ run hloop2
    refine ⟨?_, by simpa using hab⟩
    rw [hsig]
    simp [hkill]

/-- A run for C5: `Abort` is called on a build just created while its step
runs, the `select` takes the signal and then the exit. -/
theorem Abort_Kill_reaches_step_witness :
    Signal.Kill ∈ (⟨[Signal.Kill], 0, [], ⟨none, false, true⟩, [], true⟩ : ResumeRun).signalled ∧
    (⟨[Signal.Kill], 0, [], ⟨none, false, true⟩, [], true⟩ : ResumeRun).finish.aborted = true :=
  Abort_Kill_reaches_step.2.2.2.2 "step timed out" (fun _ => (true, true))
    ⟨7, 7, [], ⟨Plan.empty⟩⟩ [] [] [Event.exited none]
    ⟨[Signal.Kill], 0, [], ⟨none, false, true⟩, [], true⟩
    (by decide) (by decide) (by decide) (by decide)

/-- C6, as the code has it: `Abort` is called on a build before `Resume`
starts, the step process exits at once and the `select` takes the exit before
the waiting signal; `Finish` is called with aborted = false and success = true. -/
theorem Resume_can_miss_earlier_Abort :
    ∃ build build1 run, CreateBuild ⟨7, ""⟩ Plan.empty = .ok build ∧
      build.Abort = some (build1, none) ∧
      build1.Resume "step timed out" (fun _ => (true, true)) [Event.exited none] =
        .returned run ∧
      run.finish.aborted = false ∧ run.finish.succeeded = true :=
  ⟨⟨7, 7, [], ⟨Plan.empty⟩⟩, ⟨7, 7, [Signal.Kill], ⟨Plan.empty⟩⟩,
    ⟨[], 1, [], ⟨none, true, false⟩, [Signal.Kill], true⟩, rfl, rfl, by decide, rfl, rfl⟩

/-- C6 (amended): for every build on which `Abort` was called before `Resume`
starts, the `Kill` is waiting in the build's signal channel when `Resume`
starts, and every run of `Resume` (on a plan that compiles) in which the
`select` takes a signal before it takes the exit of the step process returns
after passing a `Kill` to the step process and calling `Finish` with
aborted = true and success = false. -/
theorem Resume_honours_earlier_Abort (msg : Error) (Result : Success → Bool × Success)
    (build build1 : execBuild) (err0 : Option Error) (pre mid post : List Event)
    (err : Option Error)
    (habort : build.Abort = some (build1, err0))
    (hc : (buildStepFactory build1.buildID build1.metadata.Plan ⟨0, 1, 0⟩ "").isSome = true)
    (hpre : ∀ ev ∈ pre, ev.isExited = false) (hmid : ∀ ev ∈ mid, ev.isExited = false) :
    build1.signals = [Signal.Kill] ∧
    ∃ run, build1.Resume msg Result (pre ++ Event.signal :: (mid ++ Event.exited err :: post)) =
        .returned run ∧
      Signal.Kill ∈ run.signalled ∧ run.finish.aborted = true ∧
      run.finish.succeeded = false := by
  obtain ⟨_, hsig, hempty, _, _⟩ := Abort_returned build build1 err0 habort
  have hs1 : build1.signals = [Signal.Kill] := by rw [hsig, hempty]; rfl
  refine ⟨hs1, ?_⟩
  obtain ⟨s3, taken2, hkill, heq⟩ := Resume.loop_kill_taken msg Result [Signal.Kill] (by simp)
    (by simp) pre hpre (mid ++ Event.exited err :: post) false []
  obtain ⟨run, hrun⟩ := Resume.loop_returns msg Result mid post err hmid s3 true ([] ++ taken2)
  have hloop : Resume.loop msg Result (pre ++ Event.signal :: (mid ++ Event.exited err :: post))
      build1.signals false [] = some run := by
    rw [hs1, heq, hrun]
  refine ⟨run, (Resume_returned_iff msg Result build1 _ run).2 ⟨hc, hloop⟩, ?_⟩
  obtain ⟨_, _, _, taken3, _, _, _, _, hsg, _, hab, hsucc, _⟩ :=
    Resume.loop_spec msg Result _ s3 true _ run hrun
  have hab1 : run.finish.aborted = true := by simpa using hab
  refine ⟨?_, hab1, ?_⟩
  · rw [hsg]; simp [hkill]
  · rw [hsucc, hab1]; simp

/-- A run for the amended C6: the `Kill` of the earlier `Abort` is taken first,
then the exit. -/
theorem Resume_honours_earlier_Abort_witness :
    (⟨7, 7, [Signal.Kill], ⟨Plan.empty⟩⟩ : execBuild).signals = [Signal.Kill] ∧
    ∃ run, (⟨7, 7, [Signal.Kill], ⟨Plan.empty⟩⟩ : execBuild).Resume "step timed out"
        (fun _ => (true, true))
        ([] ++ Event.signal :: ([] ++ Event.exited none :: [])) = .returned run ∧
      Signal.Kill ∈ run.signalled ∧ run.finish.aborted = true ∧
      run.finish.succeeded = false :=
  Resume_honours_earlier_Abort "step timed out" (fun _ => (true, true))
    ⟨7, 7, [], ⟨Plan.empty⟩⟩ ⟨7, 7, [Signal.Kill], ⟨Plan.empty⟩⟩ none [] [] [] none
    rfl (by decide) (by decide) (by decide)

/-! ## Plan compilation: one equation per kind -/

@[simp]
theorem OriginLocation.Incr_ID (ol : OriginLocation) (n : Nat) :
    (ol.Incr n).ID = ol.ID + n := rfl

@[simp]
theorem OriginLocation.SetParentID_ID (ol : OriginLocation) (n : Nat) :
    (ol.SetParentID n).ID = ol.ID := rfl

/-- Compiling an `Aggregate`: the members are compiled by the loop, from the
aggregate's location with the running increment starting at 1. -/
theorem buildStepFactory_Aggregate (buildID : Int) (innerPlans : List Plan)
    (t : Option TryPlan) (ti : Option TimeoutPlan) (h : Option HookedComposePlan)
    (c : Option ComposePlan) (co : Option ConditionalPlan) (ta : Option TaskPlan)
    (g : Option GetPlan) (p : Option PutPlan) (pg : Option PutGetPlan)
    (location : OriginLocation) (hook : String) :
    buildStepFactory buildID (.mk (some innerPlans) t ti h c co ta g p pg) location hook =
      (buildAggregateSteps buildID innerPlans (aggregateLocation location) hook 1 []).bind
        fun r => some (StepFactory.Aggregate r.1, r.2) := by
  rw [buildStepFactory]
  by_cases hpg : location.ParallelGroup = 0 <;> simp [aggregateLocation, hpg]

/-- Compiling a `Try`. -/
theorem buildStepFactory_Try (buildID : Int) (step : Plan)
    (ti : Option TimeoutPlan) (h : Option HookedComposePlan)
    (c : Option ComposePlan) (co : Option ConditionalPlan) (ta : Option TaskPlan)
    (g : Option GetPlan) (p : Option PutPlan) (pg : Option PutGetPlan)
    (location : OriginLocation) (hook : String) :
    buildStepFactory buildID (.mk none (some ⟨step⟩) ti h c co ta g p pg) location hook =
      (buildStepFactory buildID step location "").bind
        fun r => some (StepFactory.Try r.1, r.2) := by
  rw [buildStepFactory]

/-- Compiling a `Timeout`. -/
theorem buildStepFactory_Timeout (buildID : Int) (step : Plan) (duration : Duration)
    (h : Option HookedComposePlan)
    (c : Option ComposePlan) (co : Option ConditionalPlan) (ta : Option TaskPlan)
    (g : Option GetPlan) (p : Option PutPlan) (pg : Option PutGetPlan)
    (location : OriginLocation) (hook : String) :
    buildStepFactory buildID (.mk none none (some ⟨step, duration⟩) h c co ta g p pg)
        location hook =
      (buildStepFactory buildID step location "").bind
        fun r => some (StepFactory.Timeout r.1 duration, r.2) := by
  rw [buildStepFactory]

/-- Compiling a `HookedCompose`: the step keeps the location; the three hooks
get the hooked step's ID as parent ID and parallel group 0; `next` keeps the
parent ID and gets parallel group 0. -/
theorem buildStepFactory_HookedCompose (buildID : Int)
    (step onFailure onSuccess onCompletion next : Plan)
    (c : Option ComposePlan) (co : Option ConditionalPlan) (ta : Option TaskPlan)
    (g : Option GetPlan) (p : Option PutPlan) (pg : Option PutGetPlan)
    (location : OriginLocation) (hook : String) :
    buildStepFactory buildID
        (.mk none none none (some ⟨step, onFailure, onSuccess, onCompletion, next⟩)
          c co ta g p pg) location hook =
      (buildStepFactory buildID step location hook).bind fun s =>
      (buildStepFactory buildID onFailure
        ⟨location.ID, location.ID + s.2, 0⟩ "failure").bind fun f =>
      (buildStepFactory buildID onSuccess
        ⟨location.ID, location.ID + (s.2 + f.2), 0⟩ "success").bind fun su =>
      (buildStepFactory buildID onCompletion
        ⟨location.ID, location.ID + (s.2 + su.2 + f.2), 0⟩ "ensure").bind fun e =>
      (buildStepFactory buildID next
        ⟨location.ParentID, location.ID + (s.2 + su.2 + f.2 + e.2), 0⟩ hook).bind fun n =>
      some (StepFactory.HookedCompose s.1 n.1 f.1 su.1 e.1, s.2 + n.2 + e.2 + f.2 + su.2) := by
  rw [buildStepFactory]
  rfl

/-- Compiling a `Compose`. -/
theorem buildStepFactory_Compose (buildID : Int) (a b : Plan)
    (co : Option ConditionalPlan) (ta : Option TaskPlan)
    (g : Option GetPlan) (p : Option PutPlan) (pg : Option PutGetPlan)
    (location : OriginLocation) (hook : String) :
    buildStepFactory buildID (.mk none none none none (some ⟨a, b⟩) co ta g p pg)
        location hook =
      (buildStepFactory buildID a location "").bind fun x =>
      (buildStepFactory buildID b (location.Incr x.2) "").bind fun y =>
      some (StepFactory.Compose x.1 y.1, x.2 + y.2) := by
  rw [buildStepFactory]

/-- Compiling a `Conditional`. -/
theorem buildStepFactory_Conditional (buildID : Int) (conditions : Conditions) (plan : Plan)
    (ta : Option TaskPlan) (g : Option GetPlan) (p : Option PutPlan) (pg : Option PutGetPlan)
    (location : OriginLocation) (hook : String) :
    buildStepFactory buildID (.mk none none none none none (some ⟨conditions, plan⟩) ta g p pg)
        location hook =
      (buildStepFactory buildID plan location "").bind
        fun r => some (StepFactory.Conditional conditions r.1, r.2) := by
  rw [buildStepFactory]

/-- Compiling a `Task` that has a config or a config path: one task step at
the location, one origin ID. -/
theorem buildStepFactory_Task (buildID : Int) (task : TaskPlan)
    (g : Option GetPlan) (p : Option PutPlan) (pg : Option PutGetPlan)
    (location : OriginLocation) (hook : String)
    (hcfg : (task.Config.isSome || task.ConfigPath ≠ "") = true) :
    ∃ configSource,
      buildStepFactory buildID (.mk none none none none none none (some task) g p pg)
          location hook =
        some (StepFactory.Task task.Name (taskIdentifier buildID task.Name location)
          ⟨task, location, hook⟩ task.Privileged task.Tags configSource, 1) := by
  rw [buildStepFactory]
  cases hc : task.Config with
  | none =>
    have hp : task.ConfigPath ≠ "" := by simpa [hc] using hcfg
    exact ⟨.FileConfigSource task.ConfigPath, by simp [hp, SingleIncrement]⟩
  | some config =>
    by_cases hp : task.ConfigPath = ""
    · exact ⟨.StaticConfigSource config, by simp [hp, SingleIncrement]⟩
    · exact ⟨.MergedConfigSource (.FileConfigSource task.ConfigPath)
        (.StaticConfigSource config), by simp [hp, SingleIncrement]⟩

/-- Compiling a `Task` with neither config nor config path: the identity
step, no origin ID. -/
theorem buildStepFactory_Task_unconfigured (buildID : Int) (task : TaskPlan)
    (g : Option GetPlan) (p : Option PutPlan) (pg : Option PutGetPlan)
    (location : OriginLocation) (hook : String)
    (hcfg : (task.Config.isSome || task.ConfigPath ≠ "") = false) :
    buildStepFactory buildID (.mk none none none none none none (some task) g p pg)
        location hook = some (StepFactory.Identity, 0) := by
  rw [buildStepFactory]
  cases hc : task.Config with
  | none =>
    have hp : task.ConfigPath = "" := by simpa [hc] using hcfg
    simp [hp, NoIncrement]
  | some config => simp [hc] at hcfg

/-- Compiling a `Get`: one get step at the location, one origin ID. -/
theorem buildStepFactory_Get (buildID : Int) (get : GetPlan)
    (p : Option PutPlan) (pg : Option PutGetPlan)
    (location : OriginLocation) (hook : String) :
    buildStepFactory buildID (.mk none none none none none none none (some get) p pg)
        location hook =
      some (StepFactory.Get get.Name (getIdentifier buildID get.Name location)
        ⟨get, location, hook⟩ ⟨get.Resource, get.Type_, get.Source⟩
        get.Params get.Tags get.Version, 1) := by
  rw [buildStepFactory]
  rfl

/-- Compiling a `PutGet` whose head carries a `Put`: the put at the location,
its dependent get at the next ID with the put's ID as parent ID and parallel
group 0, in the `success` slot of the hooked composition, and `rest` two IDs
further. -/
theorem buildStepFactory_PutGet (buildID : Int) (head rest : Plan) (putPlan : PutPlan)
    (p : Option PutPlan) (location : OriginLocation) (hook : String)
    (hput : head.Put = some putPlan) :
    buildStepFactory buildID (.mk none none none none none none none none p (some ⟨head, rest⟩))
        location hook =
      (buildStepFactory buildID rest (location.Incr 2) "").bind fun r =>
      some (StepFactory.HookedCompose
        (StepFactory.Put (putIdentifier buildID putPlan.Resource location)
          ⟨putPlan, location, hook⟩ ⟨putPlan.Resource, putPlan.Type_, putPlan.Source⟩
          putPlan.Tags putPlan.Params)
        r.1
        StepFactory.Identity
        (StepFactory.DependentGet putPlan.GetPlan.Name
          (getIdentifier buildID putPlan.GetPlan.Name ⟨location.ID, location.ID + 1, 0⟩)
          ⟨putPlan.GetPlan, ⟨location.ID, location.ID + 1, 0⟩, ""⟩
          ⟨putPlan.GetPlan.Resource, putPlan.GetPlan.Type_, putPlan.GetPlan.Source⟩
          putPlan.GetPlan.Tags putPlan.GetPlan.Params)
        StepFactory.Identity, 2 + r.2) := by
  rw [buildStepFactory, hput]
  rfl

/-- Compiling a `PutGet` whose head carries no `Put` panics. -/
theorem buildStepFactory_PutGet_nil (buildID : Int) (head rest : Plan)
    (p : Option PutPlan) (location : OriginLocation) (hook : String)
    (hput : head.Put = none) :
    buildStepFactory buildID (.mk none none none none none none none none p (some ⟨head, rest⟩))
        location hook = none := by
  rw [buildStepFactory, hput]

/-- Compiling a plan with none of the compiled kinds set: the identity step. -/
theorem buildStepFactory_none (buildID : Int) (p : Option PutPlan)
    (location : OriginLocation) (hook : String) :
    buildStepFactory buildID (.mk none none none none none none none none p none)
        location hook = some (StepFactory.Identity, 0) := by
  rw [buildStepFactory]
  rfl

/-- The loop over the members of an aggregate, one member at a time. -/
theorem buildAggregateSteps_cons (buildID : Int) (innerPlan : Plan) (innerPlans : List Plan)
    (location : OriginLocation) (hook : String) (aID : OriginLocationIncrement)
    (step : List StepFactory) :
    buildAggregateSteps buildID (innerPlan :: innerPlans) location hook aID step =
      (buildStepFactory buildID innerPlan (location.Incr aID)
        (if innerPlan.Aggregate.isNone then hook else "")).bind fun r =>
      buildAggregateSteps buildID innerPlans location hook (aID + r.2) (step ++ [r.1]) := by
  rw [buildAggregateSteps]

/-! ## Origin IDs are pairwise distinct -/

theorem idsWithin_nodup {l : List Nat} {lo hi : Nat} (h : idsWithin l lo hi) : l.Nodup :=
  List.nodup_iff_count_le_one.2 fun a => (h a).1

theorem incrementOf_some (sf : StepFactory) (n : OriginLocationIncrement) :
    incrementOf (some (sf, n)) = n := rfl

theorem aggregateIDs_Aggregate (buildID : Int) (innerPlans : List Plan)
    (t : Option TryPlan) (ti : Option TimeoutPlan) (h : Option HookedComposePlan)
    (c : Option ComposePlan) (co : Option ConditionalPlan) (ta : Option TaskPlan)
    (g : Option GetPlan) (p : Option PutPlan) (pg : Option PutGetPlan)
    (location : OriginLocation) (hook : String) :
    aggregateIDs buildID (.mk (some innerPlans) t ti h c co ta g p pg) location hook =
      location.ID :: aggregateIDsOfSteps buildID innerPlans (aggregateLocation location) hook 1 := by
  rw [aggregateIDs]
  by_cases hpg : location.ParallelGroup = 0 <;> simp [aggregateLocation, hpg]

theorem aggregateIDs_HookedCompose (buildID : Int)
    (step onFailure onSuccess onCompletion next : Plan)
    (c : Option ComposePlan) (co : Option ConditionalPlan) (ta : Option TaskPlan)
    (g : Option GetPlan) (p : Option PutPlan) (pg : Option PutGetPlan)
    (location : OriginLocation) (hook : String) (s f su e : Nat)
    (hs : incrementOf (buildStepFactory buildID step location hook) = s)
    (hf : incrementOf (buildStepFactory buildID onFailure
      ⟨location.ID, location.ID + s, 0⟩ "failure") = f)
    (hsu : incrementOf (buildStepFactory buildID onSuccess
      ⟨location.ID, location.ID + (s + f), 0⟩ "success") = su)
    (he : incrementOf (buildStepFactory buildID onCompletion
      ⟨location.ID, location.ID + (s + su + f), 0⟩ "ensure") = e) :
    aggregateIDs buildID
        (.mk none none none (some ⟨step, onFailure, onSuccess, onCompletion, next⟩)
          c co ta g p pg) location hook =
      aggregateIDs buildID step location hook ++
      aggregateIDs buildID onFailure ⟨location.ID, location.ID + s, 0⟩ "failure" ++
      aggregateIDs buildID onSuccess ⟨location.ID, location.ID + (s + f), 0⟩ "success" ++
      aggregateIDs buildID onCompletion ⟨location.ID, location.ID + (s + su + f), 0⟩ "ensure" ++
      aggregateIDs buildID next ⟨location.ParentID, location.ID + (s + su + f + e), 0⟩ hook := by
  subst hs hf hsu he
  rw [aggregateIDs]
  rfl

theorem aggregateIDs_Compose (buildID : Int) (a b : Plan)
    (co : Option ConditionalPlan) (ta : Option TaskPlan)
    (g : Option GetPlan) (p : Option PutPlan) (pg : Option PutGetPlan)
    (location : OriginLocation) (hook : String) (x : Nat)
    (hx : incrementOf (buildStepFactory buildID a location "") = x) :
    aggregateIDs buildID (.mk none none none none (some ⟨a, b⟩) co ta g p pg) location hook =
      aggregateIDs buildID a location "" ++ aggregateIDs buildID b (location.Incr x) "" := by
  subst hx
  rw [aggregateIDs]

theorem aggregateIDsOfSteps_cons (buildID : Int) (innerPlan : Plan) (innerPlans : List Plan)
    (location : OriginLocation) (hook : String) (aID r : Nat)
    (hr : incrementOf (buildStepFactory buildID innerPlan (location.Incr aID)
      (if innerPlan.Aggregate.isNone then hook else "")) = r) :
    aggregateIDsOfSteps buildID (innerPlan :: innerPlans) location hook aID =
      aggregateIDs buildID innerPlan (location.Incr aID)
          (if innerPlan.Aggregate.isNone then hook else "") ++
        aggregateIDsOfSteps buildID innerPlans location hook (aID + r) := by
  subst hr
  rw [aggregateIDsOfSteps]

/-- Compiling a plan in which every `PutGet` head carries a `Put` succeeds, and
the IDs of its steps and of its aggregates are pairwise distinct and lie in
`[location.ID, location.ID + n)`, `n` being the returned increment. -/
theorem buildStepFactory_ids (buildID : Int) (plan : Plan) :
    plan.putGetHeadsHavePut = true → ∀ (location : OriginLocation) (hook : String),
    ∃ (sf : StepFactory) (n : Nat), buildStepFactory buildID plan location hook = some (sf, n) ∧
      idsWithin (sf.originIDs ++ aggregateIDs buildID plan location hook)
        location.ID (location.ID + n) ∧
      sf.identifiers.map (·.StepLocation) = sf.originIDs := by
  refine aggregateIDs.induct buildID
    (fun plan _ _ => plan.putGetHeadsHavePut = true →
      ∀ (location : OriginLocation) (hook : String),
      ∃ (sf : StepFactory) (n : Nat), buildStepFactory buildID plan location hook = some (sf, n) ∧
        idsWithin (sf.originIDs ++ aggregateIDs buildID plan location hook)
          location.ID (location.ID + n) ∧
        sf.identifiers.map (·.StepLocation) = sf.originIDs)
    (fun innerPlans _ _ _ => Plan.allPutGetHeadsHavePut innerPlans = true →
      ∀ (location : OriginLocation) (hook : String) (aID : Nat)
        (step : List StepFactory),
      ∃ (steps : List StepFactory) (n : Nat), buildAggregateSteps buildID innerPlans location hook aID step =
          some (step ++ steps, n) ∧ aID ≤ n ∧
        idsWithin ((StepFactory.locationsOfSteps steps).map (·.ID) ++
            aggregateIDsOfSteps buildID innerPlans location hook aID)
          (location.ID + aID) (location.ID + n) ∧
        (StepFactory.identifiersOfSteps steps).map (·.StepLocation) =
          (StepFactory.locationsOfSteps steps).map (·.ID))
    ?_ ?_ ?_ ?_ ?_ ?_ ?_ ?_ ?_ ?_ ?_ ?_ plan ⟨0, 0, 0⟩ ""
  · -- Aggregate
    intro innerPlans t ti h c co ta g p pg _ _ _ _ ih hwf location hook
    have hwf1 : Plan.allPutGetHeadsHavePut innerPlans = true := by
      simp only [Plan.putGetHeadsHavePut, Plan.aggregateHeadsHavePut, Bool.and_eq_true] at hwf
      exact hwf.1.1.1.1.1.1
    obtain ⟨steps, n, hb, hle, hids, hid⟩ := ih hwf1 (aggregateLocation location) hook 1 []
    refine ⟨.Aggregate steps, n, ?_, ?_, ?_⟩
    · rw [buildStepFactory_Aggregate, hb]; rfl
    rotate_left
    · simpa only [StepFactory.originIDs, StepFactory.locations, StepFactory.identifiers] using hid
    · intro a
      have h := hids a
      have hl : (aggregateLocation location).ID = location.ID := rfl
      rw [aggregateIDs_Aggregate]
      simp only [StepFactory.originIDs, StepFactory.locations, List.count_append,
        List.count_cons, hl, beq_iff_eq] at h ⊢
      split <;> omega
  · -- Try
    intro step ti h c co ta g p pg _ _ ih hwf location hook
    have hwf1 : step.putGetHeadsHavePut = true := by
      simp only [Plan.putGetHeadsHavePut, Plan.tryHeadsHavePut, Bool.and_eq_true] at hwf
      exact hwf.1.1.1.1.1.2
    obtain ⟨sf, n, hb, hids, hid⟩ := ih hwf1 location ""
    refine ⟨.Try sf, n, by rw [buildStepFactory_Try, hb]; rfl, ?_, ?_⟩
    · rw [aggregateIDs]
      simpa only [StepFactory.originIDs, StepFactory.locations] using hids
    · simpa only [StepFactory.originIDs, StepFactory.locations, StepFactory.identifiers] using hid
  · -- Timeout
    intro step duration h c co ta g p pg _ _ ih hwf location hook
    have hwf1 : step.putGetHeadsHavePut = true := by
      simp only [Plan.putGetHeadsHavePut, Plan.timeoutHeadsHavePut, Bool.and_eq_true] at hwf
      exact hwf.1.1.1.1.2
    obtain ⟨sf, n, hb, hids, hid⟩ := ih hwf1 location ""
    refine ⟨.Timeout sf duration, n, by rw [buildStepFactory_Timeout, hb]; rfl, ?_, ?_⟩
    · rw [aggregateIDs]
      simpa only [StepFactory.originIDs, StepFactory.locations] using hids
    · simpa only [StepFactory.originIDs, StepFactory.locations, StepFactory.identifiers] using hid
  · -- HookedCompose
    intro step onFailure onSuccess onCompletion next c co ta g p pg location0 hook0
      _ _ _ _ _ _ _ _ ih1 ih2 ih3 ih4 ih5 hwf location hook
    have hwf1 : step.putGetHeadsHavePut = true ∧ onFailure.putGetHeadsHavePut = true ∧
        onSuccess.putGetHeadsHavePut = true ∧ onCompletion.putGetHeadsHavePut = true ∧
        next.putGetHeadsHavePut = true := by
      simp only [Plan.putGetHeadsHavePut, Plan.hookedHeadsHavePut, Bool.and_eq_true] at hwf
      tauto
    obtain ⟨hw1, hw2, hw3, hw4, hw5⟩ := hwf1
    obtain ⟨sf1, n1, hb1, hids1, hid1⟩ := ih1 hw1 location hook
    obtain ⟨sf2, n2, hb2, hids2, hid2⟩ := ih2 hw2 ⟨location.ID, location.ID + n1, 0⟩ "failure"
    obtain ⟨sf3, n3, hb3, hids3, hid3⟩ :=
      ih3 hw3 ⟨location.ID, location.ID + (n1 + n2), 0⟩ "success"
    obtain ⟨sf4, n4, hb4, hids4, hid4⟩ :=
      ih4 hw4 ⟨location.ID, location.ID + (n1 + n3 + n2), 0⟩ "ensure"
    obtain ⟨sf5, n5, hb5, hids5, hid5⟩ := ih5 hw5
      ⟨location.ParentID, location.ID + (n1 + n3 + n2 + n4), 0⟩ hook
    refine ⟨.HookedCompose sf1 sf5 sf2 sf3 sf4, n1 + n5 + n4 + n2 + n3, ?_, ?_, ?_⟩
    rotate_right
    · simp only [StepFactory.originIDs, StepFactory.locations, StepFactory.identifiers,
        List.map_append] at hid1 hid2 hid3 hid4 hid5 ⊢
      rw [hid1, hid2, hid3, hid4, hid5]
    · rw [buildStepFactory_HookedCompose, hb1]
      simp only [Option.bind]
      rw [hb2]
      simp only []
      rw [hb3]
      simp only []
      rw [hb4]
      simp only []
      rw [hb5]
    · rw [aggregateIDs_HookedCompose buildID step onFailure onSuccess onCompletion next c co ta g p
        pg location hook n1 n2 n3 n4 (by rw [hb1]; rfl) (by rw [hb2]; rfl) (by rw [hb3]; rfl)
        (by rw [hb4]; rfl)]
      intro a
      have h1 := hids1 a
      have h2 := hids2 a
      have h3 := hids3 a
      have h4 := hids4 a
      have h5 := hids5 a
      simp only [StepFactory.originIDs, StepFactory.locations, List.map_append,
        List.count_append] at h1 h2 h3 h4 h5 ⊢
      omega
  · -- Compose
    intro a b co ta g p pg _ _ _ ih1 ih2 hwf location hook
    have hwf1 : a.putGetHeadsHavePut = true ∧ b.putGetHeadsHavePut = true := by
      simp only [Plan.putGetHeadsHavePut, Plan.composeHeadsHavePut, Bool.and_eq_true] at hwf
      tauto
    obtain ⟨sf1, n1, hb1, hids1, hid1⟩ := ih1 hwf1.1 location ""
    obtain ⟨sf2, n2, hb2, hids2, hid2⟩ := ih2 hwf1.2 (location.Incr n1) ""
    refine ⟨.Compose sf1 sf2, n1 + n2, ?_, ?_, ?_⟩
    rotate_right
    · simp only [StepFactory.originIDs, StepFactory.locations, StepFactory.identifiers,
        List.map_append] at hid1 hid2 ⊢
      rw [hid1, hid2]
    · rw [buildStepFactory_Compose, hb1]
      simp only [Option.bind]
      rw [hb2]
    · rw [aggregateIDs_Compose buildID a b co ta g p pg location hook n1 (by rw [hb1]; rfl)]
      intro x
      have h1 := hids1 x
      have h2 := hids2 x
      simp only [StepFactory.originIDs, StepFactory.locations, List.map_append,
        List.count_append, OriginLocation.Incr_ID] at h1 h2 ⊢
      omega
  · -- Conditional
    intro conditions plan ta g p pg _ _ ih hwf location hook
    have hwf1 : plan.putGetHeadsHavePut = true := by
      simp only [Plan.putGetHeadsHavePut, Plan.conditionalHeadsHavePut, Bool.and_eq_true] at hwf
      exact hwf.1.2
    obtain ⟨sf, n, hb, hids, hid⟩ := ih hwf1 location ""
    refine ⟨.Conditional conditions sf, n, by rw [buildStepFactory_Conditional, hb]; rfl, ?_, ?_⟩
    · rw [aggregateIDs]
      simpa only [StepFactory.originIDs, StepFactory.locations] using hids
    · simpa only [StepFactory.originIDs, StepFactory.locations, StepFactory.identifiers] using hid
  · -- Task
    intro task g p pg _ _ _ location hook
    by_cases hcfg : (task.Config.isSome || task.ConfigPath ≠ "") = true
    · obtain ⟨cs, hb⟩ := buildStepFactory_Task buildID task g p pg location hook hcfg
      refine ⟨_, 1, hb, ?_, rfl⟩
      rw [aggregateIDs]
      intro a
      simp only [StepFactory.originIDs, StepFactory.locations, List.map_cons, List.map_nil,
        List.append_nil, List.count_cons, List.count_nil, beq_iff_eq]
      split <;> omega
    · have hcfg1 : (task.Config.isSome || task.ConfigPath ≠ "") = false := by
        simpa using hcfg
      refine ⟨_, 0, buildStepFactory_Task_unconfigured buildID task g p pg location hook hcfg1,
        ?_, rfl⟩
      rw [aggregateIDs]
      intro a
      simp [StepFactory.originIDs, StepFactory.locations]
  · -- Get
    intro get p pg _ _ _ location hook
    refine ⟨_, 1, buildStepFactory_Get buildID get p pg location hook, ?_, rfl⟩
    rw [aggregateIDs]
    intro a
    simp only [StepFactory.originIDs, StepFactory.locations, List.map_cons, List.map_nil,
      List.append_nil, List.count_cons, List.count_nil, beq_iff_eq]
    split <;> omega
  · -- PutGet
    intro p head rest _ _ ih hwf location hook
    have hwf1 : head.Put.isSome = true ∧ rest.putGetHeadsHavePut = true := by
      simp only [Plan.putGetHeadsHavePut, Plan.putGetHeadHasPut, Bool.and_eq_true] at hwf
      tauto
    obtain ⟨putPlan, hput⟩ := Option.isSome_iff_exists.1 hwf1.1
    obtain ⟨sf, n, hb, hids, hid⟩ := ih hwf1.2 (location.Incr 2) ""
    have heq := buildStepFactory_PutGet buildID head rest putPlan p location hook hput
    rw [hb] at heq
    simp only [Option.some_bind] at heq
    refine ⟨_, 2 + n, heq, ?_, ?_⟩
    rotate_left
    · simp only [StepFactory.originIDs, StepFactory.locations, StepFactory.identifiers,
        List.map_append] at hid ⊢
      rw [hid]
      rfl
    · rw [aggregateIDs]
      intro a
      have h1 := hids a
      simp only [StepFactory.originIDs, StepFactory.locations, List.map_append, List.map_cons,
        List.map_nil, List.count_append, List.count_cons, List.count_nil, beq_iff_eq,
        OriginLocation.Incr_ID, List.append_nil, List.nil_append] at h1 ⊢
      split <;> split <;> omega
  · -- no compiled kind
    intro p _ _ _ location hook
    refine ⟨_, 0, buildStepFactory_none buildID p location hook, ?_, rfl⟩
    rw [aggregateIDs]
    intro a
    simp [StepFactory.originIDs, StepFactory.locations]
  · -- no member left
    intro _ _ _ _ location hook aID step
    refine ⟨[], aID, by rw [buildAggregateSteps]; simp, le_refl _, ?_, rfl⟩
    rw [aggregateIDsOfSteps]
    intro a
    simp [StepFactory.locationsOfSteps]
  · -- one more member
    intro innerPlan innerPlans _ _ _ _ _ ih1 ih2 hwf location hook aID step
    have hwf1 : innerPlan.putGetHeadsHavePut = true ∧
        Plan.allPutGetHeadsHavePut innerPlans = true := by
      simpa only [Plan.allPutGetHeadsHavePut, Bool.and_eq_true] using hwf
    obtain ⟨sf, n, hb, hids, hid⟩ := ih1 hwf1.1 (location.Incr aID)
      (if innerPlan.Aggregate.isNone then hook else "")
    obtain ⟨steps, m, hbs, hle, hidss, hids2⟩ :=
      ih2 hwf1.2 location hook (aID + n) (step ++ [sf])
    refine ⟨sf :: steps, m, ?_, by omega, ?_, ?_⟩
    rotate_right
    · simp only [StepFactory.originIDs, StepFactory.locationsOfSteps,
        StepFactory.identifiersOfSteps, List.map_append] at hid hids2 ⊢
      rw [hid, hids2]
    · rw [buildAggregateSteps_cons, hb]
      simp only [Option.bind]
      rw [hbs]
      simp
    · rw [aggregateIDsOfSteps_cons buildID innerPlan innerPlans location hook aID n
        (by rw [hb]; rfl)]
      intro a
      have h1 := hids a
      have h2 := hidss a
      simp only [StepFactory.originIDs, StepFactory.locationsOfSteps, List.map_append,
        List.count_append, OriginLocation.Incr_ID] at h1 h2 ⊢
      omega

/-- C1: for every plan in which each `PutGet` head carries a `Put`, compiling
it with `buildStepFactory` from any start location succeeds and gives pairwise
distinct origin IDs to all event-emitting steps (each `Get`, each configured
`Task`, each `Put` and each `Put`'s dependent `Get`); the IDs of the plan's
aggregates are distinct from all of them (and from each other); and the
`StepLocation`s of the steps' worker identifiers are the steps' origin IDs, so
they are pairwise distinct too. -/
theorem buildStepFactory_origin_ids_distinct (buildID : Int) (plan : Plan)
    (location : OriginLocation) (hook : String) (h : plan.putGetHeadsHavePut = true) :
    ∃ (sf : StepFactory) (n : Nat), buildStepFactory buildID plan location hook = some (sf, n) ∧
      sf.originIDs.Nodup ∧
      (aggregateIDs buildID plan location hook).Nodup ∧
      (∀ a ∈ aggregateIDs buildID plan location hook, a ∉ sf.originIDs) ∧
      sf.identifiers.map (·.StepLocation) = sf.originIDs ∧
      (sf.identifiers.map (·.StepLocation)).Nodup := by
  obtain ⟨sf, n, hb, hids, hid⟩ := buildStepFactory_ids buildID plan h location hook
  have hnd := idsWithin_nodup hids
  rw [List.nodup_append] at hnd
  obtain ⟨h1, h2, h3⟩ := hnd
  refine ⟨sf, n, hb, h1, h2, ?_, hid, by rw [hid]; exact h1⟩
  intro a ha hsf
  exact h3 hsf ha

/-- A plan for C1: an aggregate of a get, a put with its dependent get, a
nested aggregate and a hooked get with an empty aggregate as failure hook,
compiled from the root location of `Resume`. -/
theorem buildStepFactory_origin_ids_distinct_witness :
    ∃ (sf : StepFactory) (n : Nat),
      buildStepFactory 7
        (Plan.ofAggregate
          [Plan.ofGet ⟨"git", "a", "a", "p", [], [], [], []⟩,
           Plan.ofPutGet (Plan.ofPut ⟨"git", "o", "o", "p", [], [], [], []⟩) Plan.empty,
           Plan.ofAggregate [Plan.ofGet ⟨"git", "b", "b", "p", [], [], [], []⟩],
           Plan.ofHookedCompose (Plan.ofGet ⟨"git", "c", "c", "p", [], [], [], []⟩)
             (Plan.ofAggregate []) Plan.empty Plan.empty
             (Plan.ofGet ⟨"git", "d", "d", "p", [], [], [], []⟩)])
        ⟨0, 1, 0⟩ "" = some (sf, n) ∧
      sf.originIDs.Nodup ∧
      (aggregateIDs 7
        (Plan.ofAggregate
          [Plan.ofGet ⟨"git", "a", "a", "p", [], [], [], []⟩,
           Plan.ofPutGet (Plan.ofPut ⟨"git", "o", "o", "p", [], [], [], []⟩) Plan.empty,
           Plan.ofAggregate [Plan.ofGet ⟨"git", "b", "b", "p", [], [], [], []⟩],
           Plan.ofHookedCompose (Plan.ofGet ⟨"git", "c", "c", "p", [], [], [], []⟩)
             (Plan.ofAggregate []) Plan.empty Plan.empty
             (Plan.ofGet ⟨"git", "d", "d", "p", [], [], [], []⟩)])
        ⟨0, 1, 0⟩ "").Nodup ∧
      (∀ a ∈ aggregateIDs 7
        (Plan.ofAggregate
          [Plan.ofGet ⟨"git", "a", "a", "p", [], [], [], []⟩,
           Plan.ofPutGet (Plan.ofPut ⟨"git", "o", "o", "p", [], [], [], []⟩) Plan.empty,
           Plan.ofAggregate [Plan.ofGet ⟨"git", "b", "b", "p", [], [], [], []⟩],
           Plan.ofHookedCompose (Plan.ofGet ⟨"git", "c", "c", "p", [], [], [], []⟩)
             (Plan.ofAggregate []) Plan.empty Plan.empty
             (Plan.ofGet ⟨"git", "d", "d", "p", [], [], [], []⟩)])
        ⟨0, 1, 0⟩ "", a ∉ sf.originIDs) ∧
      sf.identifiers.map (·.StepLocation) = sf.originIDs ∧
      (sf.identifiers.map (·.StepLocation)).Nodup :=
  buildStepFactory_origin_ids_distinct 7 _ ⟨0, 1, 0⟩ "" (by decide)

/-! ## Parallel groups and parent IDs -/

/-- A plan that is a step of its own compiles to a step whose head is at the
location the plan is compiled from. -/
theorem buildStepFactory_headLocation (buildID : Int) (plan : Plan) :
    plan.isDirectStep = true → ∀ (location : OriginLocation) (hook : String)
      (sf : StepFactory) (n : Nat),
    buildStepFactory buildID plan location hook = some (sf, n) →
    sf.headLocation = some location := by
  refine Plan.isDirectStep.induct
    (fun plan => plan.isDirectStep = true → ∀ (location : OriginLocation) (hook : String)
      (sf : StepFactory) (n : Nat),
      buildStepFactory buildID plan location hook = some (sf, n) →
      sf.headLocation = some location)
    ?_ ?_ ?_ ?_ ?_ ?_ ?_ ?_ ?_ ?_ plan
  · intro _ _ _ _ _ _ _ _ _ _ hd
    simp [Plan.isDirectStep] at hd
  · intro step ti h c co ta g p pg ih hd location hook sf n hb
    rw [Plan.isDirectStep] at hd
    rw [buildStepFactory_Try] at hb
    obtain ⟨r, hr, hsf⟩ := Option.bind_eq_some.1 hb
    obtain ⟨hsf1, -⟩ := Prod.mk.inj (Option.some.inj hsf)
    subst hsf1
    exact ih hd location "" r.1 r.2 hr
  · intro step duration h c co ta g p pg ih hd location hook sf n hb
    rw [Plan.isDirectStep] at hd
    rw [buildStepFactory_Timeout] at hb
    obtain ⟨r, hr, hsf⟩ := Option.bind_eq_some.1 hb
    obtain ⟨hsf1, -⟩ := Prod.mk.inj (Option.some.inj hsf)
    subst hsf1
    exact ih hd location "" r.1 r.2 hr
  · intro _ _ _ _ _ _ _ hd
    simp [Plan.isDirectStep] at hd
  · intro _ _ _ _ _ _ hd
    simp [Plan.isDirectStep] at hd
  · intro conditions plan ta g p pg ih hd location hook sf n hb
    rw [Plan.isDirectStep] at hd
    rw [buildStepFactory_Conditional] at hb
    obtain ⟨r, hr, hsf⟩ := Option.bind_eq_some.1 hb
    obtain ⟨hsf1, -⟩ := Prod.mk.inj (Option.some.inj hsf)
    subst hsf1
    exact ih hd location "" r.1 r.2 hr
  · intro task g p pg hd location hook sf n hb
    rw [Plan.isDirectStep] at hd
    obtain ⟨cs, hcs⟩ := buildStepFactory_Task buildID task g p pg location hook hd
    rw [hcs] at hb
    obtain ⟨hsf1, -⟩ := Prod.mk.inj (Option.some.inj hb)
    subst hsf1
    rfl
  · intro get p pg hd location hook sf n hb
    rw [buildStepFactory_Get] at hb
    obtain ⟨hsf1, -⟩ := Prod.mk.inj (Option.some.inj hb)
    subst hsf1
    rfl
  · intro p head rest hd location hook sf n hb
    rw [Plan.isDirectStep] at hd
    obtain ⟨putPlan, hput⟩ := Option.isSome_iff_exists.1 hd
    rw [buildStepFactory_PutGet buildID head rest putPlan p location hook hput] at hb
    obtain ⟨r, hr, hsf⟩ := Option.bind_eq_some.1 hb
    obtain ⟨hsf1, -⟩ := Prod.mk.inj (Option.some.inj hsf)
    subst hsf1
    rfl
  · intro _ hd
    simp [Plan.isDirectStep] at hd

/-- The loop over the members of an aggregate appends one compiled step per
member, each compiled from the loop's location advanced by some increment. -/
theorem buildAggregateSteps_members (buildID : Int) (innerPlans : List Plan)
    (location : OriginLocation) (hook : String) :
    ∀ (aID : Nat) (step result : List StepFactory) (n : Nat),
    buildAggregateSteps buildID innerPlans location hook aID step = some (result, n) →
    ∃ steps, result = step ++ steps ∧
      List.Forall₂ (fun innerPlan sf => ∃ (a m : Nat),
        buildStepFactory buildID innerPlan (location.Incr a)
          (if innerPlan.Aggregate.isNone then hook else "") = some (sf, m)) innerPlans steps := by
  induction innerPlans with
  | nil =>
    intro aID step result n hb
    rw [buildAggregateSteps] at hb
    obtain ⟨h1, -⟩ := Prod.mk.inj (Option.some.inj hb)
    exact ⟨[], by rw [← h1]; simp, List.Forall₂.nil⟩
  | cons innerPlan innerPlans ih =>
    intro aID step result n hb
    rw [buildAggregateSteps_cons] at hb
    obtain ⟨r, hr, hrest⟩ := Option.bind_eq_some.1 hb
    obtain ⟨steps, hres, hall⟩ := ih (aID + r.2) (step ++ [r.1]) result n hrest
    exact ⟨r.1 :: steps, by rw [hres]; simp, List.Forall₂.cons ⟨aID, r.2, hr⟩ hall⟩

/-- C7: for every `Aggregate` plan compiled at location `L`, the result is an
`exec.Aggregate` with one compiled step per member, in order; every member
plan is compiled from a location whose `ParallelGroup` equals `L.ID`; and
every member that is a step of its own (a `Get`, a configured `Task`, or the
`Put` of a `PutGet`, possibly wrapped in `Try`, `Timeout` or `Conditional`)
carries `parallel_group = L.ID`, so all such members share one parallel group. -/
theorem aggregate_members_parallel_group (buildID : Int) (innerPlans : List Plan)
    (t : Option TryPlan) (ti : Option TimeoutPlan) (h : Option HookedComposePlan)
    (c : Option ComposePlan) (co : Option ConditionalPlan) (ta : Option TaskPlan)
    (g : Option GetPlan) (p : Option PutPlan) (pg : Option PutGetPlan)
    (location : OriginLocation) (hook : String) (sf : StepFactory) (n : Nat)
    (hb : buildStepFactory buildID (.mk (some innerPlans) t ti h c co ta g p pg) location hook =
      some (sf, n)) :
    ∃ steps, sf = StepFactory.Aggregate steps ∧
      List.Forall₂ (fun innerPlan step =>
        (∃ (memberLocation : OriginLocation) (memberHook : String) (m : Nat),
          memberLocation.ParallelGroup = location.ID ∧
          buildStepFactory buildID innerPlan memberLocation memberHook = some (step, m)) ∧
        (innerPlan.isDirectStep = true →
          ∃ l, step.headLocation = some l ∧ l.ParallelGroup = location.ID))
        innerPlans steps := by
  rw [buildStepFactory_Aggregate] at hb
  obtain ⟨r, hr, hsf⟩ := Option.bind_eq_some.1 hb
  obtain ⟨steps, hres, hall⟩ :=
    buildAggregateSteps_members buildID innerPlans (aggregateLocation location) hook 1 [] r.1 r.2 hr
  obtain ⟨hsf1, -⟩ := Prod.mk.inj (Option.some.inj hsf)
  refine ⟨steps, ?_, ?_⟩
  · rw [← hsf1, hres]; rfl
  · refine hall.imp ?_
    intro innerPlan step hstep
    obtain ⟨a, m, hm⟩ := hstep
    refine ⟨⟨(aggregateLocation location).Incr a, _, m, rfl, hm⟩, ?_⟩
    intro hd
    exact ⟨_, buildStepFactory_headLocation buildID innerPlan hd _ _ step m hm, rfl⟩

/-- An aggregate for C7, compiled inside parallel group 9: a get, a tried
put, and a nested aggregate. -/
theorem aggregate_members_parallel_group_witness :
    ∃ steps,
      (StepFactory.Aggregate
        [StepFactory.Get "a" ⟨7, "get", "a", 5⟩
          ⟨⟨"git", "a", "a", "p", [], [], [], []⟩, ⟨9, 5, 4⟩, "success"⟩ ⟨"a", "git", []⟩ [] [] [],
         StepFactory.Try (StepFactory.HookedCompose
          (StepFactory.Put ⟨7, "put", "o", 6⟩
            ⟨⟨"git", "o", "o", "p", [], [], [], []⟩, ⟨9, 6, 4⟩, ""⟩ ⟨"o", "git", []⟩ [] [])
          StepFactory.Identity StepFactory.Identity
          (StepFactory.DependentGet "o" ⟨7, "get", "o", 7⟩
            ⟨⟨"git", "o", "o", "p", [], [], [], []⟩, ⟨6, 7, 0⟩, ""⟩ ⟨"o", "git", []⟩ [] [])
          StepFactory.Identity),
         StepFactory.Aggregate []]) = StepFactory.Aggregate steps ∧
      List.Forall₂ (fun innerPlan step =>
        (∃ (memberLocation : OriginLocation) (memberHook : String) (m : Nat),
          memberLocation.ParallelGroup = (⟨3, 4, 9⟩ : OriginLocation).ID ∧
          buildStepFactory 7 innerPlan memberLocation memberHook = some (step, m)) ∧
        (innerPlan.isDirectStep = true →
          ∃ l, step.headLocation = some l ∧
            l.ParallelGroup = (⟨3, 4, 9⟩ : OriginLocation).ID))
        [Plan.ofGet ⟨"git", "a", "a", "p", [], [], [], []⟩,
         Plan.ofTry (Plan.ofPutGet (Plan.ofPut ⟨"git", "o", "o", "p", [], [], [], []⟩)
           Plan.empty),
         Plan.ofAggregate []] steps :=
  aggregate_members_parallel_group 7 _ none none none none none none none none none
    ⟨3, 4, 9⟩ "success" _ 5 (by rfl)


/-- C8: for every `HookedCompose` plan compiled at location `L`, whatever
`L`'s parallel group, the step is compiled from `L`, and the `onFailure`,
`onSuccess` and `onCompletion` sub-plans are each compiled from a location with
`ParentID = L.ID` and `ParallelGroup = 0` (with hooks `failure`, `success` and
`ensure`); a hook that is a step of its own (a `Get`, a configured `Task`, ...)
therefore carries `parent_id = L.ID` and `parallel_group = 0`. -/
theorem hooks_parent_and_parallel_group (buildID : Int)
    (step onFailure onSuccess onCompletion next : Plan)
    (c : Option ComposePlan) (co : Option ConditionalPlan) (ta : Option TaskPlan)
    (g : Option GetPlan) (p : Option PutPlan) (pg : Option PutGetPlan)
    (location : OriginLocation) (hook : String) (sf : StepFactory) (n : Nat)
    (hb : buildStepFactory buildID
      (.mk none none none (some ⟨step, onFailure, onSuccess, onCompletion, next⟩)
        c co ta g p pg) location hook = some (sf, n)) :
    ∃ (s nx f su e : StepFactory) (ns nf nsu ne : Nat)
      (failureLocation successLocation ensureLocation : OriginLocation),
      sf = StepFactory.HookedCompose s nx f su e ∧
      buildStepFactory buildID step location hook = some (s, ns) ∧
      buildStepFactory buildID onFailure failureLocation "failure" = some (f, nf) ∧
      buildStepFactory buildID onSuccess successLocation "success" = some (su, nsu) ∧
      buildStepFactory buildID onCompletion ensureLocation "ensure" = some (e, ne) ∧
      failureLocation.ParentID = location.ID ∧ failureLocation.ParallelGroup = 0 ∧
      successLocation.ParentID = location.ID ∧ successLocation.ParallelGroup = 0 ∧
      ensureLocation.ParentID = location.ID ∧ ensureLocation.ParallelGroup = 0 ∧
      (onFailure.isDirectStep = true →
        ∃ l, f.headLocation = some l ∧ l.ParentID = location.ID ∧ l.ParallelGroup = 0) ∧
      (onSuccess.isDirectStep = true →
        ∃ l, su.headLocation = some l ∧ l.ParentID = location.ID ∧ l.ParallelGroup = 0) ∧
      (onCompletion.isDirectStep = true →
        ∃ l, e.headLocation = some l ∧ l.ParentID = location.ID ∧ l.ParallelGroup = 0) := by
  rw [buildStepFactory_HookedCompose] at hb
  obtain ⟨s, hs, hb⟩ := Option.bind_eq_some.1 hb
  obtain ⟨f, hf, hb⟩ := Option.bind_eq_some.1 hb
  obtain ⟨su, hsu, hb⟩ := Option.bind_eq_some.1 hb
  obtain ⟨e, he, hb⟩ := Option.bind_eq_some.1 hb
  obtain ⟨nx, _, hb⟩ := Option.bind_eq_some.1 hb
  obtain ⟨hsf, -⟩ := Prod.mk.inj (Option.some.inj hb)
  refine ⟨s.1, nx.1, f.1, su.1, e.1, s.2, f.2, su.2, e.2, _, _, _, hsf.symm, hs, hf, hsu, he,
    rfl, rfl, rfl, rfl, rfl, rfl, ?_, ?_, ?_⟩
  · intro hd
    exact ⟨_, buildStepFactory_headLocation buildID onFailure hd _ _ f.1 f.2 hf, rfl, rfl⟩
  · intro hd
    exact ⟨_, buildStepFactory_headLocation buildID onSuccess hd _ _ su.1 su.2 hsu, rfl, rfl⟩
  · intro hd
    exact ⟨_, buildStepFactory_headLocation buildID onCompletion hd _ _ e.1 e.2 he, rfl, rfl⟩

/-- A hooked composition for C8, compiled inside parallel group 4: a get with a
get as each of its three hooks. -/
theorem hooks_parent_and_parallel_group_witness :
    ∃ (s nx f su e : StepFactory) (ns nf nsu ne : Nat)
      (failureLocation successLocation ensureLocation : OriginLocation),
      StepFactory.HookedCompose
        (StepFactory.Get "a" ⟨7, "get", "a", 5⟩
          ⟨⟨"git", "a", "a", "p", [], [], [], []⟩, ⟨3, 5, 4⟩, ""⟩ ⟨"a", "git", []⟩ [] [] [])
        StepFactory.Identity
        (StepFactory.Get "b" ⟨7, "get", "b", 6⟩
          ⟨⟨"git", "b", "b", "p", [], [], [], []⟩, ⟨5, 6, 0⟩, "failure"⟩ ⟨"b", "git", []⟩ [] [] [])
        (StepFactory.Get "c" ⟨7, "get", "c", 7⟩
          ⟨⟨"git", "c", "c", "p", [], [], [], []⟩, ⟨5, 7, 0⟩, "success"⟩ ⟨"c", "git", []⟩ [] [] [])
        (StepFactory.Get "d" ⟨7, "get", "d", 8⟩
          ⟨⟨"git", "d", "d", "p", [], [], [], []⟩, ⟨5, 8, 0⟩, "ensure"⟩ ⟨"d", "git", []⟩ [] [] [])
        = StepFactory.HookedCompose s nx f su e ∧
      buildStepFactory 7 (Plan.ofGet ⟨"git", "a", "a", "p", [], [], [], []⟩)
        (⟨3, 5, 4⟩ : OriginLocation) "" = some (s, ns) ∧
      buildStepFactory 7 (Plan.ofGet ⟨"git", "b", "b", "p", [], [], [], []⟩)
        failureLocation "failure" = some (f, nf) ∧
      buildStepFactory 7 (Plan.ofGet ⟨"git", "c", "c", "p", [], [], [], []⟩)
        successLocation "success" = some (su, nsu) ∧
      buildStepFactory 7 (Plan.ofGet ⟨"git", "d", "d", "p", [], [], [], []⟩)
        ensureLocation "ensure" = some (e, ne) ∧
      failureLocation.ParentID = (⟨3, 5, 4⟩ : OriginLocation).ID ∧
      failureLocation.ParallelGroup = 0 ∧
      successLocation.ParentID = (⟨3, 5, 4⟩ : OriginLocation).ID ∧
      successLocation.ParallelGroup = 0 ∧
      ensureLocation.ParentID = (⟨3, 5, 4⟩ : OriginLocation).ID ∧
      ensureLocation.ParallelGroup = 0 ∧
      ((Plan.ofGet ⟨"git", "b", "b", "p", [], [], [], []⟩).isDirectStep = true →
        ∃ l, f.headLocation = some l ∧ l.ParentID = (⟨3, 5, 4⟩ : OriginLocation).ID ∧
          l.ParallelGroup = 0) ∧
      ((Plan.ofGet ⟨"git", "c", "c", "p", [], [], [], []⟩).isDirectStep = true →
        ∃ l, su.headLocation = some l ∧ l.ParentID = (⟨3, 5, 4⟩ : OriginLocation).ID ∧
          l.ParallelGroup = 0) ∧
      ((Plan.ofGet ⟨"git", "d", "d", "p", [], [], [], []⟩).isDirectStep = true →
        ∃ l, e.headLocation = some l ∧ l.ParentID = (⟨3, 5, 4⟩ : OriginLocation).ID ∧
          l.ParallelGroup = 0) :=
  hooks_parent_and_parallel_group 7 _ _ _ _ Plan.empty none none none none none none
    ⟨3, 5, 4⟩ "" _ 4 (by rfl)

/-! ## The dependent Get of a Put -/

/-- C9, as the code has it: the dependent Get is compiled into the `success`
slot of the hooked composition, so when the Put fails the parts that run are
the Put, the identity step (as failure hook and as completion hook) and `rest`;
the dependent Get is not among them. -/
theorem putGet_failed_put_skips_dependent_get :
    ∃ (sf : StepFactory) (n : Nat),
      buildStepFactory 7
        (Plan.ofPutGet (Plan.ofPut ⟨"git", "o", "o", "p", [], [], [], []⟩)
          (Plan.ofGet ⟨"git", "a", "a", "p", [], [], [], []⟩)) ⟨0, 1, 0⟩ "" = some (sf, n) ∧
      (sf.hookedRunOrder false).map (fun parts => parts.map StepFactory.isPut) =
        some [true, false, false, false] ∧
      (sf.hookedRunOrder false).map (fun parts => parts.map StepFactory.isDependentGet) =
        some [false, false, false, false] :=
  ⟨_, 3, rfl, rfl, rfl⟩

/-- C9 (amended): for every `PutGet` plan whose head carries a `Put`, the
compiled step is a hooked composition of the Put whose `success` hook is the
Put's dependent Get, whose `failure` and completion hooks are the identity step
and whose `next` is the compiled `rest`; so in every execution in which the Put
runs and succeeds, the dependent Get runs next (after the Put and before
`rest`) and then `rest` runs, and when the Put fails the dependent Get does not
run and `rest` follows the identity hooks. -/
theorem putGet_run_order (buildID : Int) (head rest : Plan) (putPlan : PutPlan)
    (p : Option PutPlan) (location : OriginLocation) (hook : String)
    (sf : StepFactory) (n : Nat) (hput : head.Put = some putPlan)
    (hb : buildStepFactory buildID
      (.mk none none none none none none none none p (some ⟨head, rest⟩)) location hook =
        some (sf, n)) :
    ∃ (put dependentGet r : StepFactory) (m : Nat),
      buildStepFactory buildID rest (location.Incr 2) "" = some (r, m) ∧
      put.isPut = true ∧ dependentGet.isDependentGet = true ∧
      sf.hookedRunOrder true = some [put, dependentGet, StepFactory.Identity, r] ∧
      sf.hookedRunOrder false = some [put, StepFactory.Identity, StepFactory.Identity, r] := by
  rw [buildStepFactory_PutGet buildID head rest putPlan p location hook hput] at hb
  obtain ⟨r, hr, hb⟩ := Option.bind_eq_some.1 hb
  obtain ⟨hsf, -⟩ := Prod.mk.inj (Option.some.inj hb)
  subst hsf
  refine ⟨_, _, r.1, r.2, hr, ?_, ?_, rfl, rfl⟩ <;> rfl

/-- A `PutGet` for the amended C9: a put followed by a get as `rest`. -/
theorem putGet_run_order_witness :
    ∃ (put dependentGet r : StepFactory) (m : Nat),
      buildStepFactory 7 (Plan.ofGet ⟨"git", "a", "a", "p", [], [], [], []⟩)
        ((⟨0, 1, 0⟩ : OriginLocation).Incr 2) "" = some (r, m) ∧
      put.isPut = true ∧ dependentGet.isDependentGet = true ∧
      (StepFactory.HookedCompose
        (StepFactory.Put ⟨7, "put", "o", 1⟩
          ⟨⟨"git", "o", "o", "p", [], [], [], []⟩, ⟨0, 1, 0⟩, ""⟩ ⟨"o", "git", []⟩ [] [])
        (StepFactory.Get "a" ⟨7, "get", "a", 3⟩
          ⟨⟨"git", "a", "a", "p", [], [], [], []⟩, ⟨0, 3, 0⟩, ""⟩ ⟨"a", "git", []⟩ [] [] [])
        StepFactory.Identity
        (StepFactory.DependentGet "o" ⟨7, "get", "o", 2⟩
          ⟨⟨"git", "o", "o", "p", [], [], [], []⟩, ⟨1, 2, 0⟩, ""⟩ ⟨"o", "git", []⟩ [] [])
        StepFactory.Identity).hookedRunOrder true =
          some [put, dependentGet, StepFactory.Identity, r] ∧
      (StepFactory.HookedCompose
        (StepFactory.Put ⟨7, "put", "o", 1⟩
          ⟨⟨"git", "o", "o", "p", [], [], [], []⟩, ⟨0, 1, 0⟩, ""⟩ ⟨"o", "git", []⟩ [] [])
        (StepFactory.Get "a" ⟨7, "get", "a", 3⟩
          ⟨⟨"git", "a", "a", "p", [], [], [], []⟩, ⟨0, 3, 0⟩, ""⟩ ⟨"a", "git", []⟩ [] [] [])
        StepFactory.Identity
        (StepFactory.DependentGet "o" ⟨7, "get", "o", 2⟩
          ⟨⟨"git", "o", "o", "p", [], [], [], []⟩, ⟨1, 2, 0⟩, ""⟩ ⟨"o", "git", []⟩ [] [])
        StepFactory.Identity).hookedRunOrder false =
          some [put, StepFactory.Identity, StepFactory.Identity, r] :=
  putGet_run_order 7 (Plan.ofPut ⟨"git", "o", "o", "p", [], [], [], []⟩)
    (Plan.ofGet ⟨"git", "a", "a", "p", [], [], [], []⟩) ⟨"git", "o", "o", "p", [], [], [], []⟩
    none ⟨0, 1, 0⟩ "" _ 3 rfl (by rfl)

/-! ## Engine metadata is not persisted by `CreateBuild` -/

/-- C11, as the code has it: after `CreateBuild` the store has received no
`SaveBuildEngineMetadata` call for the build (it has received no call at all). -/
theorem CreateBuild_saves_no_metadata :
    (execEngine.CreateBuild [] ⟨7, ""⟩ (Plan.ofGet ⟨"git", "a", "a", "p", [], [], [], []⟩)).2.any
      (EngineDBCall.savesMetadataOf 7) = false ∧
    (execEngine.CreateBuild [] ⟨7, ""⟩ (Plan.ofGet ⟨"git", "a", "a", "p", [], [], [], []⟩)).2 = [] :=
  ⟨rfl, rfl⟩

/-- C11 (amended): `CreateBuild` makes no call on the engine's store, so the
calls the store has received are the same before and after; it returns,
without error, a build for the model's ID that holds the plan, and the
`Metadata()` of that build is the serialised plan (it panics when the plan
cannot be serialised). -/
theorem CreateBuild_leaves_store (json : JSON) (db : List EngineDBCall) (model : Build)
    (plan : Plan) :
    ∃ build, execEngine.CreateBuild db model plan = (.ok build, db) ∧
      build.buildID = model.ID ∧ build.metadata.Plan = plan ∧
      build.Metadata json =
        (match json.Marshal ⟨plan⟩ with
          | .ok payload => some payload
          | .error _ => none) := by
  refine ⟨⟨model.ID, model.ID, [], ⟨plan⟩⟩, rfl, rfl, rfl, ?_⟩
  unfold execBuild.Metadata
  cases json.Marshal ⟨plan⟩ <;> rfl

/-! ## Plans with no compiled kind -/

/-- C12, as the code has it: the plan with no kind set compiles to the identity
step, and `Resume` supervises it like any other step: it logs nothing by
itself and passes nil as the error to `Finish`, with the success value the
step reports (true in the first run) or with the diagnostic of a step without
result (in the second). -/
theorem unrecognised_plan_is_compiled_silently :
    buildStepFactory 7 Plan.empty ⟨0, 1, 0⟩ "" = some (StepFactory.Identity, 0) ∧
    (⟨7, 7, [], ⟨Plan.empty⟩⟩ : execBuild).Resume "step timed out" (fun _ => (true, true))
        [Event.exited none] = .returned ⟨[], 1, [], ⟨none, true, false⟩, [], true⟩ ∧
    (⟨7, 7, [], ⟨Plan.empty⟩⟩ : execBuild).Resume "step timed out" (fun _ => (false, false))
        [Event.exited none] =
      .returned ⟨[], 1, ["step-had-no-result"], ⟨none, false, false⟩, [], true⟩ :=
  ⟨rfl, by decide, by decide⟩

/-- C12 (amended): when plan compilation reaches a plan with none of the
compiled kinds set (the last branch of `buildStepFactory`, also taken by a bare
`Put`), it returns the identity step with no increment and reports nothing;
`Resume` of a build with such a plan does not fail on it and goes on to
supervise the identity step. -/
theorem unrecognised_plan_compiles_to_identity (buildID delegate : Int) (p : Option PutPlan)
    (location : OriginLocation) (hook : String) (signals : List Signal) (msg : Error)
    (Result : Success → Bool × Success) (events : List Event) :
    buildStepFactory buildID (.mk none none none none none none none none p none)
        location hook = some (StepFactory.Identity, NoIncrement) ∧
    (⟨buildID, delegate, signals,
        ⟨.mk none none none none none none none none p none⟩⟩ : execBuild).Resume msg Result
        events =
      (match Resume.loop msg Result events signals false [] with
        | none => ResumeOutcome.waiting
        | some run => ResumeOutcome.returned run) := by
  refine ⟨buildStepFactory_none buildID p location hook, ?_⟩
  unfold execBuild.Resume
  simp only [buildStepFactory_none]

/-! ## Workers -/

/-- C18, as the tests have it: a worker with the tags `some` and `tags` does
not satisfy a task spec of its platform that requests no tags, although the
platform is equal and no requested tag is missing. -/
theorem tagged_worker_rejects_untagged_task :
    ¬ ((⟨42, [⟨"some-resource", "some-resource-image"⟩], "some-platform",
          ["some", "tags"]⟩ : gardenWorker).Satisfies
          (.Task ⟨"some-platform", []⟩) = true ↔
        ("some-platform" = "some-platform" ∧
          (([] : Tags) ≠ [] →
            (["some", "tags"] : Tags) = [] ∨
              ∀ tag ∈ ([] : Tags), tag ∈ (["some", "tags"] : Tags)))) := by
  decide

/-- C18 (amended): for every worker and every task container spec, `Satisfies`
returns true exactly when the spec's platform equals the worker's platform and
either the worker has no tags (a worker with an empty tag set matches any
request) or the spec requests at least one tag and every requested tag is one
of the worker's tags. -/
theorem Satisfies_task_iff (worker : gardenWorker) (spec : TaskContainerSpec) :
    worker.Satisfies (.Task spec) = true ↔
      spec.Platform = worker.platform ∧
        (worker.tags = [] ∨ (spec.Tags ≠ [] ∧ ∀ tag ∈ spec.Tags, tag ∈ worker.tags)) := by
  unfold gardenWorker.Satisfies gardenWorker.tagsMatch
  by_cases hw : worker.tags = []
  · simp [hw]
  · by_cases hs : spec.Tags = []
    · simp [hw, hs]
    · simp [hw, hs]

/-- C19: a worker that has at least one tag does not satisfy a task container
spec that specifies no tags, even when the platform matches; a worker with no
tags satisfies an untagged task spec of its platform. -/
theorem untagged_task_needs_untagged_worker (worker : gardenWorker) (platform : String) :
    (worker.tags ≠ [] → worker.Satisfies (.Task ⟨platform, []⟩) = false) ∧
    (worker.tags = [] → platform = worker.platform →
      worker.Satisfies (.Task ⟨platform, []⟩) = true) := by
  unfold gardenWorker.Satisfies gardenWorker.tagsMatch
  constructor
  · intro hw
    simp [hw]
  · intro hw hp
    simp [hw, hp]

/-- Two workers for C19: the one of the test suite, with tags, and one
without tags. -/
theorem untagged_task_needs_untagged_worker_witness :
    (⟨42, [], "some-platform", ["some", "tags"]⟩ : gardenWorker).Satisfies
        (.Task ⟨"some-platform", []⟩) = false ∧
    (⟨42, [], "some-platform", []⟩ : gardenWorker).Satisfies
        (.Task ⟨"some-platform", []⟩) = true :=
  ⟨(untagged_task_needs_untagged_worker ⟨42, [], "some-platform", ["some", "tags"]⟩
      "some-platform").1 (by decide),
    (untagged_task_needs_untagged_worker ⟨42, [], "some-platform", []⟩
      "some-platform").2 rfl rfl⟩

/-! ## Worker registration -/

theorem String.eq_empty_of_length_eq_zero (s : String) (h : s.length = 0) : s = "" := by
  cases s with
  | mk data =>
    have hd : data = [] := List.length_eq_zero.1 h
    subst hd
    rfl

/-- C20: for every registration request with a decodable body and a non-empty
address, `RegisterWorker` calls `SaveWorker` exactly once, with address, active
containers, resource types, platform and tags copied unchanged from the
request; when the `ttl` query parameter is absent or empty the ttl passed is 0,
and with a valid `ttl` duration string it is the parsed duration; it responds
200 if the save succeeds. -/
theorem RegisterWorker_saves_registration (ParseDuration : String → Except Error Duration)
    (SaveWorker : WorkerInfo → Duration → Option Error) (registration : Worker)
    (haddr : registration.Addr ≠ "") :
    (∀ ttlQuery, ttlQuery = none ∨ ttlQuery = some "" →
      (Server.RegisterWorker ParseDuration SaveWorker (.ok registration) ttlQuery).saved =
        [(⟨registration.Addr, registration.ActiveContainers, registration.ResourceTypes,
          registration.Platform, registration.Tags⟩, 0)] ∧
      (SaveWorker ⟨registration.Addr, registration.ActiveContainers,
          registration.ResourceTypes, registration.Platform, registration.Tags⟩ 0 = none →
        (Server.RegisterWorker ParseDuration SaveWorker (.ok registration) ttlQuery).status =
          StatusOK)) ∧
    (∀ (ttlStr : String) (ttl : Duration), ttlStr ≠ "" → ParseDuration ttlStr = .ok ttl →
      (Server.RegisterWorker ParseDuration SaveWorker (.ok registration) (some ttlStr)).saved =
        [(⟨registration.Addr, registration.ActiveContainers, registration.ResourceTypes,
          registration.Platform, registration.Tags⟩, ttl)] ∧
      (SaveWorker ⟨registration.Addr, registration.ActiveContainers,
          registration.ResourceTypes, registration.Platform, registration.Tags⟩ ttl = none →
        (Server.RegisterWorker ParseDuration SaveWorker (.ok registration)
          (some ttlStr)).status = StatusOK)) := by
  have hlen : ¬ registration.Addr.length = 0 := fun h =>
    haddr (String.eq_empty_of_length_eq_zero _ h)
  constructor
  · intro ttlQuery hq
    have hstr : ¬ (ttlQuery.getD "").length > 0 := by
      rcases hq with h | h <;> simp [h]
    unfold Server.RegisterWorker
    simp only [hlen, hstr, if_false]
    cases hsave : SaveWorker ⟨registration.Addr, registration.ActiveContainers,
      registration.ResourceTypes, registration.Platform, registration.Tags⟩ 0 <;> simp
  · intro ttlStr ttl hne hparse
    have hstr : 0 < ttlStr.length := by
      have : ¬ ttlStr.length = 0 := fun h => hne (String.eq_empty_of_length_eq_zero _ h)
      omega
    unfold Server.RegisterWorker
    simp only [hlen, if_false, Option.getD_some, gt_iff_lt, hstr, if_true, hparse]
    cases hsave : SaveWorker ⟨registration.Addr, registration.ActiveContainers,
      registration.ResourceTypes, registration.Platform, registration.Tags⟩ ttl <;> simp

/-- A registration for C20: no `ttl` parameter, and the store accepts the
worker. -/
theorem RegisterWorker_saves_registration_witness :
    (Server.RegisterWorker (fun _ => .error "bad duration") (fun _ _ => none)
        (.ok ⟨"10.0.0.1:7777", 3, [⟨"git", "git-image"⟩], "linux", ["some"]⟩) none).saved =
      [(⟨"10.0.0.1:7777", 3, [⟨"git", "git-image"⟩], "linux", ["some"]⟩, 0)] ∧
    ((fun (_ : WorkerInfo) (_ : Duration) => (none : Option Error))
        ⟨"10.0.0.1:7777", 3, [⟨"git", "git-image"⟩], "linux", ["some"]⟩ 0 = none →
      (Server.RegisterWorker (fun _ => .error "bad duration") (fun _ _ => none)
        (.ok ⟨"10.0.0.1:7777", 3, [⟨"git", "git-image"⟩], "linux", ["some"]⟩) none).status =
        StatusOK) :=
  (RegisterWorker_saves_registration (fun _ => .error "bad duration") (fun _ _ => none)
    ⟨"10.0.0.1:7777", 3, [⟨"git", "git-image"⟩], "linux", ["some"]⟩ (by decide)).1 none
    (Or.inl rfl)


/-! ## The store: scheduling, starting and aborting builds -/

open DB

theorem GetBuild_some {s : Store} {buildID : Nat} {b : DB.Build}
    (h : s.GetBuild buildID = some b) : b.ID = buildID ∧ b ∈ s.builds := by
  unfold Store.GetBuild at h
  exact ⟨by simpa using List.find?_some h, List.mem_of_find?_eq_some h⟩

theorem find_filter_of_find {α : Type} (p q : α → Bool) (l : List α) (b : α)
    (h : l.find? p = some b) (hq : q b = true) : (l.filter q).find? p = some b := by
  induction l with
  | nil => simp at h
  | cons x xs ih =>
    by_cases hp : p x = true
    · have hx : x = b := by simpa [List.find?, hp] using h
      subst hx
      simp [List.filter, hq, List.find?, hp]
    · have hp1 : p x = false := by simpa using hp
      have h1 : xs.find? p = some b := by simpa [List.find?, hp1] using h
      by_cases hqx : q x = true
      · simp [List.filter, hqx, List.find?, hp1, ih h1]
      · have hqx1 : q x = false := by simpa using hqx
        simp [List.filter, hqx1, ih h1]

theorem earlierPending_iff (s : Store) (b : DB.Build) (j : String) (hjob : b.JobName = some j) :
    s.earlierPending b = true ↔
      ∃ p ∈ s.builds, p.JobName = some j ∧ p.Status = .pending ∧ p.ID < b.ID := by
  unfold Store.earlierPending Build.sameJob
  simp only [List.any_eq_true, Bool.and_eq_true, decide_eq_true_eq, hjob]
  constructor
  · rintro ⟨p, hp, ⟨⟨_, h1⟩, h2⟩, h3⟩
    exact ⟨p, hp, h1, h2, h3⟩
  · rintro ⟨p, hp, h1, h2, h3⟩
    exact ⟨p, hp, ⟨⟨by rw [h1]; rfl, h1⟩, h2⟩, h3⟩

theorem otherRunning_iff (s : Store) (b : DB.Build) (j : String) (hjob : b.JobName = some j) :
    s.otherRunning b = true ↔
      ∃ r ∈ s.builds, r.JobName = some j ∧ r.ID ≠ b.ID ∧
        (r.Status = .started ∨ (r.Status = .pending ∧ r.Scheduled = true)) := by
  unfold Store.otherRunning Build.sameJob
  simp only [List.any_eq_true, Bool.and_eq_true, Bool.or_eq_true, decide_eq_true_eq, hjob]
  constructor
  · rintro ⟨r, hr, ⟨⟨_, h1⟩, h2⟩, h3⟩
    exact ⟨r, hr, h1, h2, h3⟩
  · rintro ⟨r, hr, h1, h2, h3⟩
    exact ⟨r, hr, ⟨⟨by rw [h1]; rfl, h1⟩, h2⟩, h3⟩

/-- The answer of a serial `ScheduleBuild` for a pending build of a job. -/
theorem ScheduleBuild_serial_answer (s : Store) (buildID : Nat) (b : DB.Build)
    (hget : s.GetBuild buildID = some b) (hpending : b.Status = .pending) :
    (s.ScheduleBuild buildID true).2 = !(s.earlierPending b || s.otherRunning b) := by
  unfold Store.ScheduleBuild
  rw [hget]
  simp only [hpending, ne_eq, not_true_eq_false, if_false, Bool.true_and]
  cases s.earlierPending b || s.otherRunning b <;> simp

/-- C13: for every job and every pending build `b` of it, `ScheduleBuild(b,
serial=true)` returns false whenever an earlier-created build of the same job
is still pending, or another build of that job is scheduled or started and not
yet finished; it returns true when every other build of the job is terminal
(`b` is then the oldest pending build); and the builds of other jobs never
affect the answer: it is the answer given by the store that holds the builds
of this job only. -/
theorem ScheduleBuild_serial_policy (s : Store) (buildID : Nat) (b : DB.Build) (j : String)
    (hget : s.GetBuild buildID = some b) (hjob : b.JobName = some j)
    (hpending : b.Status = .pending) :
    ((∃ p ∈ s.builds, p.JobName = some j ∧ p.Status = .pending ∧ p.ID < b.ID) →
      (s.ScheduleBuild buildID true).2 = false) ∧
    ((∃ r ∈ s.builds, r.JobName = some j ∧ r.ID ≠ b.ID ∧
        (r.Status = .started ∨ (r.Status = .pending ∧ r.Scheduled = true))) →
      (s.ScheduleBuild buildID true).2 = false) ∧
    ((∀ o ∈ s.builds, o.JobName = some j → o.ID ≠ b.ID → o.Status.isTerminal = true) →
      (s.ScheduleBuild buildID true).2 = true) ∧
    (s.ScheduleBuild buildID true).2 =
      (({ s with builds := s.jobBuilds j } : Store).ScheduleBuild buildID true).2 := by
  have hans := ScheduleBuild_serial_answer s buildID b hget hpending
  refine ⟨?_, ?_, ?_, ?_⟩
  · intro h
    rw [hans, (earlierPending_iff s b j hjob).2 h]
    rfl
  · intro h
    rw [hans, (otherRunning_iff s b j hjob).2 h]
    simp
  · intro h
    have h1 : s.earlierPending b = false := by
      apply Bool.eq_false_iff.2
      intro he
      obtain ⟨p, hp, hpj, hps, hlt⟩ := (earlierPending_iff s b j hjob).1 he
      have := h p hp hpj (by omega)
      rw [hps] at this
      simp [Status.isTerminal] at this
    have h2 : s.otherRunning b = false := by
      apply Bool.eq_false_iff.2
      intro he
      obtain ⟨r, hr, hrj, hne, hst⟩ := (otherRunning_iff s b j hjob).1 he
      have := h r hr hrj hne
      rcases hst with hst | ⟨hst, _⟩ <;> rw [hst] at this <;> simp [Status.isTerminal] at this
    rw [hans, h1, h2]
    rfl
  · have hget1 : ({ s with builds := s.jobBuilds j } : Store).GetBuild buildID = some b := by
      unfold Store.GetBuild Store.jobBuilds
      exact find_filter_of_find _ _ s.builds b hget (by simp [hjob])
    rw [hans, ScheduleBuild_serial_answer _ buildID b hget1 hpending]
    have he : ({ s with builds := s.jobBuilds j } : Store).earlierPending b =
        s.earlierPending b := by
      rw [Bool.eq_iff_iff, earlierPending_iff s b j hjob, earlierPending_iff _ b j hjob]
      simp only [Store.jobBuilds, List.mem_filter, decide_eq_true_eq]
      constructor
      · rintro ⟨p, ⟨hp, _⟩, h⟩
        exact ⟨p, hp, h⟩
      · rintro ⟨p, hp, h⟩
        exact ⟨p, ⟨hp, h.1⟩, h⟩
    have ho : ({ s with builds := s.jobBuilds j } : Store).otherRunning b =
        s.otherRunning b := by
      rw [Bool.eq_iff_iff, otherRunning_iff s b j hjob, otherRunning_iff _ b j hjob]
      simp only [Store.jobBuilds, List.mem_filter, decide_eq_true_eq]
      constructor
      · rintro ⟨p, ⟨hp, _⟩, h⟩
        exact ⟨p, hp, h⟩
      · rintro ⟨p, hp, h⟩
        exact ⟨p, ⟨hp, h.1⟩, h⟩
    rw [he, ho]

/-- The queue of the spec for C13: job `j` with builds 1 (finished), 2 and 3
(pending) and a build of another job; build 3 is asked for serially while
build 2 is still pending. -/
theorem ScheduleBuild_serial_policy_witness :
    ((⟨[⟨1, "1", some "j", .succeeded, false, "", ""⟩,
        ⟨2, "2", some "j", .pending, false, "", ""⟩,
        ⟨3, "3", some "j", .pending, false, "", ""⟩,
        ⟨4, "1", some "k", .pending, false, "", ""⟩], [], []⟩ : Store).ScheduleBuild 3
      true).2 = false :=
  (ScheduleBuild_serial_policy
    ⟨[⟨1, "1", some "j", .succeeded, false, "", ""⟩,
      ⟨2, "2", some "j", .pending, false, "", ""⟩,
      ⟨3, "3", some "j", .pending, false, "", ""⟩,
      ⟨4, "1", some "k", .pending, false, "", ""⟩], [], []⟩
    3 ⟨3, "3", some "j", .pending, false, "", ""⟩ "j" (by decide) rfl rfl).1
    ⟨⟨2, "2", some "j", .pending, false, "", ""⟩, by decide, rfl, rfl, by decide⟩

/-! ## The store: build names -/

theorem jobBuilds_append (s : Store) (b : DB.Build) (j : String) :
    ({ s with builds := s.builds ++ [b] } : Store).jobBuilds j =
      if b.JobName = some j then s.jobBuilds j ++ [b] else s.jobBuilds j := by
  unfold Store.jobBuilds
  by_cases h : b.JobName = some j <;> simp [List.filter_append, h]

theorem oneOffBuilds_append (s : Store) (b : DB.Build) :
    ({ s with builds := s.builds ++ [b] } : Store).oneOffBuilds =
      if b.JobName = none then s.oneOffBuilds ++ [b] else s.oneOffBuilds := by
  unfold Store.oneOffBuilds
  by_cases h : b.JobName = none <;> simp [List.filter_append, h]

theorem names_range_succ (names : List String) (n : Nat)
    (h : names = (List.range n).map (fun k => toString (k + 1))) :
    names ++ [toString (n + 1)] = (List.range (n + 1)).map (fun k => toString (k + 1)) := by
  rw [List.range_succ, List.map_append, h]
  rfl

/-- The names and jobs of the builds are not touched by an update that keeps
them. -/
theorem updateBuild_names (s : Store) (buildID : Nat) (f : DB.Build → DB.Build)
    (hf : ∀ x, (f x).Name = x.Name ∧ (f x).JobName = x.JobName) (q : Option String) :
    ((s.updateBuild buildID f).builds.filter (fun b => b.JobName = q)).map (·.Name) =
      (s.builds.filter (fun b => b.JobName = q)).map (·.Name) := by
  unfold Store.updateBuild
  simp only
  induction s.builds with
  | nil => rfl
  | cons x xs ih =>
    by_cases hx : x.ID = buildID
    · by_cases hq : x.JobName = q
      · simp [List.filter, hx, hq, (hf x).1, (hf x).2, ih]
      · simp [List.filter, hx, hq, (hf x).2, ih]
    · by_cases hq : x.JobName = q
      · simp [List.filter, hx, hq, ih]
      · simp [List.filter, hx, hq, ih]

theorem namesCountUp_of_names (s t : Store)
    (hjob : ∀ q, (t.builds.filter (fun b => b.JobName = q)).map (·.Name) =
      (s.builds.filter (fun b => b.JobName = q)).map (·.Name))
    (h : namesCountUp s) : namesCountUp t := by
  have hlen : ∀ q, (t.builds.filter (fun b => b.JobName = q)).length =
      (s.builds.filter (fun b => b.JobName = q)).length := by
    intro q
    have := congrArg List.length (hjob q)
    simpa using this
  constructor
  · intro j
    have h1 := h.1 j
    unfold Store.jobBuilds at h1 ⊢
    rw [hjob (some j), hlen (some j)]
    exact h1
  · have h1 := h.2
    unfold Store.oneOffBuilds at h1 ⊢
    rw [hjob none, hlen none]
    exact h1

theorem namesCountUp_apply (s : Store) (op : Op) (h : namesCountUp s) :
    namesCountUp (s.apply op) := by
  cases op with
  | CreateJobBuild job =>
    constructor
    · intro j
      simp only [Store.apply, Store.CreateJobBuild]
      rw [jobBuilds_append]
      by_cases hj : job = j
      · subst hj
        simp only [if_true, List.map_append, List.map_cons, List.map_nil, List.length_append,
          List.length_singleton]
        exact names_range_succ _ _ (h.1 job)
      · have : ¬ (some job = some j) := fun he => hj (Option.some.inj he)
        simp only [this, if_false]
        exact h.1 j
    · simp only [Store.apply, Store.CreateJobBuild]
      rw [oneOffBuilds_append]
      simp only [reduceCtorEq, if_false]
      exact h.2
  | CreateOneOffBuild =>
    constructor
    · intro j
      simp only [Store.apply, Store.CreateOneOffBuild]
      rw [jobBuilds_append]
      simp only [reduceCtorEq, if_false]
      exact h.1 j
    · simp only [Store.apply, Store.CreateOneOffBuild]
      rw [oneOffBuilds_append]
      simp only [if_true, List.map_append, List.map_cons, List.map_nil, List.length_append,
        List.length_singleton]
      exact names_range_succ _ _ h.2
  | ScheduleBuild buildID serial =>
    refine namesCountUp_of_names s _ ?_ h
    intro q
    simp only [Store.apply, Store.ScheduleBuild]
    split
    · rfl
    · split
      · rfl
      · split
        · rfl
        · refine updateBuild_names s buildID _ ?_ q
          intro x
          exact ⟨rfl, rfl⟩
  | StartBuild buildID engine metadata =>
    refine namesCountUp_of_names s _ ?_ h
    intro q
    simp only [Store.apply, Store.StartBuild]
    split
    · rfl
    · split
      · refine updateBuild_names s buildID _ ?_ q
        intro x
        exact ⟨rfl, rfl⟩
      · rfl
  | FinishBuild buildID status =>
    refine namesCountUp_of_names s _ ?_ h
    intro q
    simp only [Store.apply, Store.FinishBuild]
    split
    · refine updateBuild_names s buildID _ (fun x => ?_) q
      by_cases hx : x.Status.isTerminal = true <;> simp [hx]
    · rfl
  | AbortBuild buildID =>
    refine namesCountUp_of_names s _ ?_ h
    intro q
    refine updateBuild_names s buildID _ (fun x => ?_) q
    by_cases hx : x.Status.isTerminal = true <;> simp [hx]
  | SaveBuildOutput buildID vr =>
    refine namesCountUp_of_names s _ ?_ h
    intro q
    simp only [Store.apply, Store.SaveBuildOutput]
    split <;> rfl

theorem namesCountUp_run (ops : List Op) : ∀ s : Store, namesCountUp s → namesCountUp (s.run ops) := by
  induction ops with
  | nil => intro s h; exact h
  | cons op ops ih =>
    intro s h
    exact ih (s.apply op) (namesCountUp_apply s op h)

/-- C16: build names are per-job decimal counters.  In every store reached
from the empty store by operations of the store, the builds of a job `j` have
the names 1, 2, ... in creation order; when `j` has `k - 1` builds the next
build created for `j` by `CreateJobBuild` has name decimal(`k`), status pending
and job `j`, and creating it leaves the builds of every other job and the
one-off builds as they are; the one-off builds have the names 1, 2, ... from
their own counter, and the next one created has the next name, no job name and
status pending, and leaves the builds of the jobs as they are. -/
theorem build_names_are_counters (ops : List Op) (j : String) :
    (((Store.empty.run ops).jobBuilds j).map (·.Name) =
      (List.range ((Store.empty.run ops).jobBuilds j).length).map (fun k => toString (k + 1))) ∧
    ((Store.empty.run ops).CreateJobBuild j).2.Name =
      toString (((Store.empty.run ops).jobBuilds j).length + 1) ∧
    ((Store.empty.run ops).CreateJobBuild j).2.Status = .pending ∧
    ((Store.empty.run ops).CreateJobBuild j).2.JobName = some j ∧
    ((Store.empty.run ops).CreateJobBuild j).1.jobBuilds j =
      (Store.empty.run ops).jobBuilds j ++ [((Store.empty.run ops).CreateJobBuild j).2] ∧
    (∀ other, other ≠ j →
      ((Store.empty.run ops).CreateJobBuild other).1.jobBuilds j =
        (Store.empty.run ops).jobBuilds j) ∧
    ((Store.empty.run ops).CreateJobBuild j).1.oneOffBuilds =
      (Store.empty.run ops).oneOffBuilds ∧
    ((Store.empty.run ops).oneOffBuilds.map (·.Name) =
      (List.range (Store.empty.run ops).oneOffBuilds.length).map (fun k => toString (k + 1))) ∧
    (Store.empty.run ops).CreateOneOffBuild.2.Name =
      toString ((Store.empty.run ops).oneOffBuilds.length + 1) ∧
    (Store.empty.run ops).CreateOneOffBuild.2.Status = .pending ∧
    (Store.empty.run ops).CreateOneOffBuild.2.JobName = none ∧
    (Store.empty.run ops).CreateOneOffBuild.1.jobBuilds j =
      (Store.empty.run ops).jobBuilds j := by
  have hinv : namesCountUp (Store.empty.run ops) :=
    namesCountUp_run ops Store.empty ⟨fun _ => rfl, rfl⟩
  refine ⟨hinv.1 j, rfl, rfl, rfl, ?_, ?_, ?_, hinv.2, rfl, rfl, rfl, ?_⟩
  · simp only [Store.CreateJobBuild]
    rw [jobBuilds_append]
    simp
  · intro other hne
    simp only [Store.CreateJobBuild]
    rw [jobBuilds_append]
    have : ¬ (some other = some j) := fun he => hne (Option.some.inj he)
    simp [this]
  · simp only [Store.CreateJobBuild]
    rw [oneOffBuilds_append]
    simp
  · simp only [Store.CreateOneOffBuild]
    rw [jobBuilds_append]
    simp

/-- A history for C16: a one-off build, a build of another job and a second
one-off build are created, as in the test suite; the next build of `some-job`
is its first. -/
theorem build_names_are_counters_witness :
    ((Store.empty.run [Op.CreateOneOffBuild, Op.CreateJobBuild "some-other-job",
        Op.CreateOneOffBuild]).CreateJobBuild "some-job").2.Name =
      toString (((Store.empty.run [Op.CreateOneOffBuild, Op.CreateJobBuild "some-other-job",
        Op.CreateOneOffBuild]).jobBuilds "some-job").length + 1) ∧
    (Store.empty.run [Op.CreateOneOffBuild, Op.CreateJobBuild "some-other-job",
        Op.CreateOneOffBuild]).CreateOneOffBuild.2.Name =
      toString ((Store.empty.run [Op.CreateOneOffBuild, Op.CreateJobBuild "some-other-job",
        Op.CreateOneOffBuild]).oneOffBuilds.length + 1) :=
  ⟨(build_names_are_counters [Op.CreateOneOffBuild, Op.CreateJobBuild "some-other-job",
      Op.CreateOneOffBuild] "some-job").2.1,
    (build_names_are_counters [Op.CreateOneOffBuild, Op.CreateJobBuild "some-other-job",
      Op.CreateOneOffBuild] "some-job").2.2.2.2.2.2.2.2.1⟩

/-! ## The store: aborted builds -/

theorem find_map_of_keeps_ID (buildID : Nat) (g : DB.Build → DB.Build)
    (hg : ∀ x, (g x).ID = x.ID) (l : List DB.Build) :
    (l.map g).find? (fun b => b.ID = buildID) = (l.find? (fun b => b.ID = buildID)).map g := by
  induction l with
  | nil => rfl
  | cons x xs ih =>
    by_cases hx : x.ID = buildID
    · simp [List.find?, hg, hx]
    · simp [List.find?, hg, hx, ih]

/-- The row of a build after an update of the rows with some id. -/
theorem GetBuild_updateBuild (s : Store) (buildID target : Nat) (f : DB.Build → DB.Build)
    (hf : ∀ x, (f x).ID = x.ID) :
    (s.updateBuild target f).GetBuild buildID =
      (s.GetBuild buildID).map (fun b => if b.ID = target then f b else b) := by
  unfold Store.GetBuild Store.updateBuild
  exact find_map_of_keeps_ID buildID _ (fun x => by by_cases h : x.ID = target <;> simp [h, hf]) _

/-- A build that is in the store with status aborted is still there, with
status aborted, after any operation of the store. -/
theorem aborted_apply (s : Store) (buildID : Nat) (op : Op)
    (h : ∃ b, s.GetBuild buildID = some b ∧ b.Status = .aborted) :
    ∃ b, (s.apply op).GetBuild buildID = some b ∧ b.Status = .aborted := by
  obtain ⟨b, hget, hab⟩ := h
  have hadd : ∀ x : DB.Build,
      ({ s with builds := s.builds ++ [x] } : Store).GetBuild buildID = some b := by
    intro x
    unfold Store.GetBuild at hget ⊢
    simp [List.find?_append, hget]
  cases op with
  | CreateJobBuild job => exact ⟨b, hadd _, hab⟩
  | CreateOneOffBuild => exact ⟨b, hadd _, hab⟩
  | ScheduleBuild target serial =>
    simp only [Store.apply, Store.ScheduleBuild]
    split
    · exact ⟨b, hget, hab⟩
    · split
      · exact ⟨b, hget, hab⟩
      · split
        · exact ⟨b, hget, hab⟩
        · have hu := GetBuild_updateBuild s buildID target
            (fun x => { x with Scheduled := true }) (fun x => rfl)
          dsimp only
          rw [hu, hget]
          by_cases hb : b.ID = target
          · exact ⟨{ b with Scheduled := true }, by simp [hb], hab⟩
          · exact ⟨b, by simp [hb], hab⟩
  | StartBuild target engine metadata =>
    simp only [Store.apply, Store.StartBuild]
    split
    · exact ⟨b, hget, hab⟩
    · rename_i x hx
      split
      · rename_i hpending
        have hu := GetBuild_updateBuild s buildID target
          (fun x => { x with Status := .started, Engine := engine, EngineMetadata := metadata })
          (fun x => rfl)
        dsimp only
        rw [hu, hget]
        by_cases hb : b.ID = target
        · have hid := (GetBuild_some hget).1
          have hbx : x = b := by
            have : s.GetBuild target = some b := by rw [← hb, hid]; exact hget
            rw [this] at hx
            exact (Option.some.inj hx).symm
          rw [hbx, hab] at hpending
          exact absurd hpending (by decide)
        · exact ⟨b, by simp [hb], hab⟩
      · exact ⟨b, hget, hab⟩
  | FinishBuild target status =>
    simp only [Store.apply, Store.FinishBuild]
    split
    · have hu := GetBuild_updateBuild s buildID target
        (fun x => if x.Status.isTerminal then x else { x with Status := status })
        (fun x => by by_cases h : x.Status.isTerminal = true <;> simp [h])
      rw [hu, hget]
      by_cases hb : b.ID = target
      · refine ⟨b, ?_, hab⟩
        simp [hb, hab, Status.isTerminal]
      · exact ⟨b, by simp [hb], hab⟩
    · exact ⟨b, hget, hab⟩
  | AbortBuild target =>
    simp only [Store.apply, Store.AbortBuild]
    have hu := GetBuild_updateBuild s buildID target
      (fun x => if x.Status.isTerminal then x else { x with Status := .aborted })
      (fun x => by by_cases h : x.Status.isTerminal = true <;> simp [h])
    rw [hu, hget]
    by_cases hb : b.ID = target
    · refine ⟨b, ?_, hab⟩
      simp [hb, hab, Status.isTerminal]
    · exact ⟨b, by simp [hb], hab⟩
  | SaveBuildOutput target vr =>
    simp only [Store.apply, Store.SaveBuildOutput]
    split
    · exact ⟨b, hget, hab⟩
    · exact ⟨b, hget, hab⟩

/-- An aborted build is still aborted after any sequence of operations. -/
theorem aborted_run (buildID : Nat) (ops : List Op) :
    ∀ s : Store, (∃ b, s.GetBuild buildID = some b ∧ b.Status = .aborted) →
    ∃ b, (s.run ops).GetBuild buildID = some b ∧ b.Status = .aborted := by
  induction ops with
  | nil => intro s h; exact h
  | cons op ops ih =>
    intro s h
    exact ih (s.apply op) (aborted_apply s buildID op h)

/-- C17: a build gets the status aborted by `AbortBuild`, or by `FinishBuild`
with status aborted (as the tests abort), whenever it is not terminal yet,
whether it is pending, scheduled or started.  Once a build has the status
aborted, every `StartBuild` for it returns false and every `ScheduleBuild` for
it returns false, both leaving the store as it is, and this stays so after
every later sequence of operations of the store, on this build or on others
(builds created, scheduled, started, finished or aborted, outputs saved): the
build's status is still aborted, and `StartBuild` and `ScheduleBuild` for it
still return false. -/
theorem aborted_build_stays_aborted (s : Store) (buildID : Nat) (b : DB.Build)
    (hget : s.GetBuild buildID = some b) :
    (b.Status.isTerminal = false →
      (∃ b1, (s.AbortBuild buildID).GetBuild buildID = some b1 ∧ b1.Status = .aborted) ∧
      (∃ b1, (s.FinishBuild buildID .aborted).GetBuild buildID = some b1 ∧
        b1.Status = .aborted)) ∧
    (b.Status = .aborted →
      (∀ engine metadata, s.StartBuild buildID engine metadata = (s, false)) ∧
      (∀ serial, s.ScheduleBuild buildID serial = (s, false)) ∧
      (∀ ops : List Op,
        ∃ b1, (s.run ops).GetBuild buildID = some b1 ∧ b1.Status = .aborted ∧
          (∀ engine metadata,
            (s.run ops).StartBuild buildID engine metadata = (s.run ops, false)) ∧
          (∀ serial, (s.run ops).ScheduleBuild buildID serial = (s.run ops, false)))) := by
  have hstart : ∀ (t : Store) (x : DB.Build), t.GetBuild buildID = some x → x.Status = .aborted →
      ∀ engine metadata, t.StartBuild buildID engine metadata = (t, false) := by
    intro t x hx hab engine metadata
    unfold Store.StartBuild
    rw [hx]
    simp [hab]
  have hsched : ∀ (t : Store) (x : DB.Build), t.GetBuild buildID = some x → x.Status = .aborted →
      ∀ serial, t.ScheduleBuild buildID serial = (t, false) := by
    intro t x hx hab serial
    unfold Store.ScheduleBuild
    rw [hx]
    simp [hab]
  have hid := (GetBuild_some hget).1
  refine ⟨?_, ?_⟩
  · intro hnt
    refine ⟨?_, ?_⟩
    · unfold Store.AbortBuild
      have hu := GetBuild_updateBuild s buildID buildID
        (fun x => if x.Status.isTerminal then x else { x with Status := .aborted })
        (fun x => by by_cases h : x.Status.isTerminal = true <;> simp [h])
      rw [hu, hget]
      exact ⟨{ b with Status := .aborted }, by simp [hid, hnt], rfl⟩
    · unfold Store.FinishBuild
      have hu := GetBuild_updateBuild s buildID buildID
        (fun x => if x.Status.isTerminal then x else { x with Status := .aborted })
        (fun x => by by_cases h : x.Status.isTerminal = true <;> simp [h])
      rw [if_pos (show Status.aborted.isTerminal = true from rfl), hu, hget]
      exact ⟨{ b with Status := .aborted }, by simp [hid, hnt], rfl⟩
  · intro hab
    refine ⟨hstart s b hget hab, hsched s b hget hab, ?_⟩
    intro ops
    obtain ⟨b1, hb1, hab1⟩ := aborted_run buildID ops s ⟨b, hget, hab⟩
    exact ⟨b1, hb1, hab1, hstart _ b1 hb1 hab1, hsched _ b1 hb1 hab1⟩

/-- The test `and then scheduled / and then aborted` for C17: the first build
of `some-job` is scheduled and aborted; another build of the job is created and
finished, and the aborted build is finished once more as succeeded; the
aborted build is still aborted and does not start. -/
theorem aborted_build_stays_aborted_witness :
    ∃ b1, ((⟨[⟨1, "1", some "some-job", .aborted, true, "", ""⟩], [], []⟩ : Store).run
        [Op.CreateJobBuild "some-job", Op.FinishBuild 2 .failed,
          Op.FinishBuild 1 .succeeded]).GetBuild 1 = some b1 ∧
      b1.Status = .aborted ∧
      ((⟨[⟨1, "1", some "some-job", .aborted, true, "", ""⟩], [], []⟩ : Store).run
        [Op.CreateJobBuild "some-job", Op.FinishBuild 2 .failed,
          Op.FinishBuild 1 .succeeded]).StartBuild 1 "some-engine" "some-meta" =
        ((⟨[⟨1, "1", some "some-job", .aborted, true, "", ""⟩], [], []⟩ : Store).run
          [Op.CreateJobBuild "some-job", Op.FinishBuild 2 .failed,
            Op.FinishBuild 1 .succeeded], false) :=
  match ((aborted_build_stays_aborted
      ⟨[⟨1, "1", some "some-job", .aborted, true, "", ""⟩], [], []⟩ 1
      ⟨1, "1", some "some-job", .aborted, true, "", ""⟩ rfl).2 rfl).2.2
      [Op.CreateJobBuild "some-job", Op.FinishBuild 2 .failed, Op.FinishBuild 1 .succeeded] with
  | ⟨b1, h1, h2, h3, _⟩ => ⟨b1, h1, h2, h3 "some-engine" "some-meta"⟩

/-! ## The store: input versions -/

/-- The tuples of candidates: one candidate for each input, in the order of the
inputs. -/
theorem tuples_spec {α β : Type} (f : β → List α) : ∀ (inputs : List β) (t : List α),
    t ∈ tuples (inputs.map f) ↔
      t.length = inputs.length ∧ ∀ x ∈ inputs.zip t, x.2 ∈ f x.1 := by
  intro inputs
  induction inputs with
  | nil =>
    intro t
    simp [tuples, List.length_eq_zero]
  | cons i rest ih =>
    intro t
    cases t with
    | nil => simp [tuples]
    | cons v t1 =>
      simp only [List.map_cons, tuples, List.mem_flatMap, List.mem_map, List.cons.injEq,
        List.length_cons, Nat.add_right_cancel_iff, List.zip_cons_cons, List.mem_cons,
        forall_eq_or_imp]
      constructor
      · rintro ⟨a, ha, t2, ht2, rfl, rfl⟩
        have h := (ih t2).1 ht2
        exact ⟨h.1, ha, h.2⟩
      · rintro ⟨hlen, hv, hrest⟩
        exact ⟨v, hv, t1, (ih t1).2 ⟨hlen, hrest⟩, rfl, rfl⟩

/-- The statuses that count for the `passed` constraint. -/
theorem Status.passes_iff (status : Status) :
    status.passes = true ↔ status = .succeeded ∨ status = .pending := by
  cases status <;> simp [Status.passes]

/-- Two versions have a common build of a job that counts. -/
theorem commonBuild_iff (s : Store) (job : String) (v w : SavedVersionedResource) :
    s.commonBuild job v w = true ↔
      ∃ b ∈ s.builds, b.JobName = some job ∧ (b.Status = .succeeded ∨ b.Status = .pending) ∧
        (b.ID, v.ID) ∈ s.buildOutputs ∧ (b.ID, w.ID) ∈ s.buildOutputs := by
  simp [Store.commonBuild, and_assoc, Status.passes_iff]

/-- A version is an output of a build of a job that counts. -/
theorem outputOfJob_iff (s : Store) (job : String) (v : SavedVersionedResource) :
    s.outputOfJob job v = true ↔
      ∃ b ∈ s.builds, b.JobName = some job ∧ (b.Status = .succeeded ∨ b.Status = .pending) ∧
        (b.ID, v.ID) ∈ s.buildOutputs := by
  simp [Store.outputOfJob, and_assoc, Status.passes_iff]

/-- The transitive passed constraint on a tuple of versions. -/
theorem consistent_iff (s : Store) (inputs : List JobInputConfig)
    (versions : List SavedVersionedResource) :
    s.consistent inputs versions = true ↔
      ∀ x ∈ inputs.zip versions, ∀ y ∈ inputs.zip versions, ∀ p ∈ x.1.Passed,
        p ∈ y.1.Passed →
        ∃ b ∈ s.builds, b.JobName = some p ∧ (b.Status = .succeeded ∨ b.Status = .pending) ∧
          (b.ID, x.2.ID) ∈ s.buildOutputs ∧ (b.ID, y.2.ID) ∈ s.buildOutputs := by
  unfold Store.consistent
  simp only [List.all_eq_true, Bool.or_eq_true, Bool.not_eq_true', decide_eq_false_iff_not,
    commonBuild_iff]
  constructor
  · intro h x hx y hy p hp hpy
    rcases h x hx y hy p hp with h1 | h1
    · exact absurd hpy h1
    · exact h1
  · intro h x hx y hy p hp
    by_cases hpy : p ∈ y.1.Passed
    · exact Or.inr (h x hx y hy p hp hpy)
    · exact Or.inl hpy

/-- The candidate versions of an input. -/
theorem mem_candidates (s : Store) (input : JobInputConfig) (v : SavedVersionedResource) :
    v ∈ s.candidates input ↔
      v ∈ s.versionedResources ∧ v.Enabled = true ∧
      v.VersionedResource.Resource = input.Resource ∧
      (∀ job ∈ input.Passed, ∃ b ∈ s.builds, b.JobName = some job ∧
        (b.Status = .succeeded ∨ b.Status = .pending) ∧ (b.ID, v.ID) ∈ s.buildOutputs) ∧
      (∀ version, input.Pinned = some version → v.VersionedResource.Version = version) := by
  unfold Store.candidates
  simp only [List.mem_filter, List.mem_reverse, Bool.and_eq_true, decide_eq_true_eq,
    List.all_eq_true, outputOfJob_iff]
  cases hpin : input.Pinned with
  | none => simp [and_assoc]
  | some version => simp [and_assoc]

/-- The answer of `GetLatestInputVersions` is a tuple of candidates that
satisfies the transitive passed constraint. -/
theorem GetLatestInputVersions_ok {s : Store} {inputs : List JobInputConfig}
    {versions : List SavedVersionedResource}
    (h : s.GetLatestInputVersions inputs = .ok versions) :
    versions.length = inputs.length ∧
    (∀ x ∈ inputs.zip versions, x.2 ∈ s.candidates x.1) ∧
    s.consistent inputs versions = true := by
  unfold Store.GetLatestInputVersions at h
  split at h
  · rename_i t ht
    have heq : t = versions := by
      injection h
    subst heq
    have hmem := (tuples_spec s.candidates inputs t).1 (List.mem_of_find?_eq_some ht)
    exact ⟨hmem.1, hmem.2, List.find?_some ht⟩
  · simp at h

/-- The call `GetLatestInputVersions` fails exactly when no tuple of candidates
satisfies the transitive passed constraint, and then with `ErrNoVersions`. -/
theorem GetLatestInputVersions_error_iff (s : Store) (inputs : List JobInputConfig) :
    (∀ t ∈ tuples (inputs.map s.candidates), s.consistent inputs t = false) ↔
      s.GetLatestInputVersions inputs = .error ErrNoVersions := by
  unfold Store.GetLatestInputVersions
  constructor
  · intro h
    have hnone : (tuples (inputs.map s.candidates)).find? (s.consistent inputs) = none := by
      rw [List.find?_eq_none]
      intro t ht
      simp [h t ht]
    rw [hnone]
  · intro h
    split at h
    · simp at h
    · rename_i hnone
      rw [List.find?_eq_none] at hnone
      intro t ht
      simpa using hnone t ht

/-- C14: when `GetLatestInputVersions` answers with versions, there is one
version for each input and, for every pair of inputs whose `passed` lists share
a job `p`, the two versions are both outputs of one and the same build of `p`
(a build that has succeeded or, as in the tests, is still pending); the call
fails with `ErrNoVersions` exactly when there is no choice of one candidate
version for each input such that, for every pair of inputs sharing a job `p`,
the two chosen versions are outputs of one such build of `p`; in particular it
fails with `ErrNoVersions` when no choice of candidates has, for every pair of
inputs sharing a job `p`, its two versions among the outputs of one build of
`p`. -/
theorem GetLatestInputVersions_transitive_passed (s : Store) (inputs : List JobInputConfig) :
    (∀ versions, s.GetLatestInputVersions inputs = .ok versions →
      versions.length = inputs.length ∧
      ∀ x ∈ inputs.zip versions, ∀ y ∈ inputs.zip versions, ∀ p ∈ x.1.Passed,
        p ∈ y.1.Passed →
        ∃ b ∈ s.builds, b.JobName = some p ∧ (b.Status = .succeeded ∨ b.Status = .pending) ∧
          (b.ID, x.2.ID) ∈ s.buildOutputs ∧ (b.ID, y.2.ID) ∈ s.buildOutputs) ∧
    ((¬ ∃ t : List SavedVersionedResource, t.length = inputs.length ∧
        (∀ x ∈ inputs.zip t, x.2 ∈ s.candidates x.1) ∧
        ∀ x ∈ inputs.zip t, ∀ y ∈ inputs.zip t, ∀ p ∈ x.1.Passed, p ∈ y.1.Passed →
          ∃ b ∈ s.builds, b.JobName = some p ∧
            (b.Status = .succeeded ∨ b.Status = .pending) ∧
            (b.ID, x.2.ID) ∈ s.buildOutputs ∧ (b.ID, y.2.ID) ∈ s.buildOutputs) ↔
      s.GetLatestInputVersions inputs = .error ErrNoVersions) ∧
    ((¬ ∃ t : List SavedVersionedResource, t.length = inputs.length ∧
        (∀ x ∈ inputs.zip t, x.2 ∈ s.candidates x.1) ∧
        ∀ x ∈ inputs.zip t, ∀ y ∈ inputs.zip t, ∀ p ∈ x.1.Passed, p ∈ y.1.Passed →
          ∃ b ∈ s.builds, b.JobName = some p ∧
            (b.ID, x.2.ID) ∈ s.buildOutputs ∧ (b.ID, y.2.ID) ∈ s.buildOutputs) →
      s.GetLatestInputVersions inputs = .error ErrNoVersions) := by
  have hiff : (¬ ∃ t : List SavedVersionedResource, t.length = inputs.length ∧
        (∀ x ∈ inputs.zip t, x.2 ∈ s.candidates x.1) ∧
        ∀ x ∈ inputs.zip t, ∀ y ∈ inputs.zip t, ∀ p ∈ x.1.Passed, p ∈ y.1.Passed →
          ∃ b ∈ s.builds, b.JobName = some p ∧
            (b.Status = .succeeded ∨ b.Status = .pending) ∧
            (b.ID, x.2.ID) ∈ s.buildOutputs ∧ (b.ID, y.2.ID) ∈ s.buildOutputs) ↔
      s.GetLatestInputVersions inputs = .error ErrNoVersions := by
    rw [← GetLatestInputVersions_error_iff]
    constructor
    · intro hno t ht
      have hmem := (tuples_spec s.candidates inputs t).1 ht
      cases hc : s.consistent inputs t with
      | false => rfl
      | true => exact absurd ⟨t, hmem.1, hmem.2, (consistent_iff s inputs t).1 hc⟩ hno
    · rintro hall ⟨t, hlen, hcand, hcons⟩
      have ht := (tuples_spec s.candidates inputs t).2 ⟨hlen, hcand⟩
      have hc := (consistent_iff s inputs t).2 hcons
      rw [hall t ht] at hc
      exact absurd hc (by decide)
  refine ⟨?_, hiff, ?_⟩
  · intro versions h
    have hok := GetLatestInputVersions_ok h
    exact ⟨hok.1, (consistent_iff s inputs versions).1 hok.2.2⟩
  · intro hno
    refine hiff.1 ?_
    rintro ⟨t, hlen, hcand, hcons⟩
    refine hno ⟨t, hlen, hcand, ?_⟩
    intro x hx y hy p hp hpy
    obtain ⟨b, hb, hjob, -, hout⟩ := hcons x hx y hy p hp hpy
    exact ⟨b, hb, hjob, hout⟩

/-- The test `determining the inputs for a job` for C14: with the outputs of the
first builds of `shared-job`, `job-1` and `job-2` saved, the two versions that
are returned for `resource-1` and `resource-2` are both outputs of build 3, the
build of `shared-job`. -/
theorem GetLatestInputVersions_transitive_passed_witness :
    ∃ b ∈ DB.passedStore.builds, b.JobName = some "shared-job" ∧
      (b.Status = .succeeded ∨ b.Status = .pending) ∧
      (b.ID, 1) ∈ DB.passedStore.buildOutputs ∧ (b.ID, 2) ∈ DB.passedStore.buildOutputs :=
  ((GetLatestInputVersions_transitive_passed DB.passedStore DB.passedInputs).1
    [⟨1, true, ⟨"resource-1", "some-type", [], [("v", "r1-common-to-shared-and-j1")]⟩⟩,
      ⟨2, true, ⟨"resource-2", "some-type", [], [("v", "r2-common-to-shared-and-j2")]⟩⟩]
    rfl).2
    (⟨"resource-1", ["shared-job", "job-1"], none⟩,
      ⟨1, true, ⟨"resource-1", "some-type", [], [("v", "r1-common-to-shared-and-j1")]⟩⟩)
    (by decide)
    (⟨"resource-2", ["shared-job", "job-2"], none⟩,
      ⟨2, true, ⟨"resource-2", "some-type", [], [("v", "r2-common-to-shared-and-j2")]⟩⟩)
    (by decide) "shared-job" (by decide) (by decide)

/-- C15 as stated fails: in the test `determining the inputs for a job` the
builds of `shared-job`, `job-1` and `job-2` are created and never scheduled,
started or finished, so every build of the store is pending and none has
status succeeded; the outputs saved for them are nevertheless selected by
`GetLatestInputVersions` for the inputs whose `passed` lists name these jobs. -/
theorem output_of_pending_build_is_selected :
    DB.passedStore.GetLatestInputVersions DB.passedInputs =
      .ok [⟨1, true, ⟨"resource-1", "some-type", [], [("v", "r1-common-to-shared-and-j1")]⟩⟩,
        ⟨2, true, ⟨"resource-2", "some-type", [], [("v", "r2-common-to-shared-and-j2")]⟩⟩] ∧
    (∀ b ∈ DB.passedStore.builds, b.Status = .pending) ∧
    ¬ ∃ b ∈ DB.passedStore.builds, b.Status = .succeeded := by
  refine ⟨rfl, by decide, by decide⟩

/-- C15, amended: every version that `GetLatestInputVersions` selects for an
input is a stored, enabled version of the input's resource that, for every job
of the input's `passed` list, was saved as an output of a build of that job
that has succeeded or is still pending, and it equals the pin when the input
has one; a version is no candidate of an input when, for some job of its
`passed` list, every build of the job that has it among its outputs has
another status (started, failed, errored or aborted). -/
theorem GetLatestInputVersions_passed_outputs (s : Store) (inputs : List JobInputConfig) :
    (∀ versions, s.GetLatestInputVersions inputs = .ok versions →
      ∀ x ∈ inputs.zip versions,
        x.2 ∈ s.versionedResources ∧ x.2.Enabled = true ∧
        x.2.VersionedResource.Resource = x.1.Resource ∧
        (∀ job ∈ x.1.Passed, ∃ b ∈ s.builds, b.JobName = some job ∧
          (b.Status = .succeeded ∨ b.Status = .pending) ∧ (b.ID, x.2.ID) ∈ s.buildOutputs) ∧
        (∀ version, x.1.Pinned = some version → x.2.VersionedResource.Version = version)) ∧
    (∀ (input : JobInputConfig) (v : SavedVersionedResource) (job : String),
      job ∈ input.Passed →
      (∀ b ∈ s.builds, b.JobName = some job → (b.ID, v.ID) ∈ s.buildOutputs →
        b.Status = .started ∨ b.Status = .failed ∨ b.Status = .errored ∨
          b.Status = .aborted) →
      v ∉ s.candidates input) := by
  refine ⟨?_, ?_⟩
  · intro versions h x hx
    exact (mem_candidates s x.1 x.2).1 ((GetLatestInputVersions_ok h).2.1 x hx)
  · intro input v job hjob hall hmem
    obtain ⟨b, hb, hname, hst, hout⟩ := ((mem_candidates s input v).1 hmem).2.2.2.1 job hjob
    have h := hall b hb hname hout
    rcases hst with hst | hst <;> rw [hst] at h <;> simp at h

/-- The test `determining the inputs for a job` for C15: the version selected
for `resource-1` was saved as an output of a build of `job-1` that is still
pending. -/
theorem GetLatestInputVersions_passed_outputs_witness :
    ∃ b ∈ DB.passedStore.builds, b.JobName = some "job-1" ∧
      (b.Status = .succeeded ∨ b.Status = .pending) ∧
      (b.ID, 1) ∈ DB.passedStore.buildOutputs :=
  ((GetLatestInputVersions_passed_outputs DB.passedStore DB.passedInputs).1
    [⟨1, true, ⟨"resource-1", "some-type", [], [("v", "r1-common-to-shared-and-j1")]⟩⟩,
      ⟨2, true, ⟨"resource-2", "some-type", [], [("v", "r2-common-to-shared-and-j2")]⟩⟩]
    rfl
    (⟨"resource-1", ["shared-job", "job-1"], none⟩,
      ⟨1, true, ⟨"resource-1", "some-type", [], [("v", "r1-common-to-shared-and-j1")]⟩⟩)
    (by decide)).2.2.2.1 "job-1" (by decide)

/-! ## Looking up an engine -/

/-- The lookup fails exactly when no engine of the list has the name. -/
theorem Engines.Lookup_eq_none (engines : Engines) (name : String) :
    Engines.Lookup engines name = none ↔ ∀ e ∈ engines, e.Name ≠ name := by
  induction engines with
  | nil => simp [Engines.Lookup]
  | cons x xs ih =>
    by_cases hx : x.Name = name
    · simp [Engines.Lookup, hx]
    · simp [Engines.Lookup, hx, ih]

/-- The lookup finds the first engine of the list that has the name. -/
theorem Engines.Lookup_eq_some (engines : Engines) (name : String) (e : Engine) :
    Engines.Lookup engines name = some e ↔
      ∃ pre post, engines = pre ++ e :: post ∧ e.Name = name ∧ ∀ x ∈ pre, x.Name ≠ name := by
  induction engines with
  | nil => simp [Engines.Lookup]
  | cons x xs ih =>
    by_cases hx : x.Name = name
    · simp only [Engines.Lookup, hx, if_true, Option.some.injEq]
      constructor
      · rintro rfl
        exact ⟨[], xs, rfl, hx, by simp⟩
      · rintro ⟨pre, post, heq, -, hpre⟩
        cases pre with
        | nil =>
          simp only [List.nil_append, List.cons.injEq] at heq
          exact heq.1
        | cons y ys =>
          simp only [List.cons_append, List.cons.injEq] at heq
          exact absurd (heq.1 ▸ hx) (hpre y (List.mem_cons_self _ _))
    · simp only [Engines.Lookup, hx, if_false, ih]
      constructor
      · rintro ⟨pre, post, heq, he, hpre⟩
        refine ⟨x :: pre, post, by rw [heq]; rfl, he, ?_⟩
        intro y hy
        rcases List.mem_cons.1 hy with rfl | hy
        · exact hx
        · exact hpre y hy
      · rintro ⟨pre, post, heq, he, hpre⟩
        cases pre with
        | nil =>
          simp only [List.nil_append, List.cons.injEq] at heq
          exact absurd (heq.1 ▸ he) hx
        | cons y ys =>
          simp only [List.cons_append, List.cons.injEq] at heq
          exact ⟨ys, post, heq.2, he, fun z hz => hpre z (List.mem_cons_of_mem _ hz)⟩

/-- C29: `Engines.Lookup(name)` returns `(e, true)` exactly for the first
engine `e` of the list whose `Name()` equals `name`, and `(nil, false)` if and
only if no engine of the list has that name; a list that contains the exec
engine finds an engine under the name `exec.v1`, and it finds the exec engine
itself when no engine before it in the list goes by that name. -/
theorem Engines_Lookup_first_by_name (engines : Engines) (name : String) :
    (∀ e, Engines.Lookup engines name = some e ↔
      ∃ pre post, engines = pre ++ e :: post ∧ e.Name = name ∧ ∀ x ∈ pre, x.Name ≠ name) ∧
    (Engines.Lookup engines name = none ↔ ∀ e ∈ engines, e.Name ≠ name) ∧
    Engine.exec.Name = "exec.v1" ∧
    (Engine.exec ∈ engines →
      ∃ e, Engines.Lookup engines "exec.v1" = some e ∧ e.Name = "exec.v1") ∧
    (∀ pre post, engines = pre ++ Engine.exec :: post → (∀ x ∈ pre, x.Name ≠ "exec.v1") →
      Engines.Lookup engines "exec.v1" = some Engine.exec) := by
  refine ⟨fun e => Engines.Lookup_eq_some engines name e, Engines.Lookup_eq_none engines name,
    rfl, ?_, ?_⟩
  · intro hmem
    cases h : Engines.Lookup engines "exec.v1" with
    | none =>
      exact absurd rfl ((Engines.Lookup_eq_none engines "exec.v1").1 h Engine.exec hmem)
    | some e =>
      obtain ⟨_, _, _, he, _⟩ := (Engines.Lookup_eq_some engines "exec.v1" e).1 h
      exact ⟨e, rfl, he⟩
  · intro pre post heq hpre
    exact (Engines.Lookup_eq_some engines "exec.v1" Engine.exec).2 ⟨pre, post, heq, rfl, hpre⟩

/-- A list of engines for C29: a fake engine followed by the exec engine. -/
theorem Engines_Lookup_first_by_name_witness :
    ∃ e, Engines.Lookup [Engine.other "fake.v1", Engine.exec] "exec.v1" = some e ∧
      e.Name = "exec.v1" :=
  (Engines_Lookup_first_by_name [Engine.other "fake.v1", Engine.exec] "exec.v1").2.2.2.1
    (by decide)

/-! ## Rejected registrations -/

/-- C30: `RegisterWorker` responds 400 and does not call `SaveWorker` when the
body is not decodable, when the address is empty, or when the `ttl` query
parameter is non-empty and not a valid duration; it calls `SaveWorker` at most
once; it responds 500 exactly when `SaveWorker` is called and fails, and 200
exactly when `SaveWorker` is called and succeeds. -/
theorem RegisterWorker_rejects_bad_requests (ParseDuration : String → Except Error Duration)
    (SaveWorker : WorkerInfo → Duration → Option Error)
    (decoded : Except Error Worker) (ttlQuery : Option String) :
    ((∃ err, decoded = .error err) →
      (Server.RegisterWorker ParseDuration SaveWorker decoded ttlQuery).status =
          StatusBadRequest ∧
        (Server.RegisterWorker ParseDuration SaveWorker decoded ttlQuery).saved = []) ∧
    ((∃ registration, decoded = .ok registration ∧ registration.Addr = "") →
      (Server.RegisterWorker ParseDuration SaveWorker decoded ttlQuery).status =
          StatusBadRequest ∧
        (Server.RegisterWorker ParseDuration SaveWorker decoded ttlQuery).saved = []) ∧
    ((∃ ttlStr err, ttlQuery = some ttlStr ∧ ttlStr ≠ "" ∧ ParseDuration ttlStr = .error err) →
      (Server.RegisterWorker ParseDuration SaveWorker decoded ttlQuery).status =
          StatusBadRequest ∧
        (Server.RegisterWorker ParseDuration SaveWorker decoded ttlQuery).saved = []) ∧
    (Server.RegisterWorker ParseDuration SaveWorker decoded ttlQuery).saved.length ≤ 1 ∧
    ((Server.RegisterWorker ParseDuration SaveWorker decoded ttlQuery).status =
        StatusInternalServerError ↔
      ∃ info ttl err,
        (Server.RegisterWorker ParseDuration SaveWorker decoded ttlQuery).saved = [(info, ttl)] ∧
        SaveWorker info ttl = some err) ∧
    ((Server.RegisterWorker ParseDuration SaveWorker decoded ttlQuery).status = StatusOK ↔
      ∃ info ttl,
        (Server.RegisterWorker ParseDuration SaveWorker decoded ttlQuery).saved = [(info, ttl)] ∧
        SaveWorker info ttl = none) := by
  unfold Server.RegisterWorker
  cases decoded with
  | error e =>
    simp [StatusBadRequest, StatusInternalServerError, StatusOK]
  | ok registration =>
    by_cases haddr : registration.Addr = ""
    · simp [haddr, StatusBadRequest, StatusInternalServerError, StatusOK]
    · have hlen : ¬ registration.Addr.length = 0 := fun h =>
        haddr (String.eq_empty_of_length_eq_zero _ h)
      cases ttlQuery with
      | none =>
        cases hsave : SaveWorker ⟨registration.Addr, registration.ActiveContainers,
          registration.ResourceTypes, registration.Platform, registration.Tags⟩ 0 <;>
          (simp [haddr, hlen, hsave, StatusBadRequest, StatusInternalServerError, StatusOK];
            first
              | exact ⟨_, _, ⟨rfl, rfl⟩, hsave⟩
              | exact ⟨_, _, ⟨rfl, rfl⟩, _, hsave⟩)
      | some ttlStr =>
        by_cases hstr : ttlStr = ""
        · cases hsave : SaveWorker ⟨registration.Addr, registration.ActiveContainers,
            registration.ResourceTypes, registration.Platform, registration.Tags⟩ 0 <;>
            (simp [haddr, hlen, hstr, hsave, StatusBadRequest, StatusInternalServerError,
              StatusOK];
              first
                | exact ⟨_, _, ⟨rfl, rfl⟩, hsave⟩
                | exact ⟨_, _, ⟨rfl, rfl⟩, _, hsave⟩)
        · have hpos : 0 < ttlStr.length := by
            have : ¬ ttlStr.length = 0 := fun h =>
              hstr (String.eq_empty_of_length_eq_zero _ h)
            omega
          cases hparse : ParseDuration ttlStr with
          | error e =>
            simp [haddr, hlen, hstr, hpos, hparse, StatusBadRequest, StatusInternalServerError,
              StatusOK]
          | ok ttl =>
            cases hsave : SaveWorker ⟨registration.Addr, registration.ActiveContainers,
              registration.ResourceTypes, registration.Platform, registration.Tags⟩ ttl <;>
              (simp [haddr, hlen, hstr, hpos, hparse, hsave, StatusBadRequest,
                StatusInternalServerError, StatusOK];
                first
                  | exact ⟨_, _, ⟨rfl, rfl⟩, hsave⟩
                  | exact ⟨_, _, ⟨rfl, rfl⟩, _, hsave⟩)

/-- A registration for C30: the `ttl` parameter is not a duration; the store is
not called and the response is 400. -/
theorem RegisterWorker_rejects_bad_requests_witness :
    (Server.RegisterWorker (fun _ => .error "bad duration") (fun _ _ => none)
        (.ok ⟨"10.0.0.1:7777", 3, [], "linux", []⟩) (some "soon")).status = StatusBadRequest ∧
    (Server.RegisterWorker (fun _ => .error "bad duration") (fun _ _ => none)
        (.ok ⟨"10.0.0.1:7777", 3, [], "linux", []⟩) (some "soon")).saved = [] :=
  (RegisterWorker_rejects_bad_requests (fun _ => .error "bad duration") (fun _ _ => none)
    (.ok ⟨"10.0.0.1:7777", 3, [], "linux", []⟩) (some "soon")).2.2.1
    ⟨"soon", "bad duration", rfl, by decide, rfl⟩


/-! ## Presenting a resource -/

/-- C22: whenever the URL of the resource can be generated (the source panics
otherwise), `present.Resource` returns a resource whose `FailingToCheck` equals
the saved resource's `FailingToCheck()` whatever `showCheckError` is, whose
`CheckError` is the recorded error's message when a check error is recorded and
`showCheckError` is true and the empty string otherwise, and whose `Name`,
`Type` and `Paused` are copied from the configuration and the saved resource. -/
theorem present_Resource_surfaces_check_failure
    (CreateRequest : String → List (String × String) → Except Error String)
    (FailingToCheck : DB.SavedResource → Bool)
    (resource : ResourceConfig) (groups : GroupConfigs) (dbResource : DB.SavedResource)
    (showCheckError : Bool) (url : String)
    (hurl : CreateRequest routes.GetResource
      [("resource", resource.Name), ("pipeline_name", dbResource.PipelineName)] = .ok url) :
    ∃ presented,
      present.Resource CreateRequest FailingToCheck resource groups dbResource showCheckError =
        some presented ∧
      presented.FailingToCheck = FailingToCheck dbResource ∧
      (∀ err, dbResource.CheckError = some err → showCheckError = true →
        presented.CheckError = err) ∧
      (dbResource.CheckError = none ∨ showCheckError = false → presented.CheckError = "") ∧
      presented.Name = resource.Name ∧ presented.Type_ = resource.Type_ ∧
      presented.Paused = dbResource.Paused ∧ presented.URL = url ∧
      (∀ other, (present.Resource CreateRequest FailingToCheck resource groups dbResource
        other).map (·.FailingToCheck) = some (FailingToCheck dbResource)) := by
  unfold present.Resource
  rw [hurl]
  refine ⟨_, rfl, rfl, ?_, ?_, rfl, rfl, rfl, rfl, fun other => rfl⟩
  · intro err herr hshow
    simp [herr, hshow]
  · intro h
    rcases h with h | h
    · simp [h]
    · cases dbResource.CheckError <;> simp [h]

/-- The resource of the acceptance test for C22: its check failed with `failed
to foo the bar`, and the page that shows check errors gets the message. -/
theorem present_Resource_surfaces_check_failure_witness :
    ∃ presented,
      present.Resource (fun _ _ => .ok "/pipelines/main/resources/resource-name")
          (fun r => r.CheckError.isSome) ⟨"resource-name", "git", []⟩ []
          ⟨some "failed to foo the bar", true, "main"⟩ true = some presented ∧
      presented.FailingToCheck = true ∧ presented.CheckError = "failed to foo the bar" ∧
      presented.Name = "resource-name" ∧ presented.Paused = true :=
  match present_Resource_surfaces_check_failure
      (fun _ _ => .ok "/pipelines/main/resources/resource-name")
      (fun r => r.CheckError.isSome) ⟨"resource-name", "git", []⟩ []
      ⟨some "failed to foo the bar", true, "main"⟩ true
      "/pipelines/main/resources/resource-name" rfl with
  | ⟨presented, h1, h2, h3, _, h5, _, h7, _⟩ =>
    ⟨presented, h1, h2, h3 "failed to foo the bar" rfl rfl, h5, h7⟩

/-! ## Reading a pipe -/

/-- The loop `dance` leaves at the first `copied`, after one call of
`pipe.write.Close()` for every `closed` taken before it. -/
theorem ReadPipe.dance_copied (pre post : List PipeEvent)
    (hpre : ∀ e ∈ pre, e = PipeEvent.closed) :
    ∀ closes, ReadPipe.dance (pre ++ PipeEvent.copied :: post) closes =
      some (closes + pre.length) := by
  induction pre with
  | nil => intro closes; simp [ReadPipe.dance]
  | cons e pre ih =>
    intro closes
    have he : e = PipeEvent.closed := hpre e (List.mem_cons_self _ _)
    subst he
    have h := ih (fun x hx => hpre x (List.mem_cons_of_mem _ hx)) (closes + 1)
    show ReadPipe.dance (pre ++ PipeEvent.copied :: post) (closes + 1) =
      some (closes + (pre.length + 1))
    rw [h]
    exact congrArg some (by omega)

/-- The loop `dance` is still waiting while no `copied` has been taken. -/
theorem ReadPipe.dance_waiting (events : List PipeEvent)
    (hev : ∀ e ∈ events, e = PipeEvent.closed) :
    ∀ closes, ReadPipe.dance events closes = none := by
  induction events with
  | nil => intro closes; rfl
  | cons e events ih =>
    intro closes
    have he : e = PipeEvent.closed := hev e (List.mem_cons_self _ _)
    subst he
    simpa only [ReadPipe.dance] using
      ih (fun x hx => hev x (List.mem_cons_of_mem _ hx)) (closes + 1)

/-- C21: when `ReadPipe` serves a pipe hosted on this node that is present in
the pipes table, it returns once the copy has ended, both when the stream
completed and when the client disconnected first (the handler then closes the
pipe's write end and waits for the copy to end); when it returns, the entry
for the pipe ID is absent from the table and no other entry is changed.  Until
the copy has ended the handler has not returned.  When the pipe ID is not in
the table the handler responds 404 and leaves the table unchanged. -/
theorem ReadPipe_deletes_served_pipe (GetPipe : String → Except Error DB.Pipe)
    (forwardRequest : String → String → Option Error)
    (s : pipes.Server) (pipeID : String) (dbPipe : DB.Pipe)
    (hget : GetPipe pipeID = .ok dbPipe) (hurl : dbPipe.URL = s.url) :
    (∀ p, s.pipes pipeID = some p →
      (∀ pre post, (∀ e ∈ pre, e = PipeEvent.closed) →
        ∃ run, s.ReadPipe GetPipe forwardRequest pipeID (pre ++ PipeEvent.copied :: post) =
            .returned run ∧
          run.pipes pipeID = none ∧
          (∀ id, id ≠ pipeID → run.pipes id = s.pipes id) ∧
          run.headers = [StatusOK] ∧ run.writeCloses = pre.length) ∧
      (∀ events, (∀ e ∈ events, e = PipeEvent.closed) →
        s.ReadPipe GetPipe forwardRequest pipeID events = .waiting)) ∧
    (s.pipes pipeID = none →
      ∀ events, ∃ run, s.ReadPipe GetPipe forwardRequest pipeID events = .returned run ∧
        run.headers = [StatusNotFound] ∧ run.pipes = s.pipes) := by
  refine ⟨?_, ?_⟩
  · intro p hp
    refine ⟨?_, ?_⟩
    · intro pre post hpre
      unfold pipes.Server.ReadPipe
      simp only [hget, hurl, if_true, hp, ReadPipe.dance_copied pre post hpre 0]
      refine ⟨_, rfl, ?_, ?_, rfl, by simp⟩
      · simp [PipeTable.delete]
      · intro id hid
        simp [PipeTable.delete, hid]
    · intro events hev
      unfold pipes.Server.ReadPipe
      simp only [hget, hurl, if_true, hp, ReadPipe.dance_waiting events hev 0]
  · intro hp events
    unfold pipes.Server.ReadPipe
    simp only [hget, hurl, if_true, hp]
    exact ⟨_, rfl, rfl, rfl⟩

/-- A node for C21 that hosts the pipes `a` and `b`: the client of `a`
disconnects, the handler closes the write end, the copy ends and the handler
returns; `a` is gone from the table and `b` is still there. -/
theorem ReadPipe_deletes_served_pipe_witness :
    ∃ run, (⟨"http://node-1", fun id => if id = "a" then some ⟨1⟩ else
          if id = "b" then some ⟨2⟩ else none⟩ : pipes.Server).ReadPipe
          (fun id => .ok ⟨id, "http://node-1"⟩) (fun _ _ => none) "a"
          ([PipeEvent.closed] ++ PipeEvent.copied :: []) = .returned run ∧
      run.pipes "a" = none ∧
      (∀ id, id ≠ "a" → run.pipes id =
        (⟨"http://node-1", fun id => if id = "a" then some ⟨1⟩ else
          if id = "b" then some ⟨2⟩ else none⟩ : pipes.Server).pipes id) ∧
      run.headers = [StatusOK] ∧ run.writeCloses = [PipeEvent.closed].length :=
  ((ReadPipe_deletes_served_pipe (fun id => .ok ⟨id, "http://node-1"⟩) (fun _ _ => none)
    ⟨"http://node-1", fun id => if id = "a" then some ⟨1⟩ else
      if id = "b" then some ⟨2⟩ else none⟩ "a" ⟨"a", "http://node-1"⟩ rfl rfl).1
    ⟨1⟩ (by decide)).1 [PipeEvent.closed] [] (by decide)



/-! ## The locations of a `PutGet` -/

/-- C24: for every `PutGet` plan compiled at location `L` whose head carries a
`Put` (and whose `rest` has only such `PutGet`s): `rest` is compiled from `L`
with ID `L.ID + 2` and `L`'s parent ID and parallel group; the `Put` step uses
location `L` (its worker identifier has type `put` and `StepLocation` `L.ID`);
the dependent `Get` uses ID `L.ID + 1`, parent ID `L.ID` and parallel group 0
(its worker identifier has type `get` and `StepLocation` `L.ID + 1`); and the
returned increment is 2 plus the increment of `rest`. -/
theorem putGet_step_locations (buildID : Int) (head rest : Plan) (putPlan : PutPlan)
    (p : Option PutPlan) (location : OriginLocation) (hook : String)
    (hput : head.Put = some putPlan) (hrest : rest.putGetHeadsHavePut = true) :
    ∃ (restStep : StepFactory) (restIncrement : Nat) (putID getID : Identifier)
      (putDelegate : OutputDelegate) (getDelegate : InputDelegate)
      (putConfig getConfig : ResourceConfig) (putTags getTags : Tags)
      (putParams getParams : Params) (getName : String),
      buildStepFactory buildID rest
        ⟨location.ParentID, location.ID + 2, location.ParallelGroup⟩ "" =
          some (restStep, restIncrement) ∧
      buildStepFactory buildID
          (.mk none none none none none none none none p (some ⟨head, rest⟩)) location hook =
        some (StepFactory.HookedCompose
          (StepFactory.Put putID putDelegate putConfig putTags putParams)
          restStep
          StepFactory.Identity
          (StepFactory.DependentGet getName getID getDelegate getConfig getTags getParams)
          StepFactory.Identity, 2 + restIncrement) ∧
      putDelegate.location = location ∧ putDelegate.hook = hook ∧
      putID.Type_ = "put" ∧ putID.StepLocation = location.ID ∧ putID.BuildID = buildID ∧
      getDelegate.location = ⟨location.ID, location.ID + 1, 0⟩ ∧
      getID.Type_ = "get" ∧ getID.StepLocation = location.ID + 1 ∧ getID.BuildID = buildID := by
  obtain ⟨restStep, restIncrement, hb, -, -⟩ :=
    buildStepFactory_ids buildID rest hrest
      ⟨location.ParentID, location.ID + 2, location.ParallelGroup⟩ ""
  have heq := buildStepFactory_PutGet buildID head rest putPlan p location hook hput
  have hloc : location.Incr 2 = ⟨location.ParentID, location.ID + 2, location.ParallelGroup⟩ :=
    rfl
  rw [hloc, hb] at heq
  simp only [Option.some_bind] at heq
  exact ⟨restStep, restIncrement, _, _, _, _, _, _, _, _, _, _, _, hb, heq, rfl, rfl, rfl, rfl,
    rfl, rfl, rfl, rfl, rfl⟩

/-- A `PutGet` for C24, compiled at location (parent 3, ID 4, group 9) with a
get as `rest`. -/
theorem putGet_step_locations_witness :
    ∃ (restStep : StepFactory) (restIncrement : Nat) (putID getID : Identifier)
      (putDelegate : OutputDelegate) (getDelegate : InputDelegate)
      (putConfig getConfig : ResourceConfig) (putTags getTags : Tags)
      (putParams getParams : Params) (getName : String),
      buildStepFactory 7 (Plan.ofGet ⟨"git", "a", "a", "p", [], [], [], []⟩)
        ⟨(⟨3, 4, 9⟩ : OriginLocation).ParentID, (⟨3, 4, 9⟩ : OriginLocation).ID + 2,
          (⟨3, 4, 9⟩ : OriginLocation).ParallelGroup⟩ "" =
          some (restStep, restIncrement) ∧
      buildStepFactory 7
          (.mk none none none none none none none none none
            (some ⟨Plan.ofPut ⟨"git", "o", "o", "p", [], [], [], []⟩,
              Plan.ofGet ⟨"git", "a", "a", "p", [], [], [], []⟩⟩)) ⟨3, 4, 9⟩ "success" =
        some (StepFactory.HookedCompose
          (StepFactory.Put putID putDelegate putConfig putTags putParams)
          restStep
          StepFactory.Identity
          (StepFactory.DependentGet getName getID getDelegate getConfig getTags getParams)
          StepFactory.Identity, 2 + restIncrement) ∧
      putDelegate.location = ⟨3, 4, 9⟩ ∧ putDelegate.hook = "success" ∧
      putID.Type_ = "put" ∧ putID.StepLocation = (⟨3, 4, 9⟩ : OriginLocation).ID ∧
      putID.BuildID = 7 ∧
      getDelegate.location = ⟨(⟨3, 4, 9⟩ : OriginLocation).ID,
        (⟨3, 4, 9⟩ : OriginLocation).ID + 1, 0⟩ ∧
      getID.Type_ = "get" ∧ getID.StepLocation = (⟨3, 4, 9⟩ : OriginLocation).ID + 1 ∧
      getID.BuildID = 7 :=
  putGet_step_locations 7 (Plan.ofPut ⟨"git", "o", "o", "p", [], [], [], []⟩)
    (Plan.ofGet ⟨"git", "a", "a", "p", [], [], [], []⟩) ⟨"git", "o", "o", "p", [], [], [], []⟩
    none ⟨3, 4, 9⟩ "success" rfl (by decide)

/-! ## The config source of a task -/

/-- C26: compiling a `Task` chooses the config source by case: with an inline
config and a config path, the merged source with the file at the path as `A`
and the inline config as `B`; with only an inline config, the static source;
with only a path, the file source; each of these gives one task step at the
location and consumes one origin ID.  With neither, the plan compiles to the
identity step and consumes no origin ID. -/
theorem task_config_source_by_case (buildID : Int) (task : TaskPlan)
    (g : Option GetPlan) (p : Option PutPlan) (pg : Option PutGetPlan)
    (location : OriginLocation) (hook : String) :
    (∀ config, task.Config = some config → task.ConfigPath ≠ "" →
      buildStepFactory buildID (.mk none none none none none none (some task) g p pg)
          location hook =
        some (StepFactory.Task task.Name (taskIdentifier buildID task.Name location)
          ⟨task, location, hook⟩ task.Privileged task.Tags
          (.MergedConfigSource (.FileConfigSource task.ConfigPath)
            (.StaticConfigSource config)), 1)) ∧
    (∀ config, task.Config = some config → task.ConfigPath = "" →
      buildStepFactory buildID (.mk none none none none none none (some task) g p pg)
          location hook =
        some (StepFactory.Task task.Name (taskIdentifier buildID task.Name location)
          ⟨task, location, hook⟩ task.Privileged task.Tags (.StaticConfigSource config), 1)) ∧
    (task.Config = none → task.ConfigPath ≠ "" →
      buildStepFactory buildID (.mk none none none none none none (some task) g p pg)
          location hook =
        some (StepFactory.Task task.Name (taskIdentifier buildID task.Name location)
          ⟨task, location, hook⟩ task.Privileged task.Tags
          (.FileConfigSource task.ConfigPath), 1)) ∧
    (task.Config = none → task.ConfigPath = "" →
      buildStepFactory buildID (.mk none none none none none none (some task) g p pg)
          location hook = some (StepFactory.Identity, 0)) := by
  refine ⟨?_, ?_, ?_, ?_⟩
  · intro config hc hp
    rw [buildStepFactory]
    simp [hc, hp, SingleIncrement]
  · intro config hc hp
    rw [buildStepFactory]
    simp [hc, hp, SingleIncrement]
  · intro hc hp
    rw [buildStepFactory]
    simp [hc, hp, SingleIncrement]
  · intro hc hp
    rw [buildStepFactory]
    simp [hc, hp, NoIncrement]

/-- A task for C26 with an inline config and a config path. -/
theorem task_config_source_by_case_witness :
    buildStepFactory 7
        (.mk none none none none none none
          (some ⟨"unit", false, [], "ci/unit.yml", some ⟨"ubuntu", [], "make", ["test"]⟩⟩)
          none none none) ⟨0, 1, 0⟩ "" =
      some (StepFactory.Task "unit" (taskIdentifier 7 "unit" ⟨0, 1, 0⟩)
        ⟨⟨"unit", false, [], "ci/unit.yml", some ⟨"ubuntu", [], "make", ["test"]⟩⟩,
          ⟨0, 1, 0⟩, ""⟩ false []
        (.MergedConfigSource (.FileConfigSource "ci/unit.yml")
          (.StaticConfigSource ⟨"ubuntu", [], "make", ["test"]⟩)), 1) :=
  (task_config_source_by_case 7
    ⟨"unit", false, [], "ci/unit.yml", some ⟨"ubuntu", [], "make", ["test"]⟩⟩
    none none none ⟨0, 1, 0⟩ "").1 ⟨"ubuntu", [], "make", ["test"]⟩ rfl (by decide)


/-! ## Compilation is total; one kind per node -/

/-- C28: `buildStepFactory` returns a step factory and an increment for every
plan in which every `PutGet` head carries a `Put`, from every location and
hook (it is defined by recursion on the sub-plans, so it terminates on every
plan).  Whatever else is set on a node, the first kind set in the order
Aggregate, Try, Timeout, HookedCompose, Compose, Conditional, Task, Get,
PutGet is the one compiled: a node with `Aggregate` set compiles to the
`exec.Aggregate` of its members; with `Aggregate` unset and `Try` set, to the
`exec.Try` of its step; and so on down to `PutGet`, which compiles to the
hooked composition of the `Put`, its dependent `Get` and `rest` (and panics on
a head without `Put`); the sub-plans are compiled by `buildStepFactory` itself
and a failure of theirs is passed on.  A node with none of these set, also
when it carries a `Put`, compiles to the identity step with increment 0. -/
theorem buildStepFactory_total_one_kind (buildID : Int) (location : OriginLocation)
    (hook : String) :
    (∀ plan : Plan, plan.putGetHeadsHavePut = true →
      ∃ (sf : StepFactory) (n : Nat), buildStepFactory buildID plan location hook = some (sf, n)) ∧
    (∀ (a : List Plan) (t : Option TryPlan) (ti : Option TimeoutPlan)
      (h : Option HookedComposePlan) (c : Option ComposePlan) (co : Option ConditionalPlan)
      (ta : Option TaskPlan) (g : Option GetPlan) (p : Option PutPlan) (pg : Option PutGetPlan),
      buildStepFactory buildID (.mk (some a) t ti h c co ta g p pg) location hook =
        (buildAggregateSteps buildID a
          ⟨if location.ParallelGroup ≠ 0 then location.ParallelGroup else location.ParentID,
            location.ID, location.ID⟩ hook 1 []).bind
          fun r => some (StepFactory.Aggregate r.1, r.2)) ∧
    (∀ (step : Plan) (ti : Option TimeoutPlan)
      (h : Option HookedComposePlan) (c : Option ComposePlan) (co : Option ConditionalPlan)
      (ta : Option TaskPlan) (g : Option GetPlan) (p : Option PutPlan) (pg : Option PutGetPlan),
      buildStepFactory buildID (.mk none (some ⟨step⟩) ti h c co ta g p pg) location hook =
        (buildStepFactory buildID step location "").bind
          fun r => some (StepFactory.Try r.1, r.2)) ∧
    (∀ (step : Plan) (duration : Duration)
      (h : Option HookedComposePlan) (c : Option ComposePlan) (co : Option ConditionalPlan)
      (ta : Option TaskPlan) (g : Option GetPlan) (p : Option PutPlan) (pg : Option PutGetPlan),
      buildStepFactory buildID (.mk none none (some ⟨step, duration⟩) h c co ta g p pg)
          location hook =
        (buildStepFactory buildID step location "").bind
          fun r => some (StepFactory.Timeout r.1 duration, r.2)) ∧
    (∀ (step onFailure onSuccess onCompletion next : Plan) (c : Option ComposePlan)
      (co : Option ConditionalPlan) (ta : Option TaskPlan) (g : Option GetPlan)
      (p : Option PutPlan) (pg : Option PutGetPlan),
      buildStepFactory buildID
          (.mk none none none (some ⟨step, onFailure, onSuccess, onCompletion, next⟩)
            c co ta g p pg) location hook =
        (buildStepFactory buildID step location hook).bind fun s =>
        (buildStepFactory buildID onFailure
          ⟨location.ID, location.ID + s.2, 0⟩ "failure").bind fun f =>
        (buildStepFactory buildID onSuccess
          ⟨location.ID, location.ID + (s.2 + f.2), 0⟩ "success").bind fun su =>
        (buildStepFactory buildID onCompletion
          ⟨location.ID, location.ID + (s.2 + su.2 + f.2), 0⟩ "ensure").bind fun e =>
        (buildStepFactory buildID next
          ⟨location.ParentID, location.ID + (s.2 + su.2 + f.2 + e.2), 0⟩ hook).bind fun n =>
        some (StepFactory.HookedCompose s.1 n.1 f.1 su.1 e.1,
          s.2 + n.2 + e.2 + f.2 + su.2)) ∧
    (∀ (a b : Plan) (co : Option ConditionalPlan)
      (ta : Option TaskPlan) (g : Option GetPlan) (p : Option PutPlan) (pg : Option PutGetPlan),
      buildStepFactory buildID (.mk none none none none (some ⟨a, b⟩) co ta g p pg)
          location hook =
        (buildStepFactory buildID a location "").bind fun x =>
        (buildStepFactory buildID b ⟨location.ParentID, location.ID + x.2,
          location.ParallelGroup⟩ "").bind fun y =>
        some (StepFactory.Compose x.1 y.1, x.2 + y.2)) ∧
    (∀ (conditions : Conditions) (plan : Plan)
      (ta : Option TaskPlan) (g : Option GetPlan) (p : Option PutPlan) (pg : Option PutGetPlan),
      buildStepFactory buildID (.mk none none none none none (some ⟨conditions, plan⟩) ta g p pg)
          location hook =
        (buildStepFactory buildID plan location "").bind
          fun r => some (StepFactory.Conditional conditions r.1, r.2)) ∧
    (∀ (ta : TaskPlan) (g : Option GetPlan) (p : Option PutPlan) (pg : Option PutGetPlan),
      ((ta.Config.isSome || ta.ConfigPath ≠ "") = true →
        ∃ configSource,
          buildStepFactory buildID (.mk none none none none none none (some ta) g p pg)
              location hook =
            some (StepFactory.Task ta.Name (taskIdentifier buildID ta.Name location)
              ⟨ta, location, hook⟩ ta.Privileged ta.Tags configSource, 1)) ∧
      ((ta.Config.isSome || ta.ConfigPath ≠ "") = false →
        buildStepFactory buildID (.mk none none none none none none (some ta) g p pg)
          location hook = some (StepFactory.Identity, 0))) ∧
    (∀ (g : GetPlan) (p : Option PutPlan) (pg : Option PutGetPlan),
      buildStepFactory buildID (.mk none none none none none none none (some g) p pg)
          location hook =
        some (StepFactory.Get g.Name (getIdentifier buildID g.Name location)
          ⟨g, location, hook⟩ ⟨g.Resource, g.Type_, g.Source⟩ g.Params g.Tags g.Version, 1)) ∧
    (∀ (p : Option PutPlan) (head rest : Plan),
      (∀ putPlan, head.Put = some putPlan →
        buildStepFactory buildID
            (.mk none none none none none none none none p (some ⟨head, rest⟩)) location hook =
          (buildStepFactory buildID rest
            ⟨location.ParentID, location.ID + 2, location.ParallelGroup⟩ "").bind fun r =>
          some (StepFactory.HookedCompose
            (StepFactory.Put (putIdentifier buildID putPlan.Resource location)
              ⟨putPlan, location, hook⟩ ⟨putPlan.Resource, putPlan.Type_, putPlan.Source⟩
              putPlan.Tags putPlan.Params)
            r.1
            StepFactory.Identity
            (StepFactory.DependentGet putPlan.GetPlan.Name
              (getIdentifier buildID putPlan.GetPlan.Name ⟨location.ID, location.ID + 1, 0⟩)
              ⟨putPlan.GetPlan, ⟨location.ID, location.ID + 1, 0⟩, ""⟩
              ⟨putPlan.GetPlan.Resource, putPlan.GetPlan.Type_, putPlan.GetPlan.Source⟩
              putPlan.GetPlan.Tags putPlan.GetPlan.Params)
            StepFactory.Identity, 2 + r.2)) ∧
      (head.Put = none →
        buildStepFactory buildID
          (.mk none none none none none none none none p (some ⟨head, rest⟩)) location hook =
          none)) ∧
    (∀ p : Option PutPlan,
      buildStepFactory buildID (.mk none none none none none none none none p none)
        location hook = some (StepFactory.Identity, 0)) := by
  refine ⟨?_, ?_, ?_, ?_, ?_, ?_, ?_, ?_, ?_, ?_, ?_⟩
  · intro plan hwf
    obtain ⟨sf, n, hb, -, -⟩ := buildStepFactory_ids buildID plan hwf location hook
    exact ⟨sf, n, hb⟩
  · intro a t ti h c co ta g p pg
    exact buildStepFactory_Aggregate buildID a t ti h c co ta g p pg location hook
  · intro step ti h c co ta g p pg
    exact buildStepFactory_Try buildID step ti h c co ta g p pg location hook
  · intro step duration h c co ta g p pg
    exact buildStepFactory_Timeout buildID step duration h c co ta g p pg location hook
  · intro step onFailure onSuccess onCompletion next c co ta g p pg
    exact buildStepFactory_HookedCompose buildID step onFailure onSuccess onCompletion next
      c co ta g p pg location hook
  · intro a b co ta g p pg
    exact buildStepFactory_Compose buildID a b co ta g p pg location hook
  · intro conditions plan ta g p pg
    exact buildStepFactory_Conditional buildID conditions plan ta g p pg location hook
  · intro ta g p pg
    exact ⟨buildStepFactory_Task buildID ta g p pg location hook,
      buildStepFactory_Task_unconfigured buildID ta g p pg location hook⟩
  · intro g p pg
    exact buildStepFactory_Get buildID g p pg location hook
  · intro p head rest
    exact ⟨fun putPlan hput => buildStepFactory_PutGet buildID head rest putPlan p location hook
      hput, buildStepFactory_PutGet_nil buildID head rest p location hook⟩
  · intro p
    exact buildStepFactory_none buildID p location hook

/-- A node for C28 with `Try`, `Get` and `PutGet` set (the head of the `PutGet`
carrying no `Put`): the `Try` is compiled, around the get of its step. -/
theorem buildStepFactory_total_one_kind_witness :
    buildStepFactory 7
        (.mk none (some ⟨Plan.ofGet ⟨"git", "a", "a", "p", [], [], [], []⟩⟩) none none none none
          none (some ⟨"git", "b", "b", "p", [], [], [], []⟩) none
          (some ⟨Plan.empty, Plan.empty⟩)) ⟨0, 1, 0⟩ "success" =
      some (StepFactory.Try
        (StepFactory.Get "a" ⟨7, "get", "a", 1⟩
          ⟨⟨"git", "a", "a", "p", [], [], [], []⟩, ⟨0, 1, 0⟩, ""⟩ ⟨"a", "git", []⟩ [] [] []), 1) :=
  ((buildStepFactory_total_one_kind 7 ⟨0, 1, 0⟩ "success").2.2.1
    (Plan.ofGet ⟨"git", "a", "a", "p", [], [], [], []⟩) none none none none none
    (some ⟨"git", "b", "b", "p", [], [], [], []⟩) none (some ⟨Plan.empty, Plan.empty⟩)).trans
    (by rfl)

/-! ## `Resume` finishes once -/

/-- Before the exit is taken the loop of `Resume` takes from the channel what
the channel gives: the signals taken are passed to the process in order, and
`aborted` is set when one of them is a `Kill`. -/
theorem Resume.loop_channelTrace (msg : Error) (Result : Success → Bool × Success)
    (pre : List Event) (hpre : ∀ ev ∈ pre, ev.isExited = false) :
    ∀ (signals : List Signal) (aborted : Bool) (signalled : List Signal) (rest : List Event),
    Resume.loop msg Result (pre ++ rest) signals aborted signalled =
      Resume.loop msg Result rest (channelTrace pre signals).2
        (aborted || decide (Signal.Kill ∈ (channelTrace pre signals).1))
        (signalled ++ (channelTrace pre signals).1) := by
  induction pre with
  | nil =>
    intro signals aborted signalled rest
    simp [channelTrace]
  | cons ev pre ih =>
    have hpre1 : ∀ ev ∈ pre, ev.isExited = false := fun e he => hpre e (List.mem_cons_of_mem _ he)
    have hev : ev.isExited = false := hpre ev (List.mem_cons_self _ _)
    intro signals aborted signalled rest
    cases ev with
    | exited err => simp [Event.isExited] at hev
    | signal =>
      cases signals with
      | nil =>
        have h := ih hpre1 [] aborted signalled rest
        simpa [Resume.loop, channelTrace] using h
      | cons sig signals =>
        have h := ih hpre1 signals (if sig = Signal.Kill then true else aborted)
          (signalled ++ [sig]) rest
        by_cases hs : sig = Signal.Kill
        · subst hs
          simpa [Resume.loop, channelTrace] using h
        · have hs1 : ¬ Signal.Kill = sig := fun h => hs h.symm
          simpa [Resume.loop, channelTrace, hs, hs1] using h
    | abort =>
      by_cases hlen : signals.length < signalsCapacity
      · have h := ih hpre1 (signals ++ [Signal.Kill]) aborted signalled rest
        simpa [Resume.loop, channelTrace, hlen] using h
      · have h := ih hpre1 signals aborted signalled rest
        simpa [Resume.loop, channelTrace, hlen] using h

/-- C27: every run of `Resume` (on a plan that compiles) in which the `select`
takes the exit of the step process returns there, after the one call of the
delegate's `Finish` (the events after the exit are not looked at).  It passes
the exit error unchanged, and `aborted = true` if and only if a `Kill` is among
the signals the channel `build.signals` gave up before the exit was taken (the
signals waiting in it when `Resume` started and the `Kill`s sent by `Abort`
meanwhile, as far as the `select` took them).  Every signal taken from the
channel, `Kill` or not, is passed to the step process, in the order taken, and
the channel keeps the rest.  A run that has not taken an exit has not
returned. -/
theorem Resume_finishes_once (msg : Error) (Result : Success → Bool × Success)
    (build : execBuild)
    (hplan : (buildStepFactory build.buildID build.metadata.Plan ⟨0, 1, 0⟩ "").isSome = true) :
    (∀ (pre post : List Event) (err : Option Error), (∀ ev ∈ pre, ev.isExited = false) →
      ∃ run : ResumeRun,
        build.Resume msg Result (pre ++ Event.exited err :: post) = .returned run ∧
        build.Resume msg Result (pre ++ [Event.exited err]) = .returned run ∧
        run.signalled = (channelTrace pre build.signals).1 ∧
        run.signals = (channelTrace pre build.signals).2 ∧
        run.finish.err = err ∧
        (run.finish.aborted = true ↔ Signal.Kill ∈ (channelTrace pre build.signals).1) ∧
        run.released = true) ∧
    (∀ events : List Event, (∀ ev ∈ events, ev.isExited = false) →
      build.Resume msg Result events = .waiting) := by
  obtain ⟨r, hr⟩ := Option.isSome_iff_exists.1 hplan
  refine ⟨?_, ?_⟩
  · intro pre post err hpre
    have h1 := Resume.loop_channelTrace msg Result pre hpre build.signals false []
      (Event.exited err :: post)
    have h2 := Resume.loop_channelTrace msg Result pre hpre build.signals false []
      [Event.exited err]
    rw [Resume.loop_exited] at h1 h2
    cases hl : Resume.loop msg Result (pre ++ Event.exited err :: post) build.signals false []
      with
    | none =>
      rw [hl] at h1
      simp at h1
    | some run =>
      rw [hl] at h1
      have hrun := Option.some.inj h1
      refine ⟨run, ?_, ?_, ?_, ?_, ?_, ?_, ?_⟩
      · unfold execBuild.Resume
        rw [hr, hl]
      · unfold execBuild.Resume
        rw [hr, h2, ← hrun]
      · rw [hrun]
        simp
      · rw [hrun]
      · rw [hrun]
      · rw [hrun]
        simp
      · rw [hrun]
  · intro events hev
    have hnone : Resume.loop msg Result events build.signals false [] = none := by
      cases hl : Resume.loop msg Result events build.signals false [] with
      | none => rfl
      | some run =>
        obtain ⟨pre, err, post, he, -⟩ := Resume.loop_split msg Result events _ _ _ _ hl
        have := hev (Event.exited err) (by rw [he]; simp)
        simp [Event.isExited] at this
    unfold execBuild.Resume
    rw [hr, hnone]

/-- A run for C27: an interrupt waits in the channel; it is taken, `Abort` is
called and its `Kill` is taken, `Abort` is called once more, and the step
exits with an error.  The interrupt and the first `Kill` were passed to the
step in this order, the second `Kill` is still in the channel, and `Finish`
gets the error and `aborted = true`. -/
theorem Resume_finishes_once_witness :
    ∃ run : ResumeRun,
      (⟨7, 7, [Signal.Interrupt], ⟨Plan.empty⟩⟩ : execBuild).Resume "step timed out"
          (fun _ => (true, true))
          ([Event.signal, Event.abort, Event.signal, Event.abort] ++
            Event.exited (some "boom") :: []) = .returned run ∧
      run.signalled = [Signal.Interrupt, Signal.Kill] ∧
      run.signals = [Signal.Kill] ∧
      run.finish.err = some "boom" ∧
      run.finish.aborted = true :=
  match (Resume_finishes_once "step timed out" (fun _ => (true, true))
      ⟨7, 7, [Signal.Interrupt], ⟨Plan.empty⟩⟩ rfl).1
      [Event.signal, Event.abort, Event.signal, Event.abort] [] (some "boom") (by decide) with
  | ⟨run, h1, _, h3, h4, h5, h6, _⟩ => ⟨run, h1, h3, h4, h5, h6.2 (by decide)⟩

/-! ## Nested aggregates -/

/-- The loop over the members of an aggregate compiles the `i`-th member from
the loop's location advanced by the start increment plus the increments of the
members before it. -/
theorem buildAggregateSteps_offsets (buildID : Int) (innerPlans : List Plan)
    (location : OriginLocation) (hook : String) :
    ∀ (aID : Nat) (step result : List StepFactory) (n : Nat),
    buildAggregateSteps buildID innerPlans location hook aID step = some (result, n) →
    ∃ (steps : List StepFactory) (increments : List Nat),
      result = step ++ steps ∧ n = aID + increments.sum ∧
      steps.length = innerPlans.length ∧ increments.length = innerPlans.length ∧
      ∀ (i : Nat) (innerPlan : Plan), innerPlans[i]? = some innerPlan →
        ∃ (sf : StepFactory) (m : Nat), steps[i]? = some sf ∧ increments[i]? = some m ∧
          buildStepFactory buildID innerPlan
            ⟨location.ParentID, location.ID + aID + (increments.take i).sum,
              location.ParallelGroup⟩
            (if innerPlan.Aggregate.isNone then hook else "") = some (sf, m) := by
  induction innerPlans with
  | nil =>
    intro aID step result n hb
    rw [buildAggregateSteps] at hb
    obtain ⟨h1, h2⟩ := Prod.mk.inj (Option.some.inj hb)
    exact ⟨[], [], by rw [← h1]; simp, by rw [← h2]; simp, rfl, rfl, by simp⟩
  | cons innerPlan innerPlans ih =>
    intro aID step result n hb
    rw [buildAggregateSteps_cons] at hb
    obtain ⟨r, hr, hrest⟩ := Option.bind_eq_some.1 hb
    obtain ⟨steps, increments, hres, hn, hlen1, hlen2, hall⟩ :=
      ih (aID + r.2) (step ++ [r.1]) result n hrest
    refine ⟨r.1 :: steps, r.2 :: increments, by rw [hres]; simp, ?_, by simp [hlen1],
      by simp [hlen2], ?_⟩
    · rw [hn, List.sum_cons]
      omega
    · intro i member hi
      cases i with
      | zero =>
        simp only [List.getElem?_cons_zero, Option.some.injEq] at hi
        subst hi
        refine ⟨r.1, r.2, by simp, by simp, ?_⟩
        simpa [OriginLocation.Incr] using hr
      | succ i =>
        simp only [List.getElem?_cons_succ] at hi
        obtain ⟨sf, m, h1, h2, h3⟩ := hall i member hi
        refine ⟨sf, m, by simpa using h1, by simpa using h2, ?_⟩
        have harith : location.ID + (aID + r.2) + (List.take i increments).sum =
            location.ID + aID + (List.take (i + 1) (r.2 :: increments)).sum := by
          simp only [List.take_succ_cons, List.sum_cons]
          omega
        rw [← harith]
        exact h3

/-- C25: when an `Aggregate` plan (with only `PutGet`s whose head carries a
`Put` among its members) is compiled from a location `L` whose parallel group
`g` is non-zero, its members are compiled with parent ID `g` and with the
aggregate's own ID `L.ID` as parallel group; when `g = 0` they keep the parent
ID of `L`.  In both cases the `i`-th member is compiled from ID `L.ID + 1 +`
(the sum of the increments of the members before it), and the increment of the
aggregate is 1 plus the increments of its members. -/
theorem nested_aggregate_member_locations (buildID : Int) (innerPlans : List Plan)
    (t : Option TryPlan) (ti : Option TimeoutPlan) (h : Option HookedComposePlan)
    (c : Option ComposePlan) (co : Option ConditionalPlan) (ta : Option TaskPlan)
    (g : Option GetPlan) (p : Option PutPlan) (pg : Option PutGetPlan)
    (location : OriginLocation) (hook : String)
    (hwf : Plan.allPutGetHeadsHavePut innerPlans = true) :
    ∃ (steps : List StepFactory) (increments : List Nat),
      buildStepFactory buildID (.mk (some innerPlans) t ti h c co ta g p pg) location hook =
        some (StepFactory.Aggregate steps, 1 + increments.sum) ∧
      steps.length = innerPlans.length ∧ increments.length = innerPlans.length ∧
      ∀ (i : Nat) (innerPlan : Plan), innerPlans[i]? = some innerPlan →
        ∃ (sf : StepFactory) (m : Nat), steps[i]? = some sf ∧ increments[i]? = some m ∧
          buildStepFactory buildID innerPlan
            ⟨if location.ParallelGroup ≠ 0 then location.ParallelGroup else location.ParentID,
              location.ID + 1 + (increments.take i).sum, location.ID⟩
            (if innerPlan.Aggregate.isNone then hook else "") = some (sf, m) := by
  have hwf1 : (Plan.mk (some innerPlans) none none none none none none none none
      none).putGetHeadsHavePut = true := by
    simp [Plan.putGetHeadsHavePut, Plan.aggregateHeadsHavePut, Plan.tryHeadsHavePut,
      Plan.timeoutHeadsHavePut, Plan.hookedHeadsHavePut, Plan.composeHeadsHavePut,
      Plan.conditionalHeadsHavePut, Plan.putGetHeadHasPut, hwf]
  obtain ⟨sf, n, hb, -, -⟩ := buildStepFactory_ids buildID _ hwf1 location hook
  rw [buildStepFactory_Aggregate] at hb
  obtain ⟨r, hr, hsf⟩ := Option.bind_eq_some.1 hb
  obtain ⟨steps, increments, hres, hn, hlen1, hlen2, hall⟩ :=
    buildAggregateSteps_offsets buildID innerPlans (aggregateLocation location) hook 1 [] r.1 r.2
      hr
  refine ⟨steps, increments, ?_, hlen1, hlen2, ?_⟩
  · rw [buildStepFactory_Aggregate, hr]
    simp only [Option.some_bind]
    rw [hres, hn]
    rfl
  · intro i innerPlan hi
    exact hall i innerPlan hi

/-- An aggregate for C25, compiled as a member of parallel group 9 at ID 4: a
get, a put with its dependent get, and a get; the third member starts at ID
4 + 1 + (1 + 2). -/
theorem nested_aggregate_member_locations_witness :
    ∃ (steps : List StepFactory) (increments : List Nat),
      buildStepFactory 7
          (.mk (some [Plan.ofGet ⟨"git", "a", "a", "p", [], [], [], []⟩,
            Plan.ofPutGet (Plan.ofPut ⟨"git", "o", "o", "p", [], [], [], []⟩) Plan.empty,
            Plan.ofGet ⟨"git", "b", "b", "p", [], [], [], []⟩])
            none none none none none none none none none) ⟨3, 4, 9⟩ "" =
        some (StepFactory.Aggregate steps, 1 + increments.sum) ∧
      steps.length = [Plan.ofGet ⟨"git", "a", "a", "p", [], [], [], []⟩,
            Plan.ofPutGet (Plan.ofPut ⟨"git", "o", "o", "p", [], [], [], []⟩) Plan.empty,
            Plan.ofGet ⟨"git", "b", "b", "p", [], [], [], []⟩].length ∧
      increments.length = [Plan.ofGet ⟨"git", "a", "a", "p", [], [], [], []⟩,
            Plan.ofPutGet (Plan.ofPut ⟨"git", "o", "o", "p", [], [], [], []⟩) Plan.empty,
            Plan.ofGet ⟨"git", "b", "b", "p", [], [], [], []⟩].length ∧
      ∀ (i : Nat) (innerPlan : Plan),
        [Plan.ofGet ⟨"git", "a", "a", "p", [], [], [], []⟩,
            Plan.ofPutGet (Plan.ofPut ⟨"git", "o", "o", "p", [], [], [], []⟩) Plan.empty,
            Plan.ofGet ⟨"git", "b", "b", "p", [], [], [], []⟩][i]? = some innerPlan →
        ∃ (sf : StepFactory) (m : Nat), steps[i]? = some sf ∧ increments[i]? = some m ∧
          buildStepFactory 7 innerPlan
            ⟨if (⟨3, 4, 9⟩ : OriginLocation).ParallelGroup ≠ 0 then
                (⟨3, 4, 9⟩ : OriginLocation).ParallelGroup
              else (⟨3, 4, 9⟩ : OriginLocation).ParentID,
              (⟨3, 4, 9⟩ : OriginLocation).ID + 1 + (increments.take i).sum,
              (⟨3, 4, 9⟩ : OriginLocation).ID⟩
            (if innerPlan.Aggregate.isNone then "" else "") = some (sf, m) :=
  nested_aggregate_member_locations 7 _ none none none none none none none none none
    ⟨3, 4, 9⟩ "" (by decide)



/-! ## The origin count and the IDs along the traversal -/

theorem origins_Aggregate (buildID : Int) (innerPlans : List Plan)
    (t : Option TryPlan) (ti : Option TimeoutPlan) (h : Option HookedComposePlan)
    (c : Option ComposePlan) (co : Option ConditionalPlan) (ta : Option TaskPlan)
    (g : Option GetPlan) (p : Option PutPlan) (pg : Option PutGetPlan)
    (location : OriginLocation) (hook : String) :
    origins buildID (.mk (some innerPlans) t ti h c co ta g p pg) location hook =
      ⟨location.ID, true⟩ ::
        originsOfSteps buildID innerPlans (aggregateLocation location) hook 1 := by
  rw [origins]
  by_cases hpg : location.ParallelGroup = 0 <;> simp [aggregateLocation, hpg]

theorem origins_HookedCompose (buildID : Int)
    (step onFailure onSuccess onCompletion next : Plan)
    (c : Option ComposePlan) (co : Option ConditionalPlan) (ta : Option TaskPlan)
    (g : Option GetPlan) (p : Option PutPlan) (pg : Option PutGetPlan)
    (location : OriginLocation) (hook : String) (s f su e : Nat)
    (hs : incrementOf (buildStepFactory buildID step location hook) = s)
    (hf : incrementOf (buildStepFactory buildID onFailure
      ⟨location.ID, location.ID + s, 0⟩ "failure") = f)
    (hsu : incrementOf (buildStepFactory buildID onSuccess
      ⟨location.ID, location.ID + (s + f), 0⟩ "success") = su)
    (he : incrementOf (buildStepFactory buildID onCompletion
      ⟨location.ID, location.ID + (s + su + f), 0⟩ "ensure") = e) :
    origins buildID
        (.mk none none none (some ⟨step, onFailure, onSuccess, onCompletion, next⟩)
          c co ta g p pg) location hook =
      origins buildID step location hook ++
      origins buildID onFailure ⟨location.ID, location.ID + s, 0⟩ "failure" ++
      origins buildID onSuccess ⟨location.ID, location.ID + (s + f), 0⟩ "success" ++
      origins buildID onCompletion ⟨location.ID, location.ID + (s + su + f), 0⟩ "ensure" ++
      origins buildID next ⟨location.ParentID, location.ID + (s + su + f + e), 0⟩ hook := by
  subst hs hf hsu he
  rw [origins]
  rfl

theorem origins_Compose (buildID : Int) (a b : Plan)
    (co : Option ConditionalPlan) (ta : Option TaskPlan)
    (g : Option GetPlan) (p : Option PutPlan) (pg : Option PutGetPlan)
    (location : OriginLocation) (hook : String) (x : Nat)
    (hx : incrementOf (buildStepFactory buildID a location "") = x) :
    origins buildID (.mk none none none none (some ⟨a, b⟩) co ta g p pg) location hook =
      origins buildID a location "" ++ origins buildID b (location.Incr x) "" := by
  subst hx
  rw [origins]

theorem originsOfSteps_cons (buildID : Int) (innerPlan : Plan) (innerPlans : List Plan)
    (location : OriginLocation) (hook : String) (aID r : Nat)
    (hr : incrementOf (buildStepFactory buildID innerPlan (location.Incr aID)
      (if innerPlan.Aggregate.isNone then hook else "")) = r) :
    originsOfSteps buildID (innerPlan :: innerPlans) location hook aID =
      origins buildID innerPlan (location.Incr aID)
          (if innerPlan.Aggregate.isNone then hook else "") ++
        originsOfSteps buildID innerPlans location hook (aID + r) := by
  subst hr
  rw [originsOfSteps]

/-- Consecutive ranges join. -/
theorem range_append_of {l1 l2 : List Nat} {s n1 s2 n2 : Nat}
    (h1 : l1 = List.range' s n1) (h2 : l2 = List.range' s2 n2) (hs : s2 = s + n1) :
    l1 ++ l2 = List.range' s (n1 + n2) := by
  subst h1 h2 hs
  rw [Nat.add_comm n1 n2]
  exact List.range'_append_1 s n1 n2

theorem Origin.IDs_append (l1 l2 : List Origin) :
    Origin.IDs (l1 ++ l2) = Origin.IDs l1 ++ Origin.IDs l2 := by
  simp [Origin.IDs]

theorem Origin.stepIDs_append (l1 l2 : List Origin) :
    Origin.stepIDs (l1 ++ l2) = Origin.stepIDs l1 ++ Origin.stepIDs l2 := by
  simp [Origin.stepIDs]

theorem Origin.aggregateIDs_append (l1 l2 : List Origin) :
    Origin.aggregateIDs (l1 ++ l2) = Origin.aggregateIDs l1 ++ Origin.aggregateIDs l2 := by
  simp [Origin.aggregateIDs]

theorem Origin.IDs_cons (o : Origin) (l : List Origin) :
    Origin.IDs (o :: l) = o.ID :: Origin.IDs l := rfl

theorem Origin.stepIDs_cons_step (a : Nat) (l : List Origin) :
    Origin.stepIDs (⟨a, false⟩ :: l) = a :: Origin.stepIDs l := rfl

theorem Origin.stepIDs_cons_aggregate (a : Nat) (l : List Origin) :
    Origin.stepIDs (⟨a, true⟩ :: l) = Origin.stepIDs l := rfl

theorem Origin.aggregateIDs_cons_step (a : Nat) (l : List Origin) :
    Origin.aggregateIDs (⟨a, false⟩ :: l) = Origin.aggregateIDs l := rfl

theorem Origin.aggregateIDs_cons_aggregate (a : Nat) (l : List Origin) :
    Origin.aggregateIDs (⟨a, true⟩ :: l) = a :: Origin.aggregateIDs l := rfl

/-- Compiling a plan in which every `PutGet` head carries a `Put` succeeds; the
returned increment is the origin count of the plan; the IDs taken along the
traversal are `location.ID`, `location.ID + 1`, ... in this order; and the IDs
taken by steps and by aggregates are the ones of the compiled steps and of the
plan's aggregates. -/
theorem buildStepFactory_origins (buildID : Int) (plan : Plan) :
    plan.putGetHeadsHavePut = true → ∀ (location : OriginLocation) (hook : String),
    ∃ (sf : StepFactory) (n : Nat), buildStepFactory buildID plan location hook = some (sf, n) ∧
      n = plan.originCount ∧
      Origin.IDs (origins buildID plan location hook) = List.range' location.ID n ∧
      Origin.stepIDs (origins buildID plan location hook) = sf.originIDs ∧
      Origin.aggregateIDs (origins buildID plan location hook) =
        aggregateIDs buildID plan location hook := by
  refine aggregateIDs.induct buildID
    (fun plan _ _ => plan.putGetHeadsHavePut = true →
      ∀ (location : OriginLocation) (hook : String),
      ∃ (sf : StepFactory) (n : Nat), buildStepFactory buildID plan location hook = some (sf, n) ∧
        n = plan.originCount ∧
        Origin.IDs (origins buildID plan location hook) = List.range' location.ID n ∧
        Origin.stepIDs (origins buildID plan location hook) = sf.originIDs ∧
        Origin.aggregateIDs (origins buildID plan location hook) =
          aggregateIDs buildID plan location hook)
    (fun innerPlans _ _ _ => Plan.allPutGetHeadsHavePut innerPlans = true →
      ∀ (location : OriginLocation) (hook : String) (aID : Nat)
        (step : List StepFactory),
      ∃ (steps : List StepFactory) (n : Nat),
        buildAggregateSteps buildID innerPlans location hook aID step =
          some (step ++ steps, n) ∧
        n = aID + Plan.originCountOfMembers innerPlans ∧
        Origin.IDs (originsOfSteps buildID innerPlans location hook aID) =
          List.range' (location.ID + aID) (Plan.originCountOfMembers innerPlans) ∧
        Origin.stepIDs (originsOfSteps buildID innerPlans location hook aID) =
          (StepFactory.locationsOfSteps steps).map (·.ID) ∧
        Origin.aggregateIDs (originsOfSteps buildID innerPlans location hook aID) =
          aggregateIDsOfSteps buildID innerPlans location hook aID)
    ?_ ?_ ?_ ?_ ?_ ?_ ?_ ?_ ?_ ?_ ?_ ?_ plan ⟨0, 0, 0⟩ ""
  · -- Aggregate
    intro innerPlans t ti h c co ta g p pg _ _ _ _ ih hwf location hook
    have hwf1 : Plan.allPutGetHeadsHavePut innerPlans = true := by
      simp only [Plan.putGetHeadsHavePut, Plan.aggregateHeadsHavePut, Bool.and_eq_true] at hwf
      exact hwf.1.1.1.1.1.1
    obtain ⟨steps, n, hb, hn, hids, hst, hag⟩ := ih hwf1 (aggregateLocation location) hook 1 []
    have hl : (aggregateLocation location).ID = location.ID := rfl
    rw [hl] at hids
    refine ⟨.Aggregate steps, n, ?_, ?_, ?_, ?_, ?_⟩
    · rw [buildStepFactory_Aggregate, hb]; rfl
    · rw [Plan.originCount]; exact hn
    · rw [origins_Aggregate, Origin.IDs_cons, hn]
      exact range_append_of (List.range'_one).symm hids rfl
    · rw [origins_Aggregate, Origin.stepIDs_cons_aggregate, hst]
      rfl
    · rw [origins_Aggregate, Origin.aggregateIDs_cons_aggregate, hag, aggregateIDs_Aggregate]
  · -- Try
    intro step ti h c co ta g p pg _ _ ih hwf location hook
    have hwf1 : step.putGetHeadsHavePut = true := by
      simp only [Plan.putGetHeadsHavePut, Plan.tryHeadsHavePut, Bool.and_eq_true] at hwf
      exact hwf.1.1.1.1.1.2
    obtain ⟨sf, n, hb, hn, hids, hst, hag⟩ := ih hwf1 location ""
    refine ⟨.Try sf, n, by rw [buildStepFactory_Try, hb]; rfl, ?_, ?_, ?_, ?_⟩
    · rw [Plan.originCount]; exact hn
    · rw [origins]; exact hids
    · rw [origins]; exact hst
    · rw [origins, aggregateIDs]; exact hag
  · -- Timeout
    intro step duration h c co ta g p pg _ _ ih hwf location hook
    have hwf1 : step.putGetHeadsHavePut = true := by
      simp only [Plan.putGetHeadsHavePut, Plan.timeoutHeadsHavePut, Bool.and_eq_true] at hwf
      exact hwf.1.1.1.1.2
    obtain ⟨sf, n, hb, hn, hids, hst, hag⟩ := ih hwf1 location ""
    refine ⟨.Timeout sf duration, n, by rw [buildStepFactory_Timeout, hb]; rfl, ?_, ?_, ?_, ?_⟩
    · rw [Plan.originCount]; exact hn
    · rw [origins]; exact hids
    · rw [origins]; exact hst
    · rw [origins, aggregateIDs]; exact hag
  · -- HookedCompose
    intro step onFailure onSuccess onCompletion next c co ta g p pg location0 hook0
      _ _ _ _ _ _ _ _ ih1 ih2 ih3 ih4 ih5 hwf location hook
    have hwf1 : step.putGetHeadsHavePut = true ∧ onFailure.putGetHeadsHavePut = true ∧
        onSuccess.putGetHeadsHavePut = true ∧ onCompletion.putGetHeadsHavePut = true ∧
        next.putGetHeadsHavePut = true := by
      simp only [Plan.putGetHeadsHavePut, Plan.hookedHeadsHavePut, Bool.and_eq_true] at hwf
      tauto
    obtain ⟨hw1, hw2, hw3, hw4, hw5⟩ := hwf1
    obtain ⟨sf1, n1, hb1, hn1, hids1, hst1, hag1⟩ := ih1 hw1 location hook
    obtain ⟨sf2, n2, hb2, hn2, hids2, hst2, hag2⟩ :=
      ih2 hw2 ⟨location.ID, location.ID + n1, 0⟩ "failure"
    obtain ⟨sf3, n3, hb3, hn3, hids3, hst3, hag3⟩ :=
      ih3 hw3 ⟨location.ID, location.ID + (n1 + n2), 0⟩ "success"
    obtain ⟨sf4, n4, hb4, hn4, hids4, hst4, hag4⟩ :=
      ih4 hw4 ⟨location.ID, location.ID + (n1 + n3 + n2), 0⟩ "ensure"
    obtain ⟨sf5, n5, hb5, hn5, hids5, hst5, hag5⟩ := ih5 hw5
      ⟨location.ParentID, location.ID + (n1 + n3 + n2 + n4), 0⟩ hook
    have ho := origins_HookedCompose buildID step onFailure onSuccess onCompletion next c co ta
      g p pg location hook n1 n2 n3 n4 (by rw [hb1]; rfl) (by rw [hb2]; rfl) (by rw [hb3]; rfl)
      (by rw [hb4]; rfl)
    refine ⟨.HookedCompose sf1 sf5 sf2 sf3 sf4, n1 + n5 + n4 + n2 + n3, ?_, ?_, ?_, ?_, ?_⟩
    · rw [buildStepFactory_HookedCompose, hb1]
      simp only [Option.bind]
      rw [hb2]
      simp only []
      rw [hb3]
      simp only []
      rw [hb4]
      simp only []
      rw [hb5]
    · rw [Plan.originCount, ← hn1, ← hn2, ← hn3, ← hn4, ← hn5]
      omega
    · rw [ho]
      simp only [Origin.IDs_append]
      have h12 := range_append_of hids1 hids2 rfl
      have h123 := range_append_of h12 hids3 rfl
      have h1234 := range_append_of h123 hids4 (by simp only []; omega)
      have h12345 := range_append_of h1234 hids5 (by simp only []; omega)
      rw [h12345]
      congr 1
      omega
    · rw [ho]
      simp only [Origin.stepIDs_append, hst1, hst2, hst3, hst4, hst5, StepFactory.originIDs,
        StepFactory.locations, List.map_append]
    · rw [ho, aggregateIDs_HookedCompose buildID step onFailure onSuccess onCompletion next c co
        ta g p pg location hook n1 n2 n3 n4 (by rw [hb1]; rfl) (by rw [hb2]; rfl)
        (by rw [hb3]; rfl) (by rw [hb4]; rfl)]
      simp only [Origin.aggregateIDs_append, hag1, hag2, hag3, hag4, hag5]
  · -- Compose
    intro a b co ta g p pg _ _ _ ih1 ih2 hwf location hook
    have hwf1 : a.putGetHeadsHavePut = true ∧ b.putGetHeadsHavePut = true := by
      simp only [Plan.putGetHeadsHavePut, Plan.composeHeadsHavePut, Bool.and_eq_true] at hwf
      tauto
    obtain ⟨sf1, n1, hb1, hn1, hids1, hst1, hag1⟩ := ih1 hwf1.1 location ""
    obtain ⟨sf2, n2, hb2, hn2, hids2, hst2, hag2⟩ := ih2 hwf1.2 (location.Incr n1) ""
    have ho := origins_Compose buildID a b co ta g p pg location hook n1 (by rw [hb1]; rfl)
    refine ⟨.Compose sf1 sf2, n1 + n2, ?_, ?_, ?_, ?_, ?_⟩
    · rw [buildStepFactory_Compose, hb1]
      simp only [Option.bind]
      rw [hb2]
    · rw [Plan.originCount, ← hn1, ← hn2]
    · rw [ho, Origin.IDs_append]
      exact range_append_of hids1 hids2 rfl
    · rw [ho]
      simp only [Origin.stepIDs_append, hst1, hst2, StepFactory.originIDs,
        StepFactory.locations, List.map_append]
    · rw [ho, aggregateIDs_Compose buildID a b co ta g p pg location hook n1 (by rw [hb1]; rfl)]
      simp only [Origin.aggregateIDs_append, hag1, hag2]
  · -- Conditional
    intro conditions plan ta g p pg _ _ ih hwf location hook
    have hwf1 : plan.putGetHeadsHavePut = true := by
      simp only [Plan.putGetHeadsHavePut, Plan.conditionalHeadsHavePut, Bool.and_eq_true] at hwf
      exact hwf.1.2
    obtain ⟨sf, n, hb, hn, hids, hst, hag⟩ := ih hwf1 location ""
    refine ⟨.Conditional conditions sf, n, by rw [buildStepFactory_Conditional, hb]; rfl,
      ?_, ?_, ?_, ?_⟩
    · rw [Plan.originCount]; exact hn
    · rw [origins]; exact hids
    · rw [origins]; exact hst
    · rw [origins, aggregateIDs]; exact hag
  · -- Task
    intro task g p pg _ _ _ location hook
    by_cases hcfg : (task.Config.isSome || task.ConfigPath ≠ "") = true
    · obtain ⟨cs, hb⟩ := buildStepFactory_Task buildID task g p pg location hook hcfg
      refine ⟨_, 1, hb, ?_, ?_, ?_, ?_⟩
      · rw [Plan.originCount]; simp only [hcfg, if_true]
      · rw [origins]; simp only [hcfg, if_true]; rfl
      · rw [origins]; simp only [hcfg, if_true]; rfl
      · rw [origins, aggregateIDs]; simp only [hcfg, if_true]; rfl
    · have hcfg1 : (task.Config.isSome || task.ConfigPath ≠ "") = false := by
        simpa using hcfg
      refine ⟨_, 0, buildStepFactory_Task_unconfigured buildID task g p pg location hook hcfg1,
        ?_, ?_, ?_, ?_⟩
      · rw [Plan.originCount]; simp only [hcfg1]; rfl
      · rw [origins]; simp only [hcfg1]; rfl
      · rw [origins]; simp only [hcfg1]; rfl
      · rw [origins, aggregateIDs]; simp only [hcfg1]; rfl
  · -- Get
    intro get p pg _ _ _ location hook
    refine ⟨_, 1, buildStepFactory_Get buildID get p pg location hook, ?_, ?_, ?_, ?_⟩
    · rw [Plan.originCount]
    · rw [origins]; rfl
    · rw [origins]; rfl
    · rw [origins, aggregateIDs]; rfl
  · -- PutGet
    intro p head rest _ _ ih hwf location hook
    have hwf1 : head.Put.isSome = true ∧ rest.putGetHeadsHavePut = true := by
      simp only [Plan.putGetHeadsHavePut, Plan.putGetHeadHasPut, Bool.and_eq_true] at hwf
      tauto
    obtain ⟨putPlan, hput⟩ := Option.isSome_iff_exists.1 hwf1.1
    obtain ⟨sf, n, hb, hn, hids, hst, hag⟩ := ih hwf1.2 (location.Incr 2) ""
    have heq := buildStepFactory_PutGet buildID head rest putPlan p location hook hput
    rw [hb] at heq
    simp only [Option.some_bind] at heq
    refine ⟨_, 2 + n, heq, ?_, ?_, ?_, ?_⟩
    · rw [Plan.originCount, ← hn]
    · rw [origins, Origin.IDs_cons, Origin.IDs_cons]
      have h2 : [location.ID, location.ID + 1] = List.range' location.ID 2 := rfl
      exact range_append_of h2 hids rfl
    · rw [origins, Origin.stepIDs_cons_step, Origin.stepIDs_cons_step, hst]
      simp only [StepFactory.originIDs, StepFactory.locations, List.map_append, List.map_cons,
        List.map_nil, List.nil_append, List.append_nil]
      rfl
    · rw [origins, Origin.aggregateIDs_cons_step, Origin.aggregateIDs_cons_step, hag,
        aggregateIDs]
  · -- no compiled kind
    intro p _ _ _ location hook
    refine ⟨_, 0, buildStepFactory_none buildID p location hook, ?_, ?_, ?_, ?_⟩
    · rw [Plan.originCount]
    · rw [origins]; rfl
    · rw [origins]; rfl
    · rw [origins, aggregateIDs]; rfl
  · -- no member left
    intro _ _ _ _ location hook aID step
    refine ⟨[], aID, by rw [buildAggregateSteps]; simp, ?_, ?_, ?_, ?_⟩
    · rw [Plan.originCountOfMembers]; rfl
    · rw [originsOfSteps, Plan.originCountOfMembers]; rfl
    · rw [originsOfSteps]; rfl
    · rw [originsOfSteps, aggregateIDsOfSteps]; rfl
  · -- one more member
    intro innerPlan innerPlans _ _ _ _ _ ih1 ih2 hwf location hook aID step
    have hwf1 : innerPlan.putGetHeadsHavePut = true ∧
        Plan.allPutGetHeadsHavePut innerPlans = true := by
      simpa only [Plan.allPutGetHeadsHavePut, Bool.and_eq_true] using hwf
    obtain ⟨sf, n, hb, hn, hids, hst, hag⟩ := ih1 hwf1.1 (location.Incr aID)
      (if innerPlan.Aggregate.isNone then hook else "")
    obtain ⟨steps, m, hbs, hm, hidss, hsts, hags⟩ :=
      ih2 hwf1.2 location hook (aID + n) (step ++ [sf])
    have ho := originsOfSteps_cons buildID innerPlan innerPlans location hook aID n
      (by rw [hb]; rfl)
    refine ⟨sf :: steps, m, ?_, ?_, ?_, ?_, ?_⟩
    · rw [buildAggregateSteps_cons, hb]
      simp only [Option.bind]
      rw [hbs]
      simp
    · rw [Plan.originCountOfMembers, hm, hn]
      omega
    · rw [ho, Origin.IDs_append, Plan.originCountOfMembers, ← hn]
      exact range_append_of hids hidss
        (show location.ID + (aID + n) = location.ID + aID + n by omega)
    · rw [ho, Origin.stepIDs_append, hst, hsts]
      simp only [StepFactory.originIDs, StepFactory.locationsOfSteps, List.map_append]
    · rw [ho, Origin.aggregateIDs_append, hag, hags,
        aggregateIDsOfSteps_cons buildID innerPlan innerPlans location hook aID n
          (by rw [hb]; rfl)]


/-- Every origin is taken by a step or by an aggregate. -/
theorem Origin.mem_IDs_iff (l : List Origin) (a : Nat) :
    a ∈ Origin.IDs l ↔ a ∈ Origin.stepIDs l ∨ a ∈ Origin.aggregateIDs l := by
  induction l with
  | nil => simp [Origin.IDs, Origin.stepIDs, Origin.aggregateIDs]
  | cons o l ih =>
    obtain ⟨id, tag⟩ := o
    cases tag with
    | false =>
      rw [Origin.IDs_cons, Origin.stepIDs_cons_step, Origin.aggregateIDs_cons_step,
        List.mem_cons, List.mem_cons, ih, or_assoc]
    | true =>
      rw [Origin.IDs_cons, Origin.stepIDs_cons_aggregate, Origin.aggregateIDs_cons_aggregate,
        List.mem_cons, List.mem_cons, ih]
      tauto

/-- C23: for every plan in which each `PutGet` head carries a `Put`, and every
start location `L` and hook, `buildStepFactory` returns an increment `n` that
equals the number of origin IDs consumed in the plan (one per `Get`, one per
`Task` with a config or a config path, one per `Aggregate`, two per `PutGet`,
none for a `Task` without config and for an empty plan); the IDs taken along
the traversal (an aggregate, then its members in list order; step, onFailure,
onSuccess, onCompletion, next; A then B; Put, dependent Get, rest) are `L.ID`,
`L.ID + 1`, ..., `L.ID + n - 1` in this order; the IDs taken by steps are the
origin IDs of the compiled steps and the IDs taken by aggregates are the IDs
of the plan's aggregates, so these are exactly the IDs from `L.ID` to
`L.ID + n - 1`. -/
theorem buildStepFactory_origin_count (buildID : Int) (plan : Plan)
    (location : OriginLocation) (hook : String) (h : plan.putGetHeadsHavePut = true) :
    ∃ (sf : StepFactory) (n : Nat), buildStepFactory buildID plan location hook = some (sf, n) ∧
      n = plan.originCount ∧
      Origin.IDs (origins buildID plan location hook) = List.range' location.ID n ∧
      Origin.stepIDs (origins buildID plan location hook) = sf.originIDs ∧
      Origin.aggregateIDs (origins buildID plan location hook) =
        aggregateIDs buildID plan location hook ∧
      (∀ a, (location.ID ≤ a ∧ a < location.ID + n) ↔
        (a ∈ sf.originIDs ∨ a ∈ aggregateIDs buildID plan location hook)) := by
  obtain ⟨sf, n, hb, hn, hids, hst, hag⟩ := buildStepFactory_origins buildID plan h location hook
  refine ⟨sf, n, hb, hn, hids, hst, hag, ?_⟩
  intro a
  rw [← hst, ← hag, ← Origin.mem_IDs_iff, hids, List.mem_range'_1]

/-- A plan for C23: an aggregate of a get, a put with its dependent get, a
nested aggregate and a hooked get with an empty aggregate as failure hook,
compiled from the root location of `Resume`. -/
theorem buildStepFactory_origin_count_witness :
    ∃ (sf : StepFactory) (n : Nat),
      buildStepFactory 7
        (Plan.ofAggregate
          [Plan.ofGet ⟨"git", "a", "a", "p", [], [], [], []⟩,
           Plan.ofPutGet (Plan.ofPut ⟨"git", "o", "o", "p", [], [], [], []⟩) Plan.empty,
           Plan.ofAggregate [Plan.ofGet ⟨"git", "b", "b", "p", [], [], [], []⟩],
           Plan.ofHookedCompose (Plan.ofGet ⟨"git", "c", "c", "p", [], [], [], []⟩)
             (Plan.ofAggregate []) Plan.empty Plan.empty
             (Plan.ofGet ⟨"git", "d", "d", "p", [], [], [], []⟩)])
        ⟨0, 1, 0⟩ "" = some (sf, n) ∧
      n = (Plan.ofAggregate
          [Plan.ofGet ⟨"git", "a", "a", "p", [], [], [], []⟩,
           Plan.ofPutGet (Plan.ofPut ⟨"git", "o", "o", "p", [], [], [], []⟩) Plan.empty,
           Plan.ofAggregate [Plan.ofGet ⟨"git", "b", "b", "p", [], [], [], []⟩],
           Plan.ofHookedCompose (Plan.ofGet ⟨"git", "c", "c", "p", [], [], [], []⟩)
             (Plan.ofAggregate []) Plan.empty Plan.empty
             (Plan.ofGet ⟨"git", "d", "d", "p", [], [], [], []⟩)]).originCount ∧
      Origin.IDs (origins 7
        (Plan.ofAggregate
          [Plan.ofGet ⟨"git", "a", "a", "p", [], [], [], []⟩,
           Plan.ofPutGet (Plan.ofPut ⟨"git", "o", "o", "p", [], [], [], []⟩) Plan.empty,
           Plan.ofAggregate [Plan.ofGet ⟨"git", "b", "b", "p", [], [], [], []⟩],
           Plan.ofHookedCompose (Plan.ofGet ⟨"git", "c", "c", "p", [], [], [], []⟩)
             (Plan.ofAggregate []) Plan.empty Plan.empty
             (Plan.ofGet ⟨"git", "d", "d", "p", [], [], [], []⟩)])
        ⟨0, 1, 0⟩ "") = List.range' (⟨0, 1, 0⟩ : OriginLocation).ID n ∧
      Origin.stepIDs (origins 7
        (Plan.ofAggregate
          [Plan.ofGet ⟨"git", "a", "a", "p", [], [], [], []⟩,
           Plan.ofPutGet (Plan.ofPut ⟨"git", "o", "o", "p", [], [], [], []⟩) Plan.empty,
           Plan.ofAggregate [Plan.ofGet ⟨"git", "b", "b", "p", [], [], [], []⟩],
           Plan.ofHookedCompose (Plan.ofGet ⟨"git", "c", "c", "p", [], [], [], []⟩)
             (Plan.ofAggregate []) Plan.empty Plan.empty
             (Plan.ofGet ⟨"git", "d", "d", "p", [], [], [], []⟩)])
        ⟨0, 1, 0⟩ "") = sf.originIDs ∧
      Origin.aggregateIDs (origins 7
        (Plan.ofAggregate
          [Plan.ofGet ⟨"git", "a", "a", "p", [], [], [], []⟩,
           Plan.ofPutGet (Plan.ofPut ⟨"git", "o", "o", "p", [], [], [], []⟩) Plan.empty,
           Plan.ofAggregate [Plan.ofGet ⟨"git", "b", "b", "p", [], [], [], []⟩],
           Plan.ofHookedCompose (Plan.ofGet ⟨"git", "c", "c", "p", [], [], [], []⟩)
             (Plan.ofAggregate []) Plan.empty Plan.empty
             (Plan.ofGet ⟨"git", "d", "d", "p", [], [], [], []⟩)])
        ⟨0, 1, 0⟩ "") =
        aggregateIDs 7
        (Plan.ofAggregate
          [Plan.ofGet ⟨"git", "a", "a", "p", [], [], [], []⟩,
           Plan.ofPutGet (Plan.ofPut ⟨"git", "o", "o", "p", [], [], [], []⟩) Plan.empty,
           Plan.ofAggregate [Plan.ofGet ⟨"git", "b", "b", "p", [], [], [], []⟩],
           Plan.ofHookedCompose (Plan.ofGet ⟨"git", "c", "c", "p", [], [], [], []⟩)
             (Plan.ofAggregate []) Plan.empty Plan.empty
             (Plan.ofGet ⟨"git", "d", "d", "p", [], [], [], []⟩)])
        ⟨0, 1, 0⟩ "" ∧
      (∀ a, ((⟨0, 1, 0⟩ : OriginLocation).ID ≤ a ∧ a < (⟨0, 1, 0⟩ : OriginLocation).ID + n) ↔
        (a ∈ sf.originIDs ∨ a ∈ aggregateIDs 7
        (Plan.ofAggregate
          [Plan.ofGet ⟨"git", "a", "a", "p", [], [], [], []⟩,
           Plan.ofPutGet (Plan.ofPut ⟨"git", "o", "o", "p", [], [], [], []⟩) Plan.empty,
           Plan.ofAggregate [Plan.ofGet ⟨"git", "b", "b", "p", [], [], [], []⟩],
           Plan.ofHookedCompose (Plan.ofGet ⟨"git", "c", "c", "p", [], [], [], []⟩)
             (Plan.ofAggregate []) Plan.empty Plan.empty
             (Plan.ofGet ⟨"git", "d", "d", "p", [], [], [], []⟩)])
        ⟨0, 1, 0⟩ "")) :=
  buildStepFactory_origin_count 7 _ ⟨0, 1, 0⟩ "" (by decide)


end Atc
